import Mathlib

/-!
# Night Highway Patrol: rasterizer and simulation step

A shallow embedding of `src/main.cpp`.

* `int` variables are unbounded integers (`Int`); for `drawLineBresenham` a
  second model on 32-bit integers is shown to agree with it for coordinates
  below `2^28`.
* `float` variables are exact rationals (`ℚ`).  Where the rounding of the
  binary32 operations decides a count or a test, the operations are rounded
  with `f32` (round to nearest, ties to even): in `drawLineDDA`, and in second
  models of `checkCollisionScaled` (`checkCollisionScaled32`) and of the
  time-score block of `updateGame` (`timeScore32`).
* Functions that draw are modelled by the list of pixels they hand to
  `glVertex2i`, in emission order.
* Loops without an evident bound (`drawLineBresenham`, `drawCircleMidpoint`)
  take a fuel argument and return `none` when it runs out.
* The global variables form the record `GameState`, which the game functions
  take and return; calls of `rand()` read a stream of values held in the state.
* The C library function `sinf` is a parameter `sinf : ℚ → ℚ` of the step.
-/

namespace NightPatrol

/-! ## Binary32 arithmetic -/

/-- The binary logarithm of a natural number, rounded down (zero for 0 and 1),
by halving at most `fuel` times. -/
def log2Fuel : Nat → Nat → Nat
  | 0, _ => 0
  | fuel + 1, n => if 2 ≤ n then log2Fuel fuel (n / 2) + 1 else 0

/-- The binary exponent of a rational `q ≠ 0`: the integer `e` with
`2 ^ e ≤ |q| < 2 ^ (e + 1)`. -/
def floorLog2 (q : ℚ) : Int :=
  let e0 : Int := (log2Fuel q.num.natAbs q.num.natAbs : Int) - (log2Fuel q.den q.den : Int)
  if (2 : ℚ) ^ e0 ≤ |q| then e0 else e0 - 1

/-- Rounding to the nearest integer, halfway cases to the even one. -/
def roundEven (q : ℚ) : Int :=
  if q - ⌊q⌋ < 1 / 2 then ⌊q⌋
  else if q - ⌊q⌋ > 1 / 2 then ⌊q⌋ + 1
  else if ⌊q⌋ % 2 = 0 then ⌊q⌋ else ⌊q⌋ + 1

/-- The spacing of the binary32 values around `q`: 24 significant bits, and
the fixed spacing `2 ^ (-149)` of the subnormal range below `2 ^ (-126)`. -/
def ulp32 (q : ℚ) : ℚ := 2 ^ (max (floorLog2 q) (-126) - 23)

/-- The binary32 value of the exact result `q` of a `float` operation: round
to nearest, ties to even, as `x2 - x1`, `dx / steps`, `x += xInc` and
`scoreTimer += dt` round in the source.  Results of magnitude `2^128` and up,
which the operations turn into infinity, are outside the model. -/
def f32 (q : ℚ) : ℚ := (roundEven (q / ulp32 q) : ℚ) * ulp32 q

/-- A rational that is a binary32 value: rounding leaves it as it is. -/
def isBinary32 (q : ℚ) : Prop := f32 q = q

instance (q : ℚ) : Decidable (isBinary32 q) := by
  unfold isBinary32
  infer_instance

/-! ## Rasterizer -/

/-- A pixel: the pair of integers passed to `glVertex2i`. -/
abbrev Pixel := Int × Int

/-- One pass through the body of the `while(true)` loop of `drawLineBresenham`
after the `break` test: the new values of `(x1, y1, err)`. -/
def bresenhamStep (dx dy sx sy : Int) (x1 y1 err : Int) : Int × Int × Int :=
  let e2 := 2 * err
  let errA := if e2 > -dy then err - dy else err
  let xA := if e2 > -dy then x1 + sx else x1
  let errB := if e2 < dx then errA + dx else errA
  let yB := if e2 < dx then y1 + sy else y1
  (xA, yB, errB)

/-- The `while(true)` loop of `drawLineBresenham`, run for at most `fuel`
iterations.  `none` means the loop was still running when the fuel ran out. -/
def bresenhamLoop (x2 y2 dx dy sx sy : Int) : Nat → Int → Int → Int → Option (List Pixel)
  | 0, _, _, _ => none
  | fuel + 1, x1, y1, err =>
    if x1 = x2 ∧ y1 = y2 then some [(x1, y1)]
    else
      match bresenhamLoop x2 y2 dx dy sx sy fuel
          (bresenhamStep dx dy sx sy x1 y1 err).1
          (bresenhamStep dx dy sx sy x1 y1 err).2.1
          (bresenhamStep dx dy sx sy x1 y1 err).2.2 with
      | none => none
      | some ps => some ((x1, y1) :: ps)

/-- The pixels emitted by `drawLineBresenham(x1, y1, x2, y2)`. -/
def drawLineBresenham (fuel : Nat) (x1 y1 x2 y2 : Int) : Option (List Pixel) :=
  let dx := |x2 - x1|
  let dy := |y2 - y1|
  let sx : Int := if x1 < x2 then 1 else -1
  let sy : Int := if y1 < y2 then 1 else -1
  let err := dx - dy
  bresenhamLoop x2 y2 dx dy sx sy fuel x1 y1 err

/-- Two pixels are 8-neighbours: they differ by at most one in each coordinate
and are not the same pixel. -/
def adjacent8 (p q : Pixel) : Prop :=
  |q.1 - p.1| ≤ 1 ∧ |q.2 - p.2| ≤ 1 ∧ p ≠ q

/-- C `roundf`: round to the nearest integer, halfway cases away from zero. -/
def roundf (q : ℚ) : Int :=
  if 0 ≤ q then ⌊q + 1 / 2⌋ else -⌊-q + 1 / 2⌋

/-- The C conversion `(int)q` of a float: truncation toward zero. -/
def truncToInt (q : ℚ) : Int :=
  if 0 ≤ q then ⌊q⌋ else ⌈q⌉

/-- The `for` loop of `drawLineDDA`, with `n` iterations left: each iteration
emits the rounded current point and advances it by the increments, the sums
being rounded to binary32. -/
def ddaLoop : Nat → ℚ → ℚ → ℚ → ℚ → List Pixel
  | 0, _, _, _, _ => []
  | n + 1, x, y, xInc, yInc =>
    (roundf x, roundf y) :: ddaLoop n (f32 (x + xInc)) (f32 (y + yInc)) xInc yInc

/-- The pixels emitted by `drawLineDDA(x1, y1, x2, y2)`, with the differences,
the quotients and the sums rounded to binary32 as the `float` operations of
the source round them.  The loop `for (int i = 0; i <= (int)steps; ++i)` runs
`(int)steps + 1` times; the conversion `(int)steps` is defined for
`steps < 2^31`. -/
def drawLineDDA (x1 y1 x2 y2 : ℚ) : List Pixel :=
  let dx := f32 (x2 - x1)
  let dy := f32 (y2 - y1)
  let steps := if |dx| > |dy| then |dx| else |dy|
  if steps ≤ 0 then [(roundf x1, roundf y1)]
  else ddaLoop (truncToInt steps + 1).toNat x1 y1 (f32 (dx / steps)) (f32 (dy / steps))

/-- The lambda `plotCirclePoints` of `drawCircleMidpoint`: the eight pixels
emitted for the octant offset `(x, y)`. -/
def plotCirclePoints (xc yc x y : Int) : List Pixel :=
  [(xc + x, yc + y), (xc - x, yc + y), (xc + x, yc - y), (xc - x, yc - y),
   (xc + y, yc + x), (xc - y, yc + x), (xc + y, yc - x), (xc - y, yc - x)]

/-- The `while(x <= y)` loop of `drawCircleMidpoint`, run for at most `fuel`
tests of the loop condition.  `none` means the fuel ran out first. -/
def circleLoop (xc yc : Int) : Nat → Int → Int → Int → Option (List Pixel)
  | 0, _, _, _ => none
  | fuel + 1, x, y, p =>
    if x ≤ y then
      match circleLoop xc yc fuel (x + 1)
          (if p < 0 then y else y - 1)
          (if p < 0 then p + (2 * (x + 1) + 1) else p + (2 * ((x + 1) - (y - 1)) + 1)) with
      | none => none
      | some ps => some (plotCirclePoints xc yc x y ++ ps)
    else some []

/-- The pixels emitted by `drawCircleMidpoint(xc, yc, r)`. -/
def drawCircleMidpoint (fuel : Nat) (xc yc r : Int) : Option (List Pixel) :=
  circleLoop xc yc fuel 0 r (1 - r)

/-- A pixel list is closed under the three axis reflections about `(xc, yc)`
and under the swap of the two offsets. -/
def Symmetric8 (xc yc : Int) (ps : List Pixel) : Prop :=
  ∀ dx dy : Int, (xc + dx, yc + dy) ∈ ps →
    (xc - dx, yc + dy) ∈ ps ∧ (xc + dx, yc - dy) ∈ ps ∧
    (xc - dx, yc - dy) ∈ ps ∧ (xc + dy, yc + dx) ∈ ps

/-! ## Spatial utilities -/

/-- The function `getScaleForY`: the perspective scale, constantly one. -/
def getScaleForY (_y : ℚ) : ℚ := 1

/-- The function `rectOverlap` (the margin is passed explicitly; the C++
default is 8). -/
def rectOverlap (x1 y1 w1 h1 x2 y2 w2 h2 margin : ℚ) : Bool :=
  let leftA := x1 - w1 / 2 - margin
  let rightA := x1 + w1 / 2 + margin
  let bottomA := y1
  let topA := y1 + h1
  let leftB := x2 - w2 / 2 - margin
  let rightB := x2 + w2 / 2 + margin
  let bottomB := y2
  let topB := y2 + h2
  !(decide (leftA > rightB) || decide (rightA < leftB) ||
    decide (topA < bottomB) || decide (bottomA > topB))

/-- The function `checkCollisionScaled`. -/
def checkCollisionScaled (x1 y1 w1 h1 x2 y2 w2 h2 : ℚ) : Bool :=
  let s1 := getScaleForY y1
  let s2 := getScaleForY y2
  let ew1 := w1 * s1
  let eh1 := h1 * s1
  let ew2 := w2 * s2
  let eh2 := h2 * s2
  decide (x1 - ew1 / 2 < x2 + ew2 / 2) && decide (x1 + ew1 / 2 > x2 - ew2 / 2) &&
    decide (y1 < y2 + eh2) && decide (y1 + eh1 > y2)

/-- The function `checkCollisionScaled` on binary32 values: every product,
quotient, sum and difference of the source is rounded. -/
def checkCollisionScaled32 (x1 y1 w1 h1 x2 y2 w2 h2 : ℚ) : Bool :=
  let s1 := getScaleForY y1
  let s2 := getScaleForY y2
  let ew1 := f32 (w1 * s1)
  let eh1 := f32 (h1 * s1)
  let ew2 := f32 (w2 * s2)
  let eh2 := f32 (h2 * s2)
  decide (f32 (x1 - f32 (ew1 / 2)) < f32 (x2 + f32 (ew2 / 2))) &&
    decide (f32 (x1 + f32 (ew1 / 2)) > f32 (x2 - f32 (ew2 / 2))) &&
    decide (y1 < f32 (y2 + eh2)) && decide (f32 (y1 + eh1) > y2)

/-- The closed extent `[x - w/2, x + w/2] × [y, y + h]` of a box anchored at
its bottom centre contains the point `(px, py)`. -/
def inClosedBox (x y w h px py : ℚ) : Prop :=
  x - w / 2 ≤ px ∧ px ≤ x + w / 2 ∧ y ≤ py ∧ py ≤ y + h

/-- The open extent of a box contains the point `(px, py)`. -/
def inOpenBox (x y w h px py : ℚ) : Prop :=
  x - w / 2 < px ∧ px < x + w / 2 ∧ y < py ∧ py < y + h

/-- Two boxes touch: their closed extents share a point, and no shared point
lies in the interior of both. -/
def touchOnly (x1 y1 w1 h1 x2 y2 w2 h2 : ℚ) : Prop :=
  (∃ px py, inClosedBox x1 y1 w1 h1 px py ∧ inClosedBox x2 y2 w2 h2 px py) ∧
  ∀ px py, inClosedBox x1 y1 w1 h1 px py → inClosedBox x2 y2 w2 h2 px py →
    ¬(inOpenBox x1 y1 w1 h1 px py ∧ inOpenBox x2 y2 w2 h2 px py)

/-! ## Game state -/

/-- The constant `WIDTH`. -/
def WIDTH : Int := 800

/-- The constant `HEIGHT`. -/
def HEIGHT : Int := 600

/-- The constant `ROAD_LEFT`. -/
def ROAD_LEFT : ℚ := 200

/-- The constant `ROAD_RIGHT`. -/
def ROAD_RIGHT : ℚ := 600

/-- The constant `LANE_COUNT`. -/
def LANE_COUNT : Int := 3

/-- The constant `SCORE_INTERVAL`. -/
def SCORE_INTERVAL : ℚ := 8 / 10

/-- The constant `BASE_VEH_W`. -/
def BASE_VEH_W : ℚ := 44

/-- The constant `BASE_VEH_H`. -/
def BASE_VEH_H : ℚ := 66

/-- The C library constant `RAND_MAX` (it is not defined in the repository; the
value is the one of glibc, and only `0 < RAND_MAX` is ever used). -/
def RAND_MAX : Nat := 2147483647

/-- The state of the C library random generator, as the stream of the values
that future calls of `rand()` return (each reduced into `0 .. RAND_MAX`). -/
abbrev Rng := Nat → Nat

/-- One call of `rand()`: the value returned and the generator afterwards. -/
def rand (g : Rng) : Nat × Rng :=
  (g 0 % (RAND_MAX + 1), fun n => g (n + 1))

/-- The function `randFloat`. -/
def randFloat (a b : ℚ) (g : Rng) : ℚ × Rng :=
  (a + (b - a) * (((rand g).1 : ℚ) / (RAND_MAX : ℚ)), (rand g).2)

/-- The function `randInt`; no random number is drawn when `a > b`. -/
def randInt (a b : Int) (g : Rng) : Int × Rng :=
  if a > b then (a, g)
  else (a + Int.tmod ((rand g).1 : Int) (b - a + 1), (rand g).2)

/-- The struct `PoliceCar`. -/
structure PoliceCar where
  x : ℚ
  y : ℚ
  width : ℚ
  height : ℚ
  sirenOn : Bool
  sirenBlink : Int
  vx : ℚ
  leftPressed : Bool
  rightPressed : Bool
  maxVx : ℚ

/-- The struct `Car` (a civilian vehicle; `type` is 0 = car, 1 = bus, 2 = bike). -/
structure Car where
  x : ℚ
  y : ℚ
  width : ℚ
  height : ℚ
  speed : ℚ
  color : Int
  type : Int
  lane : Int
  active : Bool

/-- The struct `CriminalCar`. -/
structure CriminalCar where
  baseX : ℚ
  x : ℚ
  y : ℚ
  width : ℚ
  height : ℚ
  speed : ℚ
  zigzag : ℚ
  active : Bool

/-- The struct `LaneMarker`. -/
structure LaneMarker where
  x : ℚ
  y : ℚ

/-- All global variables of the program that the game logic reads or writes,
together with the random generator. -/
structure GameState where
  gameOver : Bool
  paused : Bool
  score : Int
  gameSpeed : ℚ
  scoreTimer : ℚ
  criminalsCaught : Int
  police : PoliceCar
  criminal : CriminalCar
  civilianCars : List Car
  laneMarkers : List LaneMarker
  stars : List (Int × Int)
  LANE_X : List ℚ
  rng : Rng

/-- A value-initialised `Car`, as produced by `civilianCars.resize`. -/
def zeroCar : Car :=
  { x := 0, y := 0, width := 0, height := 0, speed := 0, color := 0, type := 0, lane := 0,
    active := false }

/-- The globals as their initialisers leave them at program start, before
`init()` calls `initGame`. -/
def initialGlobals (g : Rng) : GameState :=
  { gameOver := false
    paused := false
    score := 0
    gameSpeed := 1
    scoreTimer := 0
    criminalsCaught := 0
    police :=
      { x := (WIDTH : ℚ) / 2, y := 80, width := BASE_VEH_W, height := BASE_VEH_H, sirenOn := true,
        sirenBlink := 0, vx := 0, leftPressed := false, rightPressed := false, maxVx := 250 }
    criminal :=
      { baseX := (WIDTH : ℚ) / 2, x := (WIDTH : ℚ) / 2, y := (HEIGHT : ℚ) + 100,
        width := BASE_VEH_W, height := BASE_VEH_H, speed := 25 / 10, zigzag := 0, active := true }
    civilianCars := []
    laneMarkers := []
    stars := []
    LANE_X := [0, 0, 0]
    rng := g }

/-- The function `laneX`: the lane index is clamped into `0 .. LANE_COUNT - 1`. -/
def laneX (lanes : List ℚ) (lane : Int) : ℚ :=
  let lane1 := if lane < 0 then 0 else lane
  let lane2 := if lane1 ≥ LANE_COUNT then LANE_COUNT - 1 else lane1
  lanes.getD lane2.toNat 0

/-! ## Spawner -/

/-- The function `generateRandomCivilianTemplate`.  The fields `x`, `y` and
`lane` are left uninitialised by the source; they are written before they are
read, and are zero here. -/
def generateRandomCivilianTemplate (g : Rng) : Car × Rng :=
  let rType := randInt 0 2 g
  let rColor := randInt 0 4 rType.2
  if rType.1 = 0 then
    let rW := randInt 30 42 rColor.2
    let rH := randInt 45 60 rW.2
    let rS := randFloat 0 (12 / 10) rH.2
    ({ x := 0, y := 0, width := rW.1, height := rH.1, speed := 16 / 10 + rS.1,
       color := rColor.1, type := rType.1, lane := 0, active := true }, rS.2)
  else if rType.1 = 1 then
    let rW := randInt 48 62 rColor.2
    let rH := randInt 55 70 rW.2
    let rS := randFloat 0 (6 / 10) rH.2
    ({ x := 0, y := 0, width := rW.1, height := rH.1, speed := 9 / 10 + rS.1,
       color := rColor.1, type := rType.1, lane := 0, active := true }, rS.2)
  else
    let rW := randInt 18 24 rColor.2
    let rH := randInt 30 42 rW.2
    let rS := randFloat 0 1 rH.2
    ({ x := 0, y := 0, width := rW.1, height := rH.1, speed := 26 / 10 + rS.1,
       color := rColor.1, type := rType.1, lane := 0, active := true }, rS.2)

/-- The loop over `civilianCars` in `canPlaceAt`, from index `i` on. -/
def canPlaceAtCars (cx cy cw ch : ℚ) (ignoreIndex : Int) : List Car → Nat → Bool
  | [], _ => true
  | c :: cs, i =>
    if (i : Int) = ignoreIndex then canPlaceAtCars cx cy cw ch ignoreIndex cs (i + 1)
    else if c.active = false then canPlaceAtCars cx cy cw ch ignoreIndex cs (i + 1)
    else if rectOverlap cx cy cw ch c.x c.y c.width c.height 10 then false
    else canPlaceAtCars cx cy cw ch ignoreIndex cs (i + 1)

/-- The function `canPlaceAt`. -/
def canPlaceAt (s : GameState) (cx cy cw ch : ℚ) (ignoreIndex : Int) : Bool :=
  if canPlaceAtCars cx cy cw ch ignoreIndex s.civilianCars 0 = false then false
  else if s.criminal.active = true ∧
      rectOverlap cx cy cw ch s.criminal.x s.criminal.y s.criminal.width s.criminal.height 10
        = true then false
  else true

/-- The loop `while (attempt < tries && !placed)` of `spawnCivilianAtIndex`; it
runs at most `tries` times, and `fuel` counts the iterations still allowed. -/
def placeLoop (s : GameState) (idx tries : Int) :
    Nat → Int → Car → Bool → Rng → Car × Bool × Rng
  | 0, _, car, placed, g => (car, placed, g)
  | fuel + 1, attempt, car, placed, g =>
    if attempt < tries ∧ placed = false then
      let rLane := randInt 0 (LANE_COUNT - 1) g
      let rJit := randFloat (-12) 12 rLane.2
      let x := laneX s.LANE_X rLane.1 + rJit.1
      let rY := if Int.tmod idx 2 = 0 then randFloat 0 180 rJit.2 else randFloat 0 400 rJit.2
      let y : ℚ :=
        if Int.tmod idx 2 = 0 then (HEIGHT : ℚ) + 30 + rY.1 + (attempt : ℚ) * 35
        else (HEIGHT : ℚ) + 180 + rY.1 + (attempt : ℚ) * 55
      placeLoop s idx tries fuel (attempt + 1)
        { car with lane := rLane.1, x := x, y := y }
        (canPlaceAt s x y car.width car.height idx) rY.2
    else (car, placed, g)

/-- The fallback loop `for (int k = 0; k < 80; ++k)` of `spawnCivilianAtIndex`,
with `n` iterations left. -/
def fallbackLoop (s : GameState) (idx : Int) : Nat → Car → Car
  | 0, car => car
  | n + 1, car =>
    if canPlaceAt s car.x (car.y + 65) car.width car.height idx then { car with y := car.y + 65 }
    else fallbackLoop s idx n { car with y := car.y + 65 }

/-- The function `spawnCivilianAtIndex`. -/
def spawnCivilianAtIndex (s : GameState) (idx tries : Int) : GameState :=
  if idx < 0 ∨ idx ≥ (s.civilianCars.length : Int) then s
  else
    let t := generateRandomCivilianTemplate s.rng
    let r := placeLoop s idx tries tries.toNat 0 t.1 false t.2
    let car := if r.2.1 = false then fallbackLoop s idx 80 r.1 else r.1
    { s with civilianCars := s.civilianCars.set idx.toNat car, rng := r.2.2 }

/-- The function `spawnCriminalOriginal`. -/
def spawnCriminalOriginal (s : GameState) : GameState :=
  let xleft := ROAD_LEFT + 60
  let xrange := (ROAD_RIGHT - ROAD_LEFT) - 120
  let rX := randFloat 0 xrange s.rng
  let rY := randFloat 0 250 rX.2
  let rS := randFloat 0 (4 / 10) rY.2
  let rZ := randFloat 0 (314 / 100) rS.2
  { s with
    criminal :=
      { baseX := xleft + rX.1, x := xleft + rX.1, y := (HEIGHT : ℚ) + 250 + rY.1,
        width := BASE_VEH_W, height := BASE_VEH_H, speed := 24 / 10 + rS.1, zigzag := rZ.1,
        active := true }
    rng := rZ.2 }

/-- The lane-marker loop `for (int i = -100; i < HEIGHT + 200; i += 65)` of
`initGame`, run for at most `fuel` iterations (from `-100` it makes 14). -/
def markerLoop (x0 x2 : ℚ) : Nat → Int → List LaneMarker
  | 0, _ => []
  | fuel + 1, i =>
    if i < HEIGHT + 200 then
      { x := x0, y := (i : ℚ) } :: { x := x2, y := (i : ℚ) } :: markerLoop x0 x2 fuel (i + 65)
    else []

/-- The loop `for (int i = 0; i < CIV_COUNT; ++i) spawnCivilianAtIndex(i, 50)`
of `initGame`, with `n` iterations left. -/
def spawnAllLoop : Nat → Nat → GameState → GameState
  | 0, _, s => s
  | n + 1, i, s => spawnAllLoop n (i + 1) (spawnCivilianAtIndex s (i : Int) 50)

/-- One star of `initGame`: two draws, and the shift away from the road. -/
def starAt (g : Rng) : (Int × Int) × Rng :=
  let r1 := rand g
  let r2 := rand r1.2
  let sx : Int := Int.tmod (r1.1 : Int) WIDTH
  let sy : Int := Int.tmod (r2.1 : Int) HEIGHT
  let sxA : Int :=
    if sx ≥ truncToInt ROAD_LEFT - 15 ∧ sx ≤ truncToInt ROAD_RIGHT + 15 then
      let sx1 := if sx < WIDTH / 2 then sx - 180 else sx + 180
      let sx2 := if sx1 < 0 then sx1 + WIDTH else sx1
      if sx2 ≥ WIDTH then sx2 - WIDTH else sx2
    else sx
  ((sxA, sy), r2.2)

/-- The star loop of `initGame`, with `n` iterations left; stars are appended. -/
def starLoop : Nat → List (Int × Int) → Rng → List (Int × Int) × Rng
  | 0, acc, g => (acc, g)
  | n + 1, acc, g => starLoop n (acc ++ [(starAt g).1]) (starAt g).2

/-- The function `initGame`. -/
def initGame (s : GameState) : GameState :=
  let segment : ℚ := (ROAD_RIGHT - ROAD_LEFT) / (LANE_COUNT : ℚ)
  let lanes : List ℚ :=
    [ROAD_LEFT + segment * (1 / 2) + 0 * segment, ROAD_LEFT + segment * (1 / 2) + 1 * segment,
     ROAD_LEFT + segment * (1 / 2) + 2 * segment]
  let s1 : GameState :=
    { s with
      LANE_X := lanes
      laneMarkers := markerLoop (lanes.getD 0 0) (lanes.getD 2 0) 14 (-100)
      civilianCars := List.replicate 7 zeroCar }
  let s2 := spawnAllLoop 7 0 s1
  let s3 : GameState :=
    { s2 with
      police :=
        { s2.police with
          x := (WIDTH : ℚ) / 2, y := 80, vx := 0, leftPressed := false, rightPressed := false,
          sirenOn := true, sirenBlink := 0, maxVx := 250 } }
  let s4 := spawnCriminalOriginal s3
  let st := starLoop 100 [] s4.rng
  { s4 with
    stars := st.1
    rng := st.2
    score := 0
    scoreTimer := 0
    criminalsCaught := 0
    gameOver := false
    paused := false
    gameSpeed := 1 }

/-! ## Simulation step -/

/-- The time step `dt = 16 / 1000` of `updateGame`. -/
def dt : ℚ := 16 / 1000

/-- The constant `ACC` of `updateGame`. -/
def ACC : ℚ := 1200

/-- The constant `DAMP` of `updateGame`. -/
def DAMP : ℚ := 6

/-- The first block of `updateGame`: the velocity cap ramp, the police
acceleration or damping, and the integration of the position. -/
def policeStep (s : GameState) : GameState :=
  let maxVx0 := s.police.maxVx + 25 / 10 * dt * 60
  let maxVx1 := if maxVx0 > 650 then 650 else maxVx0
  let vx1 : ℚ :=
    if s.police.leftPressed = true ∧ s.police.rightPressed = false then
      let v := s.police.vx - ACC * dt
      if v < -maxVx1 then -maxVx1 else v
    else if s.police.rightPressed = true ∧ s.police.leftPressed = false then
      let v := s.police.vx + ACC * dt
      if v > maxVx1 then maxVx1 else v
    else
      let v := s.police.vx - s.police.vx * DAMP * dt
      if |v| < 1 / 2 then 0 else v
  { s with police := { s.police with maxVx := maxVx1, vx := vx1, x := s.police.x + vx1 * dt } }

/-- The road-edge test of `updateGame`. -/
def hitsRoadEdge (s : GameState) : Bool :=
  let halfw := s.police.width * (1 / 2)
  decide (s.police.x - halfw ≤ ROAD_LEFT) || decide (s.police.x + halfw ≥ ROAD_RIGHT)

/-- The lane-marker loop of `updateGame`. -/
def moveMarkers (s : GameState) : GameState :=
  { s with
    laneMarkers := s.laneMarkers.map fun m =>
      let y1 := m.y - 35 / 10 * s.gameSpeed
      { m with y := if y1 < -100 then (HEIGHT : ℚ) + 100 else y1 } }

/-- The loop of `updateGame` that moves the active civilian cars down and eases
them toward their lane centre. -/
def moveCivilians (s : GameState) : GameState :=
  { s with
    civilianCars := s.civilianCars.map fun car =>
      if car.active = false then car
      else
        let y1 := car.y - car.speed * s.gameSpeed
        let dx := laneX s.LANE_X car.lane - car.x
        { car with y := y1, x := car.x + dx * (8 / 100) } }

/-- The local struct `VehicleItem` of `updateGame`. -/
structure VehicleItem where
  y : ℚ
  h : ℚ
  type : Int
  idx : Int

/-- The indices pushed to `laneVehicles` for one lane, scanning from index `i`. -/
def laneVehicles (lane : Int) : List Car → Nat → List Int
  | [], _ => []
  | c :: cs, i =>
    if c.active = false then laneVehicles lane cs (i + 1)
    else if c.lane = lane then (i : Int) :: laneVehicles lane cs (i + 1)
    else laneVehicles lane cs (i + 1)

/-- The vector `items` built for one lane, before sorting. -/
def laneItems (s : GameState) (lane : Int) : List VehicleItem :=
  let crimInLane : Bool :=
    s.criminal.active && decide (|s.criminal.x - laneX s.LANE_X lane| < 70)
  ((laneVehicles lane s.civilianCars 0).map fun i =>
      { y := (s.civilianCars.getD i.toNat zeroCar).y,
        h := (s.civilianCars.getD i.toNat zeroCar).height, type := 0, idx := i }) ++
    (if crimInLane then
      [{ y := s.criminal.y, h := s.criminal.height, type := 1, idx := -1 }]
    else [])

/-- The call `std::sort(items, a.y < b.y)`: items in ascending order of `y`
(as an insertion sort, which keeps items of equal `y` in their order; the
source's sort may order those either way). -/
def sortItems (items : List VehicleItem) : List VehicleItem :=
  items.insertionSort (fun a b => a.y ≤ b.y)

/-- Writing `y` to slot `idx` of the civilian cars. -/
def setCarY (cars : List Car) (idx : Int) (y : ℚ) : List Car :=
  cars.set idx.toNat { cars.getD idx.toNat zeroCar with y := y }

/-- The loop `for (size_t j = 1; j < items.size(); ++j)` of the lane sweep:
`prev` is `items[j-1]` (with its `y` as already adjusted), the list holds
`items[j]` onward. -/
def adjustLoop (prev : VehicleItem) : List VehicleItem → GameState → GameState
  | [], s => s
  | cur :: rest, s =>
    let minGap := max prev.h cur.h * (85 / 100) + 20
    if cur.y - prev.y < minGap then
      let desiredY := prev.y + minGap
      let s1 : GameState :=
        if cur.type = 0 then { s with civilianCars := setCarY s.civilianCars cur.idx desiredY }
        else { s with criminal := { s.criminal with y := desiredY } }
      adjustLoop { cur with y := desiredY } rest s1
    else adjustLoop cur rest s

/-- The body of the lane loop of `updateGame` for one lane. -/
def sweepLane (s : GameState) (lane : Int) : GameState :=
  match sortItems (laneItems s lane) with
  | [] => s
  | first :: rest => adjustLoop first rest s

/-- The loop `for (int lane = 0; lane < LANE_COUNT; ++lane)` of `updateGame`. -/
def laneSweep (s : GameState) : GameState :=
  sweepLane (sweepLane (sweepLane s 0) 1) 2

/-- The respawn loop of `updateGame` from index `i`, with `fuel` iterations
left: a car below `-350` is respawned and scores 10. -/
def respawnLoop : Nat → Nat → GameState → GameState
  | 0, _, s => s
  | fuel + 1, i, s =>
    if i < s.civilianCars.length then
      if (s.civilianCars.getD i zeroCar).y < -350 then
        let s1 := spawnCivilianAtIndex s (i : Int) 40
        respawnLoop fuel (i + 1) { s1 with score := s1.score + 10 }
      else respawnLoop fuel (i + 1) s
    else s

/-- The respawn block of `updateGame`. -/
def respawnCivilians (s : GameState) : GameState :=
  respawnLoop s.civilianCars.length 0 s

/-- The motion part of the criminal block of `updateGame`: scroll, zigzag and
clamp to the road. -/
def moveCriminal (sinf : ℚ → ℚ) (s : GameState) : GameState :=
  let y1 := s.criminal.y - s.criminal.speed * s.gameSpeed
  let z1 := s.criminal.zigzag + 10 / 100 * s.gameSpeed
  let x1 := s.criminal.baseX + sinf z1 * 20
  let x2 := if x1 < ROAD_LEFT + 35 then ROAD_LEFT + 35 else x1
  let x3 := if x2 > ROAD_RIGHT - 35 then ROAD_RIGHT - 35 else x2
  { s with criminal := { s.criminal with y := y1, zigzag := z1, x := x3 } }

/-- The test `checkCollisionScaled(police, criminal)` of `updateGame`. -/
def policeCatches (s : GameState) : Bool :=
  checkCollisionScaled s.police.x s.police.y s.police.width s.police.height
    s.criminal.x s.criminal.y s.criminal.width s.criminal.height

/-- The body of the catch branch of `updateGame`: score, catch counter, the
difficulty step on every second catch, and the respawn of the criminal. -/
def catchCriminal (s : GameState) : GameState :=
  let caught := s.criminalsCaught + 1
  let s1 : GameState := { s with score := s.score + 50, criminalsCaught := caught }
  let s2 : GameState :=
    if Int.tmod caught 2 = 0 then
      let m0 := s1.police.maxVx + 45
      let m1 := if m0 > 850 then 850 else m0
      let g0 := s1.gameSpeed * (115 / 100)
      let g1 := if g0 > 45 / 10 then 45 / 10 else g0
      { s1 with police := { s1.police with maxVx := m1 }, gameSpeed := g1 }
    else s1
  spawnCriminalOriginal s2

/-- The criminal block of `updateGame`. -/
def updateCriminal (sinf : ℚ → ℚ) (s : GameState) : GameState :=
  if s.criminal.active = true then
    let s1 := moveCriminal sinf s
    let s2 := if policeCatches s1 = true then catchCriminal s1 else s1
    if s2.criminal.y < -350 then spawnCriminalOriginal s2 else s2
  else s

/-- The siren statement of `updateGame`. -/
def stepSiren (s : GameState) : GameState :=
  { s with police := { s.police with sirenBlink := Int.tmod (s.police.sirenBlink + 1) 30 } }

/-- The crash loop of `updateGame`: some active civilian car collides with the
police car. -/
def policeCrashes (s : GameState) : Bool :=
  s.civilianCars.any fun car =>
    car.active &&
      checkCollisionScaled s.police.x s.police.y s.police.width s.police.height
        car.x car.y car.width car.height

/-- The loop `while (scoreTimer >= SCORE_INTERVAL)` of `updateGame`, with
`fuel` iterations allowed. -/
def scoreLoop : Nat → Int → ℚ → Int × ℚ
  | 0, score, t => (score, t)
  | fuel + 1, score, t =>
    if t ≥ SCORE_INTERVAL then scoreLoop fuel (score + 1) (t - SCORE_INTERVAL) else (score, t)

/-- The time-score block of `updateGame`.  The loop subtracts `SCORE_INTERVAL`
from the timer on each pass, so it makes `floor(timer / SCORE_INTERVAL)` passes
(none for a negative timer); that is the fuel given. -/
def timeScore (s : GameState) : GameState :=
  let t := s.scoreTimer + dt
  let r := scoreLoop ⌊t / SCORE_INTERVAL⌋.toNat s.score t
  { s with score := r.1, scoreTimer := r.2 }

/-- The constant `dt = 16.0f / 1000.0f` of `updateGame` as the program holds
it. -/
def dt32 : ℚ := f32 (16 / 1000)

/-- The constant `SCORE_INTERVAL = 0.8f` as the program holds it. -/
def SCORE_INTERVAL32 : ℚ := f32 (8 / 10)

/-- The loop `while (scoreTimer >= SCORE_INTERVAL)` of `updateGame` on binary32
values, with `fuel` tests of the condition allowed: each pass adds a point and
subtracts the interval, the difference being rounded. -/
def scoreLoop32 : Nat → Int → ℚ → Option (Int × ℚ)
  | 0, _, _ => none
  | fuel + 1, score, t =>
    if t ≥ SCORE_INTERVAL32 then scoreLoop32 fuel (score + 1) (f32 (t - SCORE_INTERVAL32))
    else some (score, t)

/-- The time-score block of `updateGame` on binary32 values, as a function of
the two globals it reads and writes, `score` and `scoreTimer`. -/
def timeScore32 (fuel : Nat) (score : Int) (scoreTimer : ℚ) : Option (Int × ℚ) :=
  scoreLoop32 fuel score (f32 (scoreTimer + dt32))

/-- The time points and the score timer after `n` passes through the
time-score block from a fresh game (no points, timer at zero), with two tests
of the loop condition allowed in each pass. -/
def freshTicks32 : Nat → Option (Int × ℚ)
  | 0 => some (0, 0)
  | n + 1 => (freshTicks32 n).bind fun r => timeScore32 2 r.1 r.2

/-- The steps of `updateGame` after the road-edge test. -/
def afterEdge (sinf : ℚ → ℚ) (s : GameState) : GameState :=
  let s1 := stepSiren (updateCriminal sinf
    (respawnCivilians (laneSweep (moveCivilians (moveMarkers s)))))
  if policeCrashes s1 = true then { s1 with gameOver := true } else timeScore s1

/-- The function `updateGame`. -/
def updateGame (sinf : ℚ → ℚ) (s : GameState) : GameState :=
  if s.gameOver = true ∨ s.paused = true then s
  else
    let s1 := policeStep s
    if hitsRoadEdge s1 = true then { s1 with gameOver := true } else afterEdge sinf s1

/-! ## Input events -/

/-- The events the GLUT callbacks deliver: the timer tick, the keys `s`, `p`
and `r`, and the press and release of the two arrow keys. -/
inductive Event where
  | tick
  | keyS
  | keyP
  | keyR
  | leftDown
  | rightDown
  | leftUp
  | rightUp

/-- The effect of one event: `timer`, `keyboard`, `specialKeyDown` and
`specialKeyUp`. -/
def applyEvent (sinf : ℚ → ℚ) (s : GameState) : Event → GameState
  | Event.tick => updateGame sinf s
  | Event.keyS => { s with police := { s.police with sirenOn := !s.police.sirenOn } }
  | Event.keyP => { s with paused := !s.paused }
  | Event.keyR => initGame s
  | Event.leftDown =>
    if s.gameOver = true then s else { s with police := { s.police with leftPressed := true } }
  | Event.rightDown =>
    if s.gameOver = true then s else { s with police := { s.police with rightPressed := true } }
  | Event.leftUp => { s with police := { s.police with leftPressed := false } }
  | Event.rightUp => { s with police := { s.police with rightPressed := false } }

/-- The state after a sequence of events. -/
def runEvents (sinf : ℚ → ℚ) (s : GameState) (evs : List Event) : GameState :=
  evs.foldl (applyEvent sinf) s

/-- The state of `updateGame` just before the criminal block, when the call
gets that far: after the police step, the markers, the civilian moves, the lane
sweep and the respawns. -/
def beforeCriminal (s : GameState) : GameState :=
  respawnCivilians (laneSweep (moveCivilians (moveMarkers (policeStep s))))

/-- Whether the `updateGame` call from `s` reaches the catch branch: the game
is running, the police car stays off the road edges, and the boxes of the
police car and the criminal collide at the catch test. -/
def performsCatch (sinf : ℚ → ℚ) (s : GameState) : Bool :=
  !s.gameOver && !s.paused && !hitsRoadEdge (policeStep s) &&
    (beforeCriminal s).criminal.active && policeCatches (moveCriminal sinf (beforeCriminal s))

/-- The number of catches since the last `initGame`: `n` is the count so far,
each `updateGame` call that reaches the catch branch adds one, and the key `r`
(which calls `initGame`) starts the count again. -/
def catchesSince (sinf : ℚ → ℚ) : GameState → Nat → List Event → Nat
  | _, n, [] => n
  | s, n, Event.tick :: evs =>
    catchesSince sinf (updateGame sinf s) (n + if performsCatch sinf s = true then 1 else 0) evs
  | s, _, Event.keyR :: evs => catchesSince sinf (initGame s) 0 evs
  | s, n, e :: evs => catchesSince sinf (applyEvent sinf s e) n evs

/-- The number of civilian slots that `updateGame` respawns in the call from
`s`: the cars below `-350` after the lane sweep. -/
def recycledCount (s : GameState) : Nat :=
  (laneSweep (moveCivilians (moveMarkers (policeStep s)))).civilianCars.countP
    fun c => decide (c.y < -350)

/-- The points the time-score loop awards for a timer value `t` on entry to
`updateGame`. -/
def timePoints (t : ℚ) : Int :=
  (scoreLoop ⌊(t + dt) / SCORE_INTERVAL⌋.toNat 0 (t + dt)).1

/-! ## Frames and reachable states -/

/-- The relation between the state before and after the traffic blocks of
`updateGame` (lane markers, civilian moves, lane sweep, respawns): everything
is kept except the lane markers, the civilian cars (whose number is kept), the
criminal's `y`, the score and the random generator. -/
structure TrafficFrame (s t : GameState) : Prop where
  gameOver : t.gameOver = s.gameOver
  paused : t.paused = s.paused
  gameSpeed : t.gameSpeed = s.gameSpeed
  scoreTimer : t.scoreTimer = s.scoreTimer
  criminalsCaught : t.criminalsCaught = s.criminalsCaught
  police : t.police = s.police
  stars : t.stars = s.stars
  lanes : t.LANE_X = s.LANE_X
  criminal : { t.criminal with y := s.criminal.y } = s.criminal
  length : t.civilianCars.length = s.civilianCars.length

/-- The states the program can be in: those reached from the first `initGame`
call of `init()` by any sequence of events. -/
def Reachable (sinf : ℚ → ℚ) (s : GameState) : Prop :=
  ∃ (g : Rng) (evs : List Event), s = runEvents sinf (initGame (initialGlobals g)) evs

/-- The facts about the police car that hold in every reachable state: its
size and height on the road are the initial ones, the velocity cap lies
between its start value and the clamp plus one catch bonus, and the speed is
within that bound. -/
def PoliceInv (s : GameState) : Prop :=
  s.police.width = BASE_VEH_W ∧ s.police.height = BASE_VEH_H ∧ s.police.y = 80 ∧
    |s.police.vx| ≤ 695 ∧ 250 ≤ s.police.maxVx ∧ s.police.maxVx ≤ 695

/-! ## Example states -/

/-- Seven civilian cars, all well above the police car and far apart. -/
def exampleCars : List Car :=
  [{ x := 800 / 3, y := 700, width := 35, height := 50, speed := 2, color := 0, type := 0,
     lane := 0, active := true },
   { x := 1600 / 3, y := 900, width := 50, height := 60, speed := 1, color := 1, type := 1,
     lane := 2, active := true },
   { x := 800 / 3, y := 300, width := 20, height := 35, speed := 3, color := 2, type := 2,
     lane := 0, active := true },
   { x := 1600 / 3, y := 500, width := 40, height := 55, speed := 2, color := 3, type := 0,
     lane := 2, active := true },
   { x := 400, y := 650, width := 32, height := 48, speed := 2, color := 4, type := 0,
     lane := 1, active := true },
   { x := 800 / 3, y := 1000, width := 60, height := 70, speed := 1, color := 0, type := 1,
     lane := 0, active := true },
   { x := 1600 / 3, y := 250, width := 22, height := 40, speed := 3, color := 1, type := 2,
     lane := 2, active := true }]

/-- A running mid-game state: the police car in the middle lane at rest, the
criminal just above it and overlapping it, no catch so far, and the score
timer less than one tick short of a scoring interval. -/
def catchState : GameState :=
  { gameOver := false
    paused := false
    score := 120
    gameSpeed := 1
    scoreTimer := 51 / 64
    criminalsCaught := 0
    police :=
      { x := 400, y := 80, width := 44, height := 66, sirenOn := true, sirenBlink := 7, vx := 0,
        leftPressed := false, rightPressed := false, maxVx := 650 }
    criminal :=
      { baseX := 400, x := 400, y := 100, width := 44, height := 66, speed := 5 / 2, zigzag := 1,
        active := true }
    civilianCars := exampleCars
    laneMarkers := markerLoop (800 / 3) (1600 / 3) 14 (-100)
    stars := []
    LANE_X := [800 / 3, 400, 1600 / 3]
    rng := fun n => 12345 * n + 678 }

/-- A running state as the call that performs a second catch leaves it: the
velocity cap carries the catch bonus (`650 + 45`), the game speed its step, and
the criminal has respawned far up the road. -/
def bonusState : GameState :=
  { catchState with
    score := 520
    gameSpeed := 115 / 100
    scoreTimer := 24 / 125
    criminalsCaught := 2
    police := { catchState.police with maxVx := 695 }
    criminal := { catchState.criminal with baseX := 380, x := 380, y := 900 } }

/-- The state `catchState` with the police car's `x` set to `ROAD_LEFT`. -/
def edgeState : GameState :=
  { catchState with police := { catchState.police with x := ROAD_LEFT } }

/-- The state `catchState` with one catch already made, so that the catch of
the next call is the second. -/
def secondCatchState : GameState :=
  { catchState with criminalsCaught := 1 }

/-! ## Bresenham on 32-bit integers -/

/-- The value a 32-bit `int` holds after an arithmetic result `z`, on a
two's-complement machine: `z` reduced into `-2^31 .. 2^31 - 1`. -/
def wrap32 (z : Int) : Int :=
  (z + 2147483648) % 4294967296 - 2147483648

/-- The loop body of `drawLineBresenham` (`bresenhamStep`) with every
arithmetic result reduced to 32 bits. -/
def bresenhamStep32 (dx dy sx sy : Int) (x1 y1 err : Int) : Int × Int × Int :=
  let e2 := wrap32 (2 * err)
  let errA := if e2 > wrap32 (-dy) then wrap32 (err - dy) else err
  let xA := if e2 > wrap32 (-dy) then wrap32 (x1 + sx) else x1
  let errB := if e2 < dx then wrap32 (errA + dx) else errA
  let yB := if e2 < dx then wrap32 (y1 + sy) else y1
  (xA, yB, errB)

/-- The loop of `drawLineBresenham` (`bresenhamLoop`) on 32-bit integers. -/
def bresenhamLoop32 (x2 y2 dx dy sx sy : Int) : Nat → Int → Int → Int → Option (List Pixel)
  | 0, _, _, _ => none
  | fuel + 1, x1, y1, err =>
    if x1 = x2 ∧ y1 = y2 then some [(x1, y1)]
    else
      match bresenhamLoop32 x2 y2 dx dy sx sy fuel
          (bresenhamStep32 dx dy sx sy x1 y1 err).1
          (bresenhamStep32 dx dy sx sy x1 y1 err).2.1
          (bresenhamStep32 dx dy sx sy x1 y1 err).2.2 with
      | none => none
      | some ps => some ((x1, y1) :: ps)

/-- The function `drawLineBresenham` on 32-bit integers. -/
def drawLineBresenham32 (fuel : Nat) (x1 y1 x2 y2 : Int) : Option (List Pixel) :=
  let dx := wrap32 |wrap32 (x2 - x1)|
  let dy := wrap32 |wrap32 (y2 - y1)|
  let sx : Int := if x1 < x2 then 1 else -1
  let sy : Int := if y1 < y2 then 1 else -1
  let err := wrap32 (dx - dy)
  bresenhamLoop32 x2 y2 dx dy sx sy fuel x1 y1 err

/-- The state `catchState` with the game paused. -/
def pausedState : GameState :=
  { catchState with paused := true }

/-- Whether the `updateGame` call from `s` reaches the time-score block: the
game is running, the police car stays off the road edges, and no civilian car
is hit. -/
def reachesTimeScore (s : GameState) : Bool :=
  !s.gameOver && !s.paused && !hitsRoadEdge (policeStep s) && !policeCrashes (beforeCriminal s)
/-- The state of `updateGame` at the respawn block, when the call gets that
far: after the police step, the markers, the civilian moves and the lane
sweep. -/
def preRecycle (s : GameState) : GameState :=
  laneSweep (moveCivilians (moveMarkers (policeStep s)))

/-- The cars of `exampleCars` with two cars of lane 0 at the bottom: slot 0, a
bike at `y = -349` that falls 3 per tick, and slot 2, a bus forced to
`y = -350.5` that falls 1 per tick. -/
def recycleCars : List Car :=
  [{ x := 800 / 3, y := -349, width := 20, height := 40, speed := 3, color := 0, type := 2,
     lane := 0, active := true },
   { x := 1600 / 3, y := 900, width := 50, height := 60, speed := 1, color := 1, type := 1,
     lane := 2, active := true },
   { x := 800 / 3, y := -701 / 2, width := 50, height := 60, speed := 1, color := 2, type := 1,
     lane := 0, active := true },
   { x := 1600 / 3, y := 500, width := 40, height := 55, speed := 2, color := 3, type := 0,
     lane := 2, active := true },
   { x := 400, y := 650, width := 32, height := 48, speed := 2, color := 4, type := 0,
     lane := 1, active := true },
   { x := 800 / 3, y := 1000, width := 60, height := 70, speed := 1, color := 0, type := 1,
     lane := 0, active := true },
   { x := 1600 / 3, y := 250, width := 22, height := 40, speed := 3, color := 1, type := 2,
     lane := 2, active := true }]

/-- A running state with the cars `recycleCars`, the criminal far up the road
and the score timer at zero. -/
def recycleState : GameState :=
  { catchState with
    scoreTimer := 0
    criminal := { catchState.criminal with y := 900 }
    civilianCars := recycleCars }

/-! ## Lane sweep: the items vector -/

/-- The vector `items` after the adjusting loop of the lane sweep, from
`items[j]` onward: the statement `items[j].y = desiredY` of each pass, with
`prev` as `items[j-1]`. -/
def adjustItems (prev : VehicleItem) : List VehicleItem → List VehicleItem
  | [] => []
  | cur :: rest =>
    let minGap := max prev.h cur.h * (85 / 100) + 20
    if cur.y - prev.y < minGap then
      let desiredY := prev.y + minGap
      { cur with y := desiredY } :: adjustItems { cur with y := desiredY } rest
    else cur :: adjustItems cur rest

/-- The vector `items` of one lane at the end of the lane's pass: sorted, then
adjusted. -/
def sweepItems (items : List VehicleItem) : List VehicleItem :=
  match sortItems items with
  | [] => []
  | first :: rest => first :: adjustItems first rest

/-- The gap required between two occupants of a lane, `a` below `b`:
`b.y - a.y ≥ max(a.h, b.h) * 0.85 + 20`. -/
def minGapHolds (a b : VehicleItem) : Prop :=
  b.y - a.y ≥ max a.h b.h * (85 / 100) + 20

instance (a b : VehicleItem) : Decidable (minGapHolds a b) := by
  unfold minGapHolds
  infer_instance

/-- The place an item of the lane sweep stands for: the index of a civilian
car, or nothing for the criminal. -/
def slotOf (it : VehicleItem) : Option Nat :=
  if it.type = 0 then some it.idx.toNat else none

/-- The vertical position the state holds for a place of the lane sweep. -/
def readSlot (s : GameState) : Option Nat → ℚ
  | some i => (s.civilianCars.getD i zeroCar).y
  | none => s.criminal.y

/-- A car with its vertical position forgotten. -/
def eraseY (c : Car) : Car := { c with y := 0 }

/-- The write of one pass of the adjusting loop: `desiredY` goes to the
civilian car of the item, or to the criminal. -/
def writeItem (s : GameState) (cur : VehicleItem) (desiredY : ℚ) : GameState :=
  if cur.type = 0 then { s with civilianCars := setCarY s.civilianCars cur.idx desiredY }
  else { s with criminal := { s.criminal with y := desiredY } }

/-- The state in which the lane sweep of the call from `recycleState` runs. -/
def recycleMoved : GameState :=
  moveCivilians (moveMarkers (policeStep recycleState))

/-! ## Safe states -/

/-- A safe state: the police car's footprint lies strictly inside the road, and
the collision test of `updateGame` is false for every active civilian car. -/
def SafeState (s : GameState) : Prop :=
  (ROAD_LEFT < s.police.x - s.police.width / 2 ∧
      s.police.x + s.police.width / 2 < ROAD_RIGHT) ∧
    ∀ car ∈ s.civilianCars, car.active = true →
      checkCollisionScaled s.police.x s.police.y s.police.width s.police.height
        car.x car.y car.width car.height = false

instance (s : GameState) : Decidable (SafeState s) := by
  unfold SafeState
  infer_instance

/-- The state after the first `initGame`, a press of the right arrow and one
call of `updateGame`, with a random generator that always returns zero. -/
def firstTickState : GameState :=
  runEvents (fun _ => 0) (initGame (initialGlobals fun _ => 0)) [Event.rightDown, Event.tick]

/-! ## Bresenham: the loop invariant -/

/-- Prepending a pixel adjacent to the head of a path keeps it a path with the
same last pixel. -/
theorem path_cons (p q e : Pixel) (ps : List Pixel)
    (hhead : ps.head? = some q) (hlast : ps.getLast? = some e)
    (hchain : List.Chain' adjacent8 ps) (hadj : adjacent8 p q) :
    (p :: ps).head? = some p ∧ (p :: ps).getLast? = some e ∧
      List.Chain' adjacent8 (p :: ps) := by
  cases ps with
  | nil => simp at hhead
  | cons r rs =>
    simp only [List.head?_cons, Option.some.injEq] at hhead
    subst hhead
    refine ⟨rfl, ?_, List.Chain'.cons hadj hchain⟩
    simpa [List.getLast?_cons_cons] using hlast

/-- While steps remain, an `x` move is only taken when an `x` step is left,
a `y` move only when a `y` step is left, and at least one move is taken. -/
theorem bresenham_arith (dx dy a b err : Int)
    (ha : 0 ≤ a) (hadx : a ≤ dx) (hb : 0 ≤ b) (hbdy : b ≤ dy)
    (herr : err = dx - dy + a * dy - b * dx) (hab : a ≠ 0 ∨ b ≠ 0) :
    (2 * err > -dy → 1 ≤ a) ∧ (2 * err < dx → 1 ≤ b) ∧
      (2 * err > -dy ∨ 2 * err < dx) := by
  have hdx0 : 0 ≤ dx := le_trans ha hadx
  have hdy0 : 0 ≤ dy := le_trans hb hbdy
  refine ⟨?_, ?_, ?_⟩
  · intro h
    by_contra hcon
    have ha0 : a = 0 := by omega
    have hb1 : 1 ≤ b := by omega
    subst ha0
    have : 0 ≤ dx * (b - 1) := mul_nonneg hdx0 (by omega)
    nlinarith
  · intro h
    by_contra hcon
    have hb0 : b = 0 := by omega
    have ha1 : 1 ≤ a := by omega
    subst hb0
    have : 0 ≤ dy * (a - 1) := mul_nonneg hdy0 (by omega)
    nlinarith
  · by_contra hcon
    push_neg at hcon
    have hd : dx = 0 ∧ dy = 0 := by omega
    omega

/-- With `a` steps left in `x` and `b` steps left in `y`, and the error term in
its closed form, the loop finishes within `a + b + 1` iterations and emits an
8-connected path from the current pixel to the endpoint. -/
theorem bresenhamLoop_spec (x2 y2 dx dy sx sy : Int)
    (hsx : sx = 1 ∨ sx = -1) (hsy : sy = 1 ∨ sy = -1) :
    ∀ (fuel : Nat) (a b x y err : Int),
      0 ≤ a → a ≤ dx → 0 ≤ b → b ≤ dy →
      x2 - x = sx * a → y2 - y = sy * b →
      err = dx - dy + a * dy - b * dx →
      a + b < fuel →
      ∃ ps, bresenhamLoop x2 y2 dx dy sx sy fuel x y err = some ps ∧
        ps.head? = some (x, y) ∧ ps.getLast? = some (x2, y2) ∧
        List.Chain' adjacent8 ps := by
  intro fuel
  induction fuel with
  | zero =>
    intro a b x y err ha _ hb _ _ _ _ hlt
    exfalso
    have : (a + b : Int) < 0 := by exact_mod_cast hlt
    omega
  | succ n ih =>
    intro a b x y err ha hadx hb hbdy hx hy herr hlt
    have hlt' : a + b < (n : Int) + 1 := by exact_mod_cast hlt
    by_cases hend : x = x2 ∧ y = y2
    · refine ⟨[(x, y)], ?_, rfl, ?_, List.chain'_singleton _⟩
      · simp [bresenhamLoop, hend]
      · simp [hend.1, hend.2]
    · have hdx0 : 0 ≤ dx := le_trans ha hadx
      have hdy0 : 0 ≤ dy := le_trans hb hbdy
      have hab : a ≠ 0 ∨ b ≠ 0 := by
        by_contra hcon
        push_neg at hcon
        apply hend
        rw [hcon.1] at hx
        rw [hcon.2] at hy
        constructor <;> omega
      obtain ⟨h1, h2, h3⟩ := bresenham_arith dx dy a b err ha hadx hb hbdy herr hab
      by_cases c1 : 2 * err > -dy <;> by_cases c2 : 2 * err < dx
      · obtain ⟨ps, hps, hhead, hlast, hchain⟩ :=
          ih (a - 1) (b - 1) (x + sx) (y + sy) (err - dy + dx)
            (by have := h1 c1; omega) (by omega) (by have := h2 c2; omega) (by omega)
            (by rw [mul_sub, ← hx]; ring) (by rw [mul_sub, ← hy]; ring)
            (by rw [herr]; ring) (by have := h1 c1; omega)
        refine ⟨(x, y) :: ps, ?_, path_cons (x, y) _ (x2, y2) ps hhead hlast hchain ?_⟩
        · simp [bresenhamLoop, bresenhamStep, hend, c1, c2, hps]
        · refine ⟨?_, ?_, ?_⟩
          · rcases hsx with h | h <;> simp [h]
          · rcases hsy with h | h <;> simp [h]
          · intro heq
            have := congrArg Prod.fst heq
            rcases hsx with h | h <;> simp [h] at this
      · obtain ⟨ps, hps, hhead, hlast, hchain⟩ :=
          ih (a - 1) b (x + sx) y (err - dy)
            (by have := h1 c1; omega) (by omega) hb hbdy
            (by rw [mul_sub, ← hx]; ring) hy
            (by rw [herr]; ring) (by omega)
        refine ⟨(x, y) :: ps, ?_, path_cons (x, y) _ (x2, y2) ps hhead hlast hchain ?_⟩
        · simp [bresenhamLoop, bresenhamStep, hend, c1, c2, hps]
        · refine ⟨?_, ?_, ?_⟩
          · rcases hsx with h | h <;> simp [h]
          · simp
          · intro heq
            have := congrArg Prod.fst heq
            rcases hsx with h | h <;> simp [h] at this
      · obtain ⟨ps, hps, hhead, hlast, hchain⟩ :=
          ih a (b - 1) x (y + sy) (err + dx)
            ha hadx (by have := h2 c2; omega) (by omega)
            hx (by rw [mul_sub, ← hy]; ring)
            (by rw [herr]; ring) (by omega)
        refine ⟨(x, y) :: ps, ?_, path_cons (x, y) _ (x2, y2) ps hhead hlast hchain ?_⟩
        · simp [bresenhamLoop, bresenhamStep, hend, c1, c2, hps]
        · refine ⟨?_, ?_, ?_⟩
          · simp
          · rcases hsy with h | h <;> simp [h]
          · intro heq
            have := congrArg Prod.snd heq
            rcases hsy with h | h <;> simp [h] at this
      · exact absurd h3 (by push_neg; exact ⟨by omega, by omega⟩)

/-- More fuel does not change a finished run of the Bresenham loop. -/
theorem bresenhamLoop_mono (x2 y2 dx dy sx sy : Int) :
    ∀ (fuel k : Nat) (x y err : Int) (ps : List Pixel),
      bresenhamLoop x2 y2 dx dy sx sy fuel x y err = some ps →
      bresenhamLoop x2 y2 dx dy sx sy (fuel + k) x y err = some ps := by
  intro fuel
  induction fuel with
  | zero => intro k x y err ps h; simp [bresenhamLoop] at h
  | succ n ih =>
    intro k x y err ps h
    rw [show n + 1 + k = (n + k) + 1 by omega]
    by_cases hend : x = x2 ∧ y = y2
    · simpa [bresenhamLoop, hend] using h
    · simp only [bresenhamLoop, hend, if_false] at h ⊢
      cases hrec : bresenhamLoop x2 y2 dx dy sx sy n
          (bresenhamStep dx dy sx sy x y err).1
          (bresenhamStep dx dy sx sy x y err).2.1
          (bresenhamStep dx dy sx sy x y err).2.2 with
      | none => simp [hrec] at h
      | some qs =>
        rw [hrec] at h
        rw [ih k _ _ _ qs hrec]
        exact h

/-- A finished run of the Bresenham loop used exactly as many iterations as it
emitted pixels: that much fuel is enough, one less is not. -/
theorem bresenhamLoop_length (x2 y2 dx dy sx sy : Int) :
    ∀ (fuel : Nat) (x y err : Int) (ps : List Pixel),
      bresenhamLoop x2 y2 dx dy sx sy fuel x y err = some ps →
      1 ≤ ps.length ∧ ps.length ≤ fuel ∧
      bresenhamLoop x2 y2 dx dy sx sy ps.length x y err = some ps ∧
      bresenhamLoop x2 y2 dx dy sx sy (ps.length - 1) x y err = none := by
  intro fuel
  induction fuel with
  | zero => intro x y err ps h; simp [bresenhamLoop] at h
  | succ n ih =>
    intro x y err ps h
    by_cases hend : x = x2 ∧ y = y2
    · simp only [bresenhamLoop, hend, and_self, if_true, Option.some.injEq] at h
      subst h
      simp [bresenhamLoop, hend]
    · simp only [bresenhamLoop, hend, if_false] at h
      cases hrec : bresenhamLoop x2 y2 dx dy sx sy n
          (bresenhamStep dx dy sx sy x y err).1
          (bresenhamStep dx dy sx sy x y err).2.1
          (bresenhamStep dx dy sx sy x y err).2.2 with
      | none => simp [hrec] at h
      | some qs =>
        rw [hrec] at h
        simp only [Option.some.injEq] at h
        subst h
        obtain ⟨hlen, hle, hsome, hnone⟩ := ih _ _ _ qs hrec
        refine ⟨by simp, by simpa using hle, ?_, ?_⟩
        · simp only [List.length_cons, bresenhamLoop, hend, if_false, hsome]
        · obtain ⟨m, hm⟩ : ∃ m, qs.length = m + 1 := ⟨qs.length - 1, by omega⟩
          simp only [List.length_cons, Nat.add_sub_cancel, hm] at hnone ⊢
          simp only [bresenhamLoop, hend, if_false, hnone]

/-- The set-up of `drawLineBresenham` establishes the loop invariant. -/
theorem drawLineBresenham_spec (x1 y1 x2 y2 : Int) :
    ∃ ps, drawLineBresenham ((x2 - x1).natAbs + (y2 - y1).natAbs + 1) x1 y1 x2 y2 = some ps ∧
      ps.head? = some (x1, y1) ∧ ps.getLast? = some (x2, y2) ∧
      List.Chain' adjacent8 ps := by
  unfold drawLineBresenham
  apply bresenhamLoop_spec x2 y2 |x2 - x1| |y2 - y1| _ _ _ _ _ |x2 - x1| |y2 - y1|
  · exact abs_nonneg _
  · exact le_refl _
  · exact abs_nonneg _
  · exact le_refl _
  · split_ifs with h
    · rw [abs_of_pos (by omega)]; ring
    · rw [abs_of_nonpos (by omega)]; ring
  · split_ifs with h
    · rw [abs_of_pos (by omega)]; ring
    · rw [abs_of_nonpos (by omega)]; ring
  · ring
  · push_cast
    omega
  · split_ifs <;> simp
  · split_ifs <;> simp

/-- C1: for every pair of integer endpoints, `drawLineBresenham` returns (for every
fuel from `|x2 - x1| + |y2 - y1| + 1` up) one pixel sequence that starts at
`(x1, y1)`, ends at `(x2, y2)`, and in which consecutive pixels are distinct
8-neighbours. -/
theorem drawLineBresenham_connected_path (x1 y1 x2 y2 : Int) :
    ∃ ps : List Pixel,
      (∀ k : Nat, drawLineBresenham
        ((x2 - x1).natAbs + (y2 - y1).natAbs + 1 + k) x1 y1 x2 y2 = some ps) ∧
      ps.head? = some (x1, y1) ∧ ps.getLast? = some (x2, y2) ∧
      List.Chain' adjacent8 ps := by
  obtain ⟨ps, hps, hrest⟩ := drawLineBresenham_spec x1 y1 x2 y2
  exact ⟨ps, fun k => bresenhamLoop_mono _ _ _ _ _ _ _ k _ _ _ ps hps, hrest⟩

/-- C2: for every pair of integer endpoints the `while(true)` loop of
`drawLineBresenham` stops: there is an iteration count `n`, at most
`|x2 - x1| + |y2 - y1|`, such that the loop is still running after `n` tests of
the exit condition and has left through `break` on test `n + 1`, whatever extra
fuel it is given, having emitted `n + 1` pixels. -/
theorem drawLineBresenham_terminates (x1 y1 x2 y2 : Int) :
    ∃ n : Nat, n ≤ (x2 - x1).natAbs + (y2 - y1).natAbs ∧
      drawLineBresenham n x1 y1 x2 y2 = none ∧
      ∃ ps : List Pixel, ps.length = n + 1 ∧
        ∀ k : Nat, drawLineBresenham (n + 1 + k) x1 y1 x2 y2 = some ps := by
  obtain ⟨ps, hps, -⟩ := drawLineBresenham_spec x1 y1 x2 y2
  unfold drawLineBresenham at hps ⊢
  obtain ⟨hlen, hle, hsome, hnone⟩ := bresenhamLoop_length _ _ _ _ _ _ _ _ _ _ ps hps
  refine ⟨ps.length - 1, by omega, hnone, ps, by omega, ?_⟩
  · intro k
    rw [show ps.length - 1 + 1 = ps.length by omega]
    exact bresenhamLoop_mono _ _ _ _ _ _ _ k _ _ _ ps hsome

/-! ## Binary32 rounding -/

/-- With fuel `n` or more, `log2Fuel` brackets a positive `n` between two
consecutive powers of two. -/
theorem log2Fuel_spec : ∀ (fuel n : Nat), 0 < n → n ≤ fuel →
    2 ^ log2Fuel fuel n ≤ n ∧ n < 2 ^ (log2Fuel fuel n + 1) := by
  intro fuel
  induction fuel with
  | zero => intro n h1 h2; omega
  | succ fuel ih =>
    intro n h1 h2
    unfold log2Fuel
    split_ifs with h
    · obtain ⟨a, b⟩ := ih (n / 2) (by omega) (by omega)
      rw [pow_succ] at b ⊢
      rw [pow_succ]
      constructor
      · omega
      · omega
    · simp
      omega

/-- The binary exponent brackets a positive rational between two consecutive
powers of two. -/
theorem floorLog2_spec (q : ℚ) (hq : 0 < q) :
    (2 : ℚ) ^ floorLog2 q ≤ q ∧ q < (2 : ℚ) ^ (floorLog2 q + 1) := by
  have hnum : 0 < q.num := Rat.num_pos.mpr hq
  have hn : 0 < q.num.natAbs := Int.natAbs_pos.mpr (ne_of_gt hnum)
  have hd : 0 < q.den := q.den_pos
  obtain ⟨n1, n2⟩ := log2Fuel_spec q.num.natAbs q.num.natAbs hn (le_refl _)
  obtain ⟨d1, d2⟩ := log2Fuel_spec q.den q.den hd (le_refl _)
  have hqe : q = (q.num.natAbs : ℚ) / (q.den : ℚ) := by
    have h1 : ((q.num.natAbs : Int) : ℚ) = (q.num : ℚ) := by
      rw [Int.natAbs_of_nonneg (le_of_lt hnum)]
    have h2 : ((q.num.natAbs : Int) : ℚ) = ((q.num.natAbs : Nat) : ℚ) := Int.cast_natCast _
    rw [← h2, h1]
    exact (Rat.num_div_den q).symm
  have habs : |q| = q := abs_of_pos hq
  set ln := log2Fuel q.num.natAbs q.num.natAbs with hln
  set ld := log2Fuel q.den q.den with hld
  have hdq : (0 : ℚ) < (q.den : ℚ) := by exact_mod_cast hd
  have n1q : (2 : ℚ) ^ ln ≤ (q.num.natAbs : ℚ) := by exact_mod_cast n1
  have n2q : (q.num.natAbs : ℚ) < (2 : ℚ) ^ (ln + 1) := by exact_mod_cast n2
  have d1q : (2 : ℚ) ^ ld ≤ (q.den : ℚ) := by exact_mod_cast d1
  have d2q : (q.den : ℚ) < (2 : ℚ) ^ (ld + 1) := by exact_mod_cast d2
  have h2 : (0 : ℚ) < 2 := by norm_num
  have hup : q < (2 : ℚ) ^ ((ln : Int) - (ld : Int) + 1) := by
    have e : (2 : ℚ) ^ ((ln : Int) - (ld : Int) + 1) = (2 : ℚ) ^ (ln + 1) / (2 : ℚ) ^ ld := by
      rw [show (ln : Int) - (ld : Int) + 1 = ((ln + 1 : Nat) : Int) - (ld : Int) by push_cast; ring,
        zpow_sub₀ (ne_of_gt h2), zpow_natCast, zpow_natCast]
    rw [e, hqe, div_lt_div_iff₀ hdq (by positivity)]
    calc (q.num.natAbs : ℚ) * 2 ^ ld ≤ (q.num.natAbs : ℚ) * (q.den : ℚ) :=
          mul_le_mul_of_nonneg_left d1q (by positivity)
      _ < 2 ^ (ln + 1) * (q.den : ℚ) := mul_lt_mul_of_pos_right n2q hdq
  have hlow : (2 : ℚ) ^ ((ln : Int) - (ld : Int) - 1) ≤ q := by
    have e : (2 : ℚ) ^ ((ln : Int) - (ld : Int) - 1) = (2 : ℚ) ^ ln / (2 : ℚ) ^ (ld + 1) := by
      rw [show (ln : Int) - (ld : Int) - 1 = (ln : Int) - ((ld + 1 : Nat) : Int) by push_cast; ring,
        zpow_sub₀ (ne_of_gt h2), zpow_natCast, zpow_natCast]
    rw [e, hqe, div_le_div_iff₀ (by positivity) hdq]
    calc (2 : ℚ) ^ ln * (q.den : ℚ) ≤ (q.num.natAbs : ℚ) * (q.den : ℚ) :=
          mul_le_mul_of_nonneg_right n1q (le_of_lt hdq)
      _ ≤ (q.num.natAbs : ℚ) * 2 ^ (ld + 1) :=
          mul_le_mul_of_nonneg_left (le_of_lt d2q) (by positivity)
  unfold floorLog2
  simp only [← hln, ← hld, habs]
  split_ifs with h
  · exact ⟨h, hup⟩
  · refine ⟨hlow, ?_⟩
    rw [sub_add_cancel]
    exact not_le.mp h

/-- Rounding to the nearest integer does not go below the floor. -/
theorem roundEven_ge (q : ℚ) : ⌊q⌋ ≤ roundEven q := by
  unfold roundEven
  split_ifs <;> omega

/-- Rounding to the nearest integer goes at most one above the floor. -/
theorem roundEven_le (q : ℚ) : roundEven q ≤ ⌊q⌋ + 1 := by
  unfold roundEven
  split_ifs <;> omega

/-- An integer rounds to itself. -/
theorem roundEven_intCast (n : Int) : roundEven (n : ℚ) = n := by
  unfold roundEven
  simp

/-- Rounding to the nearest integer, ties to even, is monotone. -/
theorem roundEven_mono (a b : ℚ) (h : a ≤ b) : roundEven a ≤ roundEven b := by
  have hf : ⌊a⌋ ≤ ⌊b⌋ := Int.floor_mono h
  rcases lt_or_eq_of_le hf with hlt | heq
  · have h1 := roundEven_le a
    have h2 := roundEven_ge b
    omega
  · unfold roundEven
    have hfr : a - ⌊a⌋ ≤ b - ⌊b⌋ := by
      rw [heq]
      linarith
    rw [heq] at hfr ⊢
    split_ifs <;> first | omega | linarith

/-- The spacing is positive. -/
theorem ulp32_pos (q : ℚ) : 0 < ulp32 q := by
  unfold ulp32
  positivity

/-- A nonnegative rational rounds to a nonnegative binary32 value. -/
theorem f32_nonneg (q : ℚ) (h : 0 ≤ q) : 0 ≤ f32 q := by
  unfold f32
  have hu := ulp32_pos q
  have h1 : (0 : ℚ) ≤ q / ulp32 q := div_nonneg h (le_of_lt hu)
  have h2 : roundEven ((0 : Int) : ℚ) ≤ roundEven (q / ulp32 q) :=
    roundEven_mono _ _ (by simpa using h1)
  rw [roundEven_intCast] at h2
  have h3 : (0 : ℚ) ≤ (roundEven (q / ulp32 q) : ℚ) := by exact_mod_cast h2
  exact mul_nonneg h3 (le_of_lt hu)

/-- The binary exponent is monotone on the positive rationals. -/
theorem floorLog2_mono (a b : ℚ) (ha : 0 < a) (h : a ≤ b) : floorLog2 a ≤ floorLog2 b := by
  obtain ⟨a1, -⟩ := floorLog2_spec a ha
  obtain ⟨-, b2⟩ := floorLog2_spec b (lt_of_lt_of_le ha h)
  have hlt : (2 : ℚ) ^ floorLog2 a < (2 : ℚ) ^ (floorLog2 b + 1) :=
    lt_of_le_of_lt (le_trans a1 h) b2
  have := (zpow_lt_zpow_iff_right₀ (by norm_num : (1 : ℚ) < 2)).mp hlt
  omega

/-- Rounding to binary32 is monotone on the nonnegative rationals. -/
theorem f32_mono_nonneg (a b : ℚ) (ha : 0 ≤ a) (h : a ≤ b) : f32 a ≤ f32 b := by
  rcases eq_or_lt_of_le ha with h0 | hpos
  · have hz : f32 a = 0 := by
      rw [← h0]
      unfold f32
      simp [roundEven]
    rw [hz]
    exact f32_nonneg b (le_trans ha h)
  · have hbpos : 0 < b := lt_of_lt_of_le hpos h
    have hfl := floorLog2_mono a b hpos h
    have hE : max (floorLog2 a) (-126) ≤ max (floorLog2 b) (-126) := max_le_max hfl (le_refl _)
    have h2 : (0 : ℚ) < 2 := by norm_num
    have h12 : (1 : ℚ) ≤ 2 := by norm_num
    rcases eq_or_lt_of_le hE with heq | hlt
    · have hu : ulp32 a = ulp32 b := by
        unfold ulp32
        rw [heq]
      unfold f32
      rw [hu]
      have hub := ulp32_pos b
      have hr := roundEven_mono (a / ulp32 b) (b / ulp32 b) (div_le_div_of_nonneg_right h (le_of_lt hub))
      have hr' : (roundEven (a / ulp32 b) : ℚ) ≤ (roundEven (b / ulp32 b) : ℚ) := by exact_mod_cast hr
      exact mul_le_mul_of_nonneg_right hr' (le_of_lt hub)
    · have hEb : max (floorLog2 b) (-126) = floorLog2 b := by
        apply max_eq_left
        have : -126 ≤ max (floorLog2 a) (-126) := le_max_right _ _
        omega
      have hmid : (2 : ℚ) ^ (max (floorLog2 a) (-126) + 1) ≤ (2 : ℚ) ^ floorLog2 b := by
        apply zpow_le_zpow_right₀ h12
        omega
      -- the lower value rounds to at most the next power of two
      have hA : f32 a ≤ (2 : ℚ) ^ (max (floorLog2 a) (-126) + 1) := by
        have hua := ulp32_pos a
        have hsplit : (2 : ℚ) ^ (max (floorLog2 a) (-126) + 1) = ((2 ^ 24 : Int) : ℚ) * ulp32 a := by
          unfold ulp32
          rw [show max (floorLog2 a) (-126) + 1 = 24 + (max (floorLog2 a) (-126) - 23) by ring,
            zpow_add₀ (ne_of_gt h2)]
          norm_num
        have ha2 : a ≤ (2 : ℚ) ^ (max (floorLog2 a) (-126) + 1) := by
          refine le_trans (le_of_lt (floorLog2_spec a hpos).2) ?_
          apply zpow_le_zpow_right₀ h12
          have := le_max_left (floorLog2 a) (-126)
          omega
        have hq : a / ulp32 a ≤ ((2 ^ 24 : Int) : ℚ) := by
          rw [div_le_iff₀ hua, ← hsplit]
          exact ha2
        have hr := roundEven_mono _ _ hq
        rw [roundEven_intCast] at hr
        have hr' : (roundEven (a / ulp32 a) : ℚ) ≤ ((2 ^ 24 : Int) : ℚ) := by exact_mod_cast hr
        rw [hsplit]
        unfold f32
        exact mul_le_mul_of_nonneg_right hr' (le_of_lt hua)
      -- the upper value rounds to at least its own power of two
      have hB : (2 : ℚ) ^ floorLog2 b ≤ f32 b := by
        have hub := ulp32_pos b
        have hsplit : (2 : ℚ) ^ floorLog2 b = ((2 ^ 23 : Int) : ℚ) * ulp32 b := by
          unfold ulp32
          rw [hEb]
          rw [show floorLog2 b = 23 + (floorLog2 b - 23) by ring] at *
          rw [zpow_add₀ (ne_of_gt h2)]
          norm_num
        have hq : ((2 ^ 23 : Int) : ℚ) ≤ b / ulp32 b := by
          rw [le_div_iff₀ hub, ← hsplit]
          exact (floorLog2_spec b hbpos).1
        have hr := roundEven_mono _ _ hq
        rw [roundEven_intCast] at hr
        have hr' : ((2 ^ 23 : Int) : ℚ) ≤ (roundEven (b / ulp32 b) : ℚ) := by exact_mod_cast hr
        rw [hsplit]
        unfold f32
        exact mul_le_mul_of_nonneg_right hr' (le_of_lt hub)
      exact le_trans hA (le_trans hmid hB)

/-- Rounding to the nearest integer, ties to even, commutes with negation. -/
theorem roundEven_neg (q : ℚ) : roundEven (-q) = -roundEven q := by
  by_cases hint : (⌊q⌋ : ℚ) = q
  · rw [← hint, ← Int.cast_neg, roundEven_intCast, roundEven_intCast]
  · have hlt : (⌊q⌋ : ℚ) < q := lt_of_le_of_ne (Int.floor_le q) hint
    have hfl : ⌊-q⌋ = -⌊q⌋ - 1 := by
      rw [Int.floor_eq_iff]
      have := Int.lt_floor_add_one q
      push_cast
      constructor <;> linarith
    unfold roundEven
    rw [hfl]
    push_cast
    have h1 := Int.lt_floor_add_one q
    split_ifs <;> first | omega | linarith

/-- The binary exponent does not depend on the sign. -/
theorem floorLog2_neg (q : ℚ) : floorLog2 (-q) = floorLog2 q := by
  unfold floorLog2
  simp only [Rat.neg_num, Int.natAbs_neg, Rat.neg_den, abs_neg]

/-- Rounding to binary32 commutes with negation. -/
theorem f32_neg (q : ℚ) : f32 (-q) = -f32 q := by
  have hu : ulp32 (-q) = ulp32 q := by
    unfold ulp32
    rw [floorLog2_neg]
  unfold f32
  rw [hu, neg_div, roundEven_neg]
  push_cast
  ring

/-- Rounding to binary32 is monotone. -/
theorem f32_monotone (a b : ℚ) (h : a ≤ b) : f32 a ≤ f32 b := by
  rcases le_total 0 a with ha | ha
  · exact f32_mono_nonneg a b ha h
  · rcases le_total b 0 with hb | hb
    · have := f32_mono_nonneg (-b) (-a) (by linarith) (by linarith)
      rw [f32_neg, f32_neg] at this
      linarith
    · have h1 := f32_nonneg (-a) (by linarith)
      rw [f32_neg] at h1
      have h2 := f32_nonneg b hb
      linarith

/-- A binary32 comparison that holds strictly holds of the exact values. -/
theorem lt_of_f32_lt (a b : ℚ) (h : f32 a < f32 b) : a < b := by
  by_contra hn
  exact absurd (f32_monotone b a (not_lt.mp hn)) (not_le.mpr h)

/-! ## DDA line -/

/-- The DDA loop emits one pixel per iteration. -/
theorem ddaLoop_length (n : Nat) : ∀ (x y xInc yInc : ℚ),
    (ddaLoop n x y xInc yInc).length = n := by
  induction n with
  | zero => intro x y xInc yInc; rfl
  | succ n ih => intro x y xInc yInc; simp [ddaLoop, ih]

/-- The step count of `drawLineDDA` is the larger absolute difference. -/
theorem dda_steps_eq_max (a b : ℚ) : (if |a| > |b| then |a| else |b|) = max |a| |b| := by
  split_ifs with h
  · exact (max_eq_left (le_of_lt h)).symm
  · exact (max_eq_right (not_lt.mp h)).symm

/-- On nonnegative arguments `roundf` agrees with the floor exactly when the
fractional part is below one half. -/
theorem roundf_eq_floor_iff (m : ℚ) (hm : 0 ≤ m) :
    roundf m = ⌊m⌋ ↔ Int.fract m < 1 / 2 := by
  unfold roundf
  rw [if_pos hm, Int.floor_eq_iff]
  have h1 := Int.floor_le m
  have h2 := Int.lt_floor_add_one m
  have h3 : Int.fract m = m - ⌊m⌋ := rfl
  constructor
  · rintro ⟨-, h⟩; linarith
  · intro h; constructor <;> linarith

/-- The binary32 subtraction decides the count: the float nearest `3.1` minus
the float nearest `0.1` is `2.99999990...` exactly and rounds to `3`. -/
theorem f32_difference_example :
    f32 (31 / 10) - f32 (1 / 10) = 402653171 / 134217728 ∧
      f32 (f32 (31 / 10) - f32 (1 / 10)) = 3 := by
  refine ⟨by decide!, by decide!⟩

/-- C3 (amended): with `dx` and `dy` the binary32 differences `x2 - x1` and
`y2 - y1` that the code computes, and `max(|dx|, |dy|)` below `2^31` (so that
`(int)steps` is defined), `drawLineDDA` emits exactly
`floor(max(|dx|, |dy|)) + 1` points; this equals `round(max(|dx|, |dy|)) + 1`
exactly when the fractional part of that maximum is below one half. -/
theorem drawLineDDA_point_count (x1 y1 x2 y2 : ℚ)
    (_hsteps : max |f32 (x2 - x1)| |f32 (y2 - y1)| < 2147483648) :
    ((drawLineDDA x1 y1 x2 y2).length : Int) =
        ⌊max |f32 (x2 - x1)| |f32 (y2 - y1)|⌋ + 1 ∧
    (((drawLineDDA x1 y1 x2 y2).length : Int) =
        roundf (max |f32 (x2 - x1)| |f32 (y2 - y1)|) + 1 ↔
      Int.fract (max |f32 (x2 - x1)| |f32 (y2 - y1)|) < 1 / 2) := by
  have hm : 0 ≤ max |f32 (x2 - x1)| |f32 (y2 - y1)| := le_max_of_le_left (abs_nonneg _)
  have key : ((drawLineDDA x1 y1 x2 y2).length : Int) =
      ⌊max |f32 (x2 - x1)| |f32 (y2 - y1)|⌋ + 1 := by
    unfold drawLineDDA
    simp only [dda_steps_eq_max]
    by_cases h : max |f32 (x2 - x1)| |f32 (y2 - y1)| ≤ 0
    · have h0 : max |f32 (x2 - x1)| |f32 (y2 - y1)| = 0 := le_antisymm h hm
      simp [h0]
    · rw [if_neg h, ddaLoop_length]
      unfold truncToInt
      rw [if_pos hm]
      have : 0 ≤ ⌊max |f32 (x2 - x1)| |f32 (y2 - y1)|⌋ := Int.floor_nonneg.mpr hm
      omega
  refine ⟨key, ?_⟩
  rw [key, ← roundf_eq_floor_iff _ hm]
  constructor
  · intro h; omega
  · intro h; omega

/-- C3 (witness): from the float nearest `0.1` to the float nearest `3.1` the
binary32 difference is `3`, and `drawLineDDA` emits `4` points; the exact
difference of the two floats has floor `2`. -/
theorem drawLineDDA_point_count_witness :
    max |f32 (f32 (31 / 10) - f32 (1 / 10))| |f32 ((0 : ℚ) - 0)| < 2147483648 ∧
      ((drawLineDDA (f32 (1 / 10)) 0 (f32 (31 / 10)) 0).length : Int) = 4 ∧
      ⌊f32 (31 / 10) - f32 (1 / 10)⌋ + 1 = 3 := by
  have h := (drawLineDDA_point_count (f32 (1 / 10)) 0 (f32 (31 / 10)) 0 (by decide!)).1
  refine ⟨by decide!, ?_, by decide!⟩
  rw [h]
  decide!

/-- C3 (counterexample): from `(0, 0)` to `(3/4, 0)`, all exact in binary32,
the step count `0.75` truncates to `0`, so `drawLineDDA` emits one point, while
`round(0.75) + 1 = 2`. -/
theorem drawLineDDA_round_count_fails :
    ((drawLineDDA 0 0 (3 / 4) 0).length : Int) = 1 ∧
      roundf (max |(3 / 4 : ℚ) - 0| |(0 : ℚ) - 0|) + 1 = 2 ∧
      f32 ((3 / 4 : ℚ) - 0) = 3 / 4 := by
  refine ⟨by decide!, by decide!, by decide!⟩

/-! ## Midpoint circle -/

/-- Membership in the eight pixels of one `plotCirclePoints` call, by offset. -/
theorem plotCirclePoints_mem (xc yc x y dx dy : Int) :
    (xc + dx, yc + dy) ∈ plotCirclePoints xc yc x y ↔
      ((dx = x ∨ dx = -x) ∧ (dy = y ∨ dy = -y)) ∨ ((dx = y ∨ dx = -y) ∧ (dy = x ∨ dy = -x)) := by
  simp only [plotCirclePoints, List.mem_cons, Prod.mk.injEq, List.mem_singleton, List.not_mem_nil,
    or_false]
  constructor
  · rintro (h | h | h | h | h | h | h | h) <;> omega
  · rintro (⟨h1 | h1, h2 | h2⟩ | ⟨h1 | h1, h2 | h2⟩) <;> subst h1 <;> subst h2 <;> simp [sub_eq_add_neg]

/-- The eight pixels of one `plotCirclePoints` call are closed under the
reflections and the swap. -/
theorem plotCirclePoints_symmetric (xc yc x y : Int) :
    Symmetric8 xc yc (plotCirclePoints xc yc x y) := by
  intro dx dy h
  have e1 : xc - dx = xc + -dx := by ring
  have e2 : yc - dy = yc + -dy := by ring
  rw [e1, e2]
  simp only [plotCirclePoints_mem] at h ⊢
  rcases h with ⟨h1 | h1, h2 | h2⟩ | ⟨h1 | h1, h2 | h2⟩ <;> subst h1 <;> subst h2 <;> simp

/-- Closure under the symmetries is kept by concatenation. -/
theorem Symmetric8_append (xc yc : Int) (ps qs : List Pixel)
    (hp : Symmetric8 xc yc ps) (hq : Symmetric8 xc yc qs) :
    Symmetric8 xc yc (ps ++ qs) := by
  intro dx dy h
  rw [List.mem_append] at h
  simp only [List.mem_append]
  rcases h with h | h
  · obtain ⟨a, b, c, d⟩ := hp dx dy h
    exact ⟨Or.inl a, Or.inl b, Or.inl c, Or.inl d⟩
  · obtain ⟨a, b, c, d⟩ := hq dx dy h
    exact ⟨Or.inr a, Or.inr b, Or.inr c, Or.inr d⟩

/-- The circle loop finishes within `y - x + 2` tests of its condition, and its
output is closed under the symmetries. -/
theorem circleLoop_spec (xc yc : Int) :
    ∀ (fuel : Nat) (x y p : Int), (y - x + 1).toNat < fuel →
      ∃ ps, circleLoop xc yc fuel x y p = some ps ∧ Symmetric8 xc yc ps := by
  intro fuel
  induction fuel with
  | zero => intro x y p h; omega
  | succ n ih =>
    intro x y p h
    by_cases hxy : x ≤ y
    · obtain ⟨ps, hps, hsym⟩ := ih (x + 1) (if p < 0 then y else y - 1)
        (if p < 0 then p + (2 * (x + 1) + 1) else p + (2 * ((x + 1) - (y - 1)) + 1))
        (by split_ifs <;> omega)
      refine ⟨plotCirclePoints xc yc x y ++ ps, ?_, ?_⟩
      · simp only [circleLoop, hxy, if_true, hps]
      · exact Symmetric8_append _ _ _ _ (plotCirclePoints_symmetric xc yc x y) hsym
    · refine ⟨[], ?_, ?_⟩
      · simp [circleLoop, hxy]
      · intro dx dy hmem; simp at hmem

/-- More fuel does not change a finished run of the circle loop. -/
theorem circleLoop_mono (xc yc : Int) :
    ∀ (fuel k : Nat) (x y p : Int) (ps : List Pixel),
      circleLoop xc yc fuel x y p = some ps →
      circleLoop xc yc (fuel + k) x y p = some ps := by
  intro fuel
  induction fuel with
  | zero => intro k x y p ps h; simp [circleLoop] at h
  | succ n ih =>
    intro k x y p ps h
    rw [show n + 1 + k = (n + k) + 1 by omega]
    by_cases hxy : x ≤ y
    · simp only [circleLoop, hxy, if_true] at h ⊢
      cases hrec : circleLoop xc yc n (x + 1) (if p < 0 then y else y - 1)
          (if p < 0 then p + (2 * (x + 1) + 1) else p + (2 * ((x + 1) - (y - 1)) + 1)) with
      | none => simp [hrec] at h
      | some qs =>
        rw [hrec] at h
        rw [ih k _ _ _ qs hrec]
        exact h
    · simpa [circleLoop, hxy] using h

/-- C4: for every centre and every integer radius, `drawCircleMidpoint` returns
(for every fuel from `r + 2` up) one pixel list that is closed under the three
axis reflections and the diagonal swap of offsets from the centre; for radius
`0` the pixels of that list are exactly the centre pixel. -/
theorem drawCircleMidpoint_symmetric (xc yc r : Int) :
    (∃ ps : List Pixel,
      (∀ k : Nat, drawCircleMidpoint ((r + 1).toNat + 1 + k) xc yc r = some ps) ∧
      Symmetric8 xc yc ps) ∧
    (∃ ps0 : List Pixel,
      (∀ k : Nat, drawCircleMidpoint (2 + k) xc yc 0 = some ps0) ∧
      ∀ q : Pixel, q ∈ ps0 ↔ q = (xc, yc)) := by
  constructor
  · obtain ⟨ps, hps, hsym⟩ := circleLoop_spec xc yc ((r + 1).toNat + 1) 0 r (1 - r)
      (by simp)
    exact ⟨ps, fun k => circleLoop_mono xc yc _ k _ _ _ ps hps, hsym⟩
  · refine ⟨plotCirclePoints xc yc 0 0, fun k => ?_, ?_⟩
    · apply circleLoop_mono xc yc 2 k
      simp [circleLoop]
    · intro q
      simp [plotCirclePoints]

/-! ## Overlap predicates -/

/-- C5: both overlap predicates give the same answer when the two boxes are
exchanged, for all positions, sizes and margins. -/
theorem overlap_predicates_symmetric (x1 y1 w1 h1 x2 y2 w2 h2 m : ℚ) :
    rectOverlap x1 y1 w1 h1 x2 y2 w2 h2 m = rectOverlap x2 y2 w2 h2 x1 y1 w1 h1 m ∧
    checkCollisionScaled x1 y1 w1 h1 x2 y2 w2 h2 =
      checkCollisionScaled x2 y2 w2 h2 x1 y1 w1 h1 := by
  constructor
  · simp only [rectOverlap, gt_iff_lt]
    rw [Bool.eq_iff_iff]
    simp only [Bool.not_eq_true', Bool.or_eq_false_iff, decide_eq_false_iff_not]
    tauto
  · simp only [checkCollisionScaled, getScaleForY, gt_iff_lt]
    rw [Bool.eq_iff_iff]
    simp only [Bool.and_eq_true, decide_eq_true_eq]
    tauto

/-- The scaled collision test is true exactly when the four strict
inequalities of the source hold. -/
theorem checkCollisionScaled_iff (x1 y1 w1 h1 x2 y2 w2 h2 : ℚ) :
    checkCollisionScaled x1 y1 w1 h1 x2 y2 w2 h2 = true ↔
      (x1 - w1 / 2 < x2 + w2 / 2 ∧ x2 - w2 / 2 < x1 + w1 / 2 ∧
        y1 < y2 + h2 ∧ y2 < y1 + h1) := by
  simp only [checkCollisionScaled, getScaleForY, mul_one, gt_iff_lt, Bool.and_eq_true,
    decide_eq_true_eq]
  tauto

/-- For boxes of positive size the scaled collision test is true only if the
open extents share a point. -/
theorem checkCollisionScaled_open (x1 y1 w1 h1 x2 y2 w2 h2 : ℚ)
    (hw1 : 0 < w1) (hh1 : 0 < h1) (hw2 : 0 < w2) (hh2 : 0 < h2)
    (h : checkCollisionScaled x1 y1 w1 h1 x2 y2 w2 h2 = true) :
    ∃ px py, inOpenBox x1 y1 w1 h1 px py ∧ inOpenBox x2 y2 w2 h2 px py := by
  obtain ⟨a, b, c, d⟩ := (checkCollisionScaled_iff x1 y1 w1 h1 x2 y2 w2 h2).mp h
  have hx : max (x1 - w1 / 2) (x2 - w2 / 2) < min (x1 + w1 / 2) (x2 + w2 / 2) :=
    max_lt (lt_min (by linarith) a) (lt_min b (by linarith))
  have hy : max y1 y2 < min (y1 + h1) (y2 + h2) :=
    max_lt (lt_min (by linarith) c) (lt_min d (by linarith))
  refine ⟨(max (x1 - w1 / 2) (x2 - w2 / 2) + min (x1 + w1 / 2) (x2 + w2 / 2)) / 2,
    (max y1 y2 + min (y1 + h1) (y2 + h2)) / 2, ?_, ?_⟩
  · have l1 := le_max_left (x1 - w1 / 2) (x2 - w2 / 2)
    have l2 := min_le_left (x1 + w1 / 2) (x2 + w2 / 2)
    have l3 := le_max_left y1 y2
    have l4 := min_le_left (y1 + h1) (y2 + h2)
    refine ⟨?_, ?_, ?_, ?_⟩ <;> linarith
  · have l1 := le_max_right (x1 - w1 / 2) (x2 - w2 / 2)
    have l2 := min_le_right (x1 + w1 / 2) (x2 + w2 / 2)
    have l3 := le_max_right y1 y2
    have l4 := min_le_right (y1 + h1) (y2 + h2)
    refine ⟨?_, ?_, ?_, ?_⟩ <;> linarith

/-- On exact values the scaled collision test is false for boxes of positive
size that only touch. -/
theorem checkCollisionScaled_touching (x1 y1 w1 h1 x2 y2 w2 h2 : ℚ)
    (hw1 : 0 < w1) (hh1 : 0 < h1) (hw2 : 0 < w2) (hh2 : 0 < h2)
    (htouch : touchOnly x1 y1 w1 h1 x2 y2 w2 h2) :
    checkCollisionScaled x1 y1 w1 h1 x2 y2 w2 h2 = false := by
  obtain ⟨-, hall⟩ := htouch
  by_contra hne
  rw [Bool.not_eq_false] at hne
  obtain ⟨px, py, hA, hB⟩ := checkCollisionScaled_open x1 y1 w1 h1 x2 y2 w2 h2 hw1 hh1 hw2 hh2 hne
  refine hall px py ?_ ?_ ⟨hA, hB⟩
  · exact ⟨le_of_lt hA.1, le_of_lt hA.2.1, le_of_lt hA.2.2.1, le_of_lt hA.2.2.2⟩
  · exact ⟨le_of_lt hB.1, le_of_lt hB.2.1, le_of_lt hB.2.2.1, le_of_lt hB.2.2.2⟩

/-- The scaled collision test on binary32 values is true only if the four
strict inequalities hold of the exact edges, when the sizes and the vertical
positions are binary32 values and the half-widths are exact. -/
theorem checkCollisionScaled32_exact (x1 y1 w1 h1 x2 y2 w2 h2 : ℚ)
    (hy1 : isBinary32 y1) (hy2 : isBinary32 y2) (hw1 : isBinary32 w1) (hh1 : isBinary32 h1)
    (hw2 : isBinary32 w2) (hh2 : isBinary32 h2)
    (hhalf1 : isBinary32 (w1 / 2)) (hhalf2 : isBinary32 (w2 / 2))
    (h : checkCollisionScaled32 x1 y1 w1 h1 x2 y2 w2 h2 = true) :
    checkCollisionScaled x1 y1 w1 h1 x2 y2 w2 h2 = true := by
  unfold isBinary32 at hy1 hy2 hw1 hh1 hw2 hh2 hhalf1 hhalf2
  rw [checkCollisionScaled_iff]
  simp only [checkCollisionScaled32, getScaleForY, mul_one, hw1, hh1, hw2, hh2, hhalf1, hhalf2,
    gt_iff_lt, Bool.and_eq_true, decide_eq_true_eq] at h
  obtain ⟨⟨⟨a, b⟩, c⟩, d⟩ := h
  refine ⟨lt_of_f32_lt _ _ a, lt_of_f32_lt _ _ b, ?_, ?_⟩
  · rw [← hy1] at c
    exact lt_of_f32_lt _ _ c
  · rw [← hy2] at d
    exact lt_of_f32_lt _ _ d

/-- C6 (amended): `checkCollisionScaled` treats touching edges as not
overlapping: for every two boxes of positive width and height whose closed
extents share a point only on their boundary, it returns false, on exact
values and on the binary32 values of the program; for the latter the sizes and
the vertical positions are binary32 values and the half-widths `w / 2` are
exact, as they are for every binary32 width of at least `2^(-125)`. -/
theorem checkCollisionScaled_touching_false (x1 y1 w1 h1 x2 y2 w2 h2 : ℚ)
    (hw1 : 0 < w1) (hh1 : 0 < h1) (hw2 : 0 < w2) (hh2 : 0 < h2)
    (hy1 : isBinary32 y1) (hy2 : isBinary32 y2) (hbw1 : isBinary32 w1) (hbh1 : isBinary32 h1)
    (hbw2 : isBinary32 w2) (hbh2 : isBinary32 h2)
    (hhalf1 : isBinary32 (w1 / 2)) (hhalf2 : isBinary32 (w2 / 2))
    (htouch : touchOnly x1 y1 w1 h1 x2 y2 w2 h2) :
    checkCollisionScaled x1 y1 w1 h1 x2 y2 w2 h2 = false ∧
      checkCollisionScaled32 x1 y1 w1 h1 x2 y2 w2 h2 = false := by
  have hq := checkCollisionScaled_touching x1 y1 w1 h1 x2 y2 w2 h2 hw1 hh1 hw2 hh2 htouch
  refine ⟨hq, ?_⟩
  by_contra hne
  rw [Bool.not_eq_false] at hne
  have := checkCollisionScaled32_exact x1 y1 w1 h1 x2 y2 w2 h2 hy1 hy2 hbw1 hbh1 hbw2 hbh2
    hhalf1 hhalf2 hne
  rw [hq] at this
  exact absurd this (by simp)

/-- The boxes `(0, 0, 2, 2)` and `(2, 0, 2, 2)` touch along the line `x = 1`. -/
theorem touchOnly_example : touchOnly 0 0 2 2 2 0 2 2 := by
  constructor
  · refine ⟨1, 1, ?_, ?_⟩ <;> norm_num [inClosedBox]
  · rintro px py - - ⟨⟨_, h1, _, _⟩, ⟨h2, _, _, _⟩⟩
    norm_num at h1 h2
    linarith

/-- C6 (witness): the amended statement at the touching boxes `(0, 0, 2, 2)` and
`(2, 0, 2, 2)`. -/
theorem checkCollisionScaled_touching_false_witness :
    touchOnly 0 0 2 2 2 0 2 2 ∧ checkCollisionScaled 0 0 2 2 2 0 2 2 = false ∧
      checkCollisionScaled32 0 0 2 2 2 0 2 2 = false :=
  ⟨touchOnly_example,
    checkCollisionScaled_touching_false 0 0 2 2 2 0 2 2
      (by norm_num) (by norm_num) (by norm_num) (by norm_num)
      (by decide!) (by decide!) (by decide!) (by decide!) (by decide!) (by decide!)
      (by decide!) (by decide!) touchOnly_example⟩

/-- C6 (counterexample): the boxes `(3, 0, 2, 4)` and `(5, 1, 2, 4)` have positive
size, share the edge `x = 4` (`x1 + w1/2 = x2 - w2/2`) with overlapping vertical
extents, touch only there, and `checkCollisionScaled` returns false, on exact
values and on binary32 values alike (all numbers involved are exact). -/
theorem checkCollisionScaled_touching_not_overlap :
    (3 : ℚ) + 2 / 2 = 5 - 2 / 2 ∧ touchOnly 3 0 2 4 5 1 2 4 ∧
      checkCollisionScaled 3 0 2 4 5 1 2 4 = false ∧
      checkCollisionScaled32 3 0 2 4 5 1 2 4 = false := by
  refine ⟨by norm_num, ⟨⟨4, 2, ?_, ?_⟩, ?_⟩, ?_, by decide!⟩
  · norm_num [inClosedBox]
  · norm_num [inClosedBox]
  · rintro px py - - ⟨⟨_, h1, _, _⟩, ⟨h2, _, _, _⟩⟩
    norm_num at h1 h2
    linarith
  · norm_num [checkCollisionScaled, getScaleForY]

/-- The half-widths must be exact: the boxes `(3u, 0, 3u, 1)` and
`(0, 0, 3u, 1)` with `u = 2^(-149)`, the smallest binary32 value, touch along
`x = 1.5u`, but `1.5u` rounds to `2u` and the test on binary32 values is
true. -/
theorem checkCollisionScaled32_subnormal_touch :
    touchOnly (3 * 2 ^ (-149 : Int)) 0 (3 * 2 ^ (-149 : Int)) 1 0 0 (3 * 2 ^ (-149 : Int)) 1 ∧
      isBinary32 (3 * 2 ^ (-149 : Int)) ∧ ¬ isBinary32 (3 * 2 ^ (-149 : Int) / 2) ∧
      checkCollisionScaled32 (3 * 2 ^ (-149 : Int)) 0 (3 * 2 ^ (-149 : Int)) 1
        0 0 (3 * 2 ^ (-149 : Int)) 1 = true := by
  refine ⟨⟨⟨3 * 2 ^ (-149 : Int) / 2, 1 / 2, ?_, ?_⟩, ?_⟩, by decide!, by decide!, by decide!⟩
  · norm_num [inClosedBox]
  · norm_num [inClosedBox]
  · rintro px py - - ⟨⟨h1, _, _, _⟩, ⟨_, h2, _, _⟩⟩
    norm_num at h1 h2
    linarith

/-! ## Simulation step: frame lemmas -/

/-- Every state is related to itself. -/
theorem TrafficFrame.refl (s : GameState) : TrafficFrame s s :=
  ⟨rfl, rfl, rfl, rfl, rfl, rfl, rfl, rfl, rfl, rfl⟩

/-- The frame relation composes. -/
theorem TrafficFrame.trans {s t u : GameState} (h1 : TrafficFrame s t) (h2 : TrafficFrame t u) :
    TrafficFrame s u := by
  refine ⟨h2.gameOver.trans h1.gameOver, h2.paused.trans h1.paused,
    h2.gameSpeed.trans h1.gameSpeed, h2.scoreTimer.trans h1.scoreTimer,
    h2.criminalsCaught.trans h1.criminalsCaught, h2.police.trans h1.police,
    h2.stars.trans h1.stars, h2.lanes.trans h1.lanes, ?_,
    h2.length.trans h1.length⟩
  have a := h1.criminal
  have b := h2.criminal
  rw [← a, ← b]

/-- The adjusting loop of the lane sweep keeps the frame and the score. -/
theorem adjustLoop_frame (items : List VehicleItem) :
    ∀ (prev : VehicleItem) (s : GameState),
      TrafficFrame s (adjustLoop prev items s) ∧ (adjustLoop prev items s).score = s.score := by
  induction items with
  | nil => intro prev s; exact ⟨TrafficFrame.refl s, rfl⟩
  | cons cur rest ih =>
    intro prev s
    unfold adjustLoop
    simp only
    split_ifs with h1 h2
    · refine ⟨TrafficFrame.trans ?_ (ih _ _).1, (ih _ _).2⟩
      exact ⟨rfl, rfl, rfl, rfl, rfl, rfl, rfl, rfl, rfl, by simp [setCarY]⟩
    · refine ⟨TrafficFrame.trans ?_ (ih _ _).1, (ih _ _).2⟩
      exact ⟨rfl, rfl, rfl, rfl, rfl, rfl, rfl, rfl, rfl, rfl⟩
    · exact ih cur s

/-- The sweep of one lane keeps the frame and the score. -/
theorem sweepLane_frame (s : GameState) (lane : Int) :
    TrafficFrame s (sweepLane s lane) ∧ (sweepLane s lane).score = s.score := by
  unfold sweepLane
  split
  · exact ⟨TrafficFrame.refl s, rfl⟩
  · exact adjustLoop_frame _ _ _

/-- The lane sweep keeps the frame and the score. -/
theorem laneSweep_frame (s : GameState) :
    TrafficFrame s (laneSweep s) ∧ (laneSweep s).score = s.score := by
  unfold laneSweep
  obtain ⟨f0, s0⟩ := sweepLane_frame s 0
  obtain ⟨f1, s1⟩ := sweepLane_frame (sweepLane s 0) 1
  obtain ⟨f2, s2⟩ := sweepLane_frame (sweepLane (sweepLane s 0) 1) 2
  exact ⟨(f0.trans f1).trans f2, by rw [s2, s1, s0]⟩

/-- The function `spawnCivilianAtIndex` keeps the frame, the score, the
criminal and every other slot. -/
theorem spawnCivilianAtIndex_frame (s : GameState) (idx tries : Int) :
    TrafficFrame s (spawnCivilianAtIndex s idx tries) ∧
      (spawnCivilianAtIndex s idx tries).score = s.score ∧
      (spawnCivilianAtIndex s idx tries).criminal = s.criminal ∧
      ∀ j : Nat, (j : Int) ≠ idx →
        (spawnCivilianAtIndex s idx tries).civilianCars.getD j zeroCar =
          s.civilianCars.getD j zeroCar := by
  unfold spawnCivilianAtIndex
  split_ifs with h
  · exact ⟨TrafficFrame.refl s, rfl, rfl, fun _ _ => rfl⟩
  · refine ⟨⟨rfl, rfl, rfl, rfl, rfl, rfl, rfl, rfl, rfl, by simp⟩, rfl, rfl, ?_⟩
    intro j hj
    have hne : idx.toNat ≠ j := by omega
    simp [List.getD_eq_getElem?_getD, List.getElem?_set_ne hne]

/-- For a loop index, `spawnCivilianAtIndex` overwrites that slot only. -/
theorem spawnCivilianAtIndex_cars (s : GameState) (i : Nat) (tries : Int) : ∃ car,
    (spawnCivilianAtIndex s (i : Int) tries).civilianCars = s.civilianCars.set i car := by
  unfold spawnCivilianAtIndex
  split_ifs with h
  · refine ⟨zeroCar, ?_⟩
    have hle : s.civilianCars.length ≤ i := by omega
    rw [List.set_eq_of_length_le hle]
  · simp only [Int.toNat_ofNat]
    exact ⟨_, rfl⟩

/-- The respawn loop keeps the frame and the criminal, and adds 10 to the
score for every car below `-350` among the slots it visits. -/
theorem respawnLoop_frame :
    ∀ (fuel i : Nat) (s : GameState),
      TrafficFrame s (respawnLoop fuel i s) ∧
      (respawnLoop fuel i s).criminal = s.criminal ∧
      (respawnLoop fuel i s).score = s.score +
        10 * ((((s.civilianCars.drop i).take fuel).countP fun c => decide (c.y < -350) : Nat) : Int) := by
  intro fuel
  induction fuel with
  | zero => intro i s; exact ⟨TrafficFrame.refl s, rfl, by simp [respawnLoop]⟩
  | succ n ih =>
    intro i s
    unfold respawnLoop
    by_cases hi : i < s.civilianCars.length
    · rw [if_pos hi, List.drop_eq_getElem_cons hi, List.take_succ_cons, List.countP_cons,
        List.getD_eq_getElem _ _ hi]
      by_cases hy : s.civilianCars[i].y < -350
      · rw [if_pos hy]
        simp only [hy, decide_True, if_true]
        obtain ⟨f1, sc1, cr1, -⟩ := spawnCivilianAtIndex_frame s (i : Int) 40
        obtain ⟨car, hcars⟩ := spawnCivilianAtIndex_cars s i 40
        obtain ⟨f2, cr2, sc2⟩ := ih (i + 1)
          { spawnCivilianAtIndex s (i : Int) 40 with
            score := (spawnCivilianAtIndex s (i : Int) 40).score + 10 }
        refine ⟨TrafficFrame.trans ?_ f2, ?_, ?_⟩
        · exact ⟨f1.gameOver, f1.paused, f1.gameSpeed, f1.scoreTimer, f1.criminalsCaught,
            f1.police, f1.stars, f1.lanes, f1.criminal, f1.length⟩
        · rw [cr2]; exact cr1
        · rw [sc2]
          simp only [hcars, sc1]
          rw [List.drop_set_of_lt _ _ (Nat.lt_succ_self i)]
          push_cast
          ring
      · rw [if_neg hy]
        simp only [hy, decide_False, Bool.false_eq_true, if_false, Nat.add_zero]
        exact ih (i + 1) s
    · rw [if_neg hi, List.drop_eq_nil_of_le (by omega)]
      exact ⟨TrafficFrame.refl s, rfl, by simp⟩

/-- The respawn block keeps the frame and the criminal, and adds 10 to the
score for every car below `-350`. -/
theorem respawnCivilians_frame (s : GameState) :
    TrafficFrame s (respawnCivilians s) ∧
      (respawnCivilians s).criminal = s.criminal ∧
      (respawnCivilians s).score = s.score +
        10 * ((s.civilianCars.countP fun c => decide (c.y < -350) : Nat) : Int) := by
  have h := respawnLoop_frame s.civilianCars.length 0 s
  simpa [respawnCivilians] using h

/-- The state before the criminal block: the police car is as the police step
left it, the scalars are those of the start of the call, and the score has
grown by 10 for every recycled slot. -/
theorem beforeCriminal_frame (s : GameState) :
    TrafficFrame (policeStep s) (beforeCriminal s) ∧
      (beforeCriminal s).score = s.score + 10 * (recycledCount s : Int) := by
  unfold beforeCriminal recycledCount
  have hm : TrafficFrame (policeStep s) (moveCivilians (moveMarkers (policeStep s))) :=
    ⟨rfl, rfl, rfl, rfl, rfl, rfl, rfl, rfl, rfl, by simp [moveCivilians, moveMarkers]⟩
  obtain ⟨f1, s1⟩ := laneSweep_frame (moveCivilians (moveMarkers (policeStep s)))
  obtain ⟨f2, c2, s2⟩ := respawnCivilians_frame
    (laneSweep (moveCivilians (moveMarkers (policeStep s))))
  refine ⟨(hm.trans f1).trans f2, ?_⟩
  rw [s2, s1]
  rfl

/-! ## Simulation step: the criminal block and the end of the step -/

/-- The velocity cap after the bonus of a second catch. -/
theorem bonus_eq_min (m : ℚ) : (if m + 45 > 850 then 850 else m + 45) = min (m + 45) 850 := by
  split_ifs with h
  · exact (min_eq_right (le_of_lt h)).symm
  · exact (min_eq_left (not_lt.mp h)).symm

/-- The game speed after the step of a second catch. -/
theorem speedup_eq_min (g : ℚ) :
    (if g * (115 / 100) > 45 / 10 then 45 / 10 else g * (115 / 100)) =
      min (g * (115 / 100)) (45 / 10) := by
  split_ifs with h
  · exact (min_eq_right (le_of_lt h)).symm
  · exact (min_eq_left (not_lt.mp h)).symm

/-- The effect of the criminal block of `updateGame` on everything but the
criminal and the random generator, by whether the catch branch is taken. -/
theorem updateCriminal_fields (sinf : ℚ → ℚ) (t : GameState) :
    (updateCriminal sinf t).score =
        t.score + (if (t.criminal.active && policeCatches (moveCriminal sinf t)) = true
          then 50 else 0) ∧
      (updateCriminal sinf t).criminalsCaught =
        t.criminalsCaught + (if (t.criminal.active && policeCatches (moveCriminal sinf t)) = true
          then 1 else 0) ∧
      (updateCriminal sinf t).gameSpeed =
        (if (t.criminal.active && policeCatches (moveCriminal sinf t)) = true ∧
            Int.tmod (t.criminalsCaught + 1) 2 = 0
          then min (t.gameSpeed * (115 / 100)) (45 / 10) else t.gameSpeed) ∧
      (updateCriminal sinf t).police =
        (if (t.criminal.active && policeCatches (moveCriminal sinf t)) = true ∧
            Int.tmod (t.criminalsCaught + 1) 2 = 0
          then { t.police with maxVx := min (t.police.maxVx + 45) 850 } else t.police) ∧
      (updateCriminal sinf t).civilianCars = t.civilianCars ∧
      (updateCriminal sinf t).scoreTimer = t.scoreTimer ∧
      (updateCriminal sinf t).gameOver = t.gameOver ∧
      (updateCriminal sinf t).paused = t.paused := by
  unfold updateCriminal
  by_cases ha : t.criminal.active = true
  · by_cases hc : policeCatches (moveCriminal sinf t) = true
    · by_cases he : Int.tmod (t.criminalsCaught + 1) 2 = 0
      · simp only [ha, hc, if_true, Bool.and_self, he, and_self]
        split_ifs <;>
          simp [catchCriminal, spawnCriminalOriginal, moveCriminal, he, bonus_eq_min,
            speedup_eq_min]
      · simp only [ha, hc, if_true, Bool.and_self, he, and_false, if_false]
        split_ifs <;> simp [catchCriminal, spawnCriminalOriginal, moveCriminal, he]
    · simp only [ha, hc, if_true, Bool.and_false, Bool.false_eq_true, if_false, false_and]
      split_ifs <;> simp [spawnCriminalOriginal, moveCriminal]
  · simp [ha]

/-- The score of the time-score loop is the entry score plus the points the
loop awards from zero; the timer does not depend on the score. -/
theorem scoreLoop_add (fuel : Nat) : ∀ (score : Int) (t : ℚ),
    (scoreLoop fuel score t).1 = score + (scoreLoop fuel 0 t).1 ∧
      (scoreLoop fuel score t).2 = (scoreLoop fuel 0 t).2 := by
  induction fuel with
  | zero => intro score t; simp [scoreLoop]
  | succ n ih =>
    intro score t
    unfold scoreLoop
    split_ifs with h
    · obtain ⟨a1, a2⟩ := ih (score + 1) (t - SCORE_INTERVAL)
      obtain ⟨b1, b2⟩ := ih (0 + 1) (t - SCORE_INTERVAL)
      rw [a1, b1, a2, b2]
      exact ⟨by ring, rfl⟩
    · simp

/-- The crash test does not see the changes of the criminal block and of the
siren statement. -/
theorem policeCrashes_after (sinf : ℚ → ℚ) (t : GameState) :
    policeCrashes (stepSiren (updateCriminal sinf t)) = policeCrashes t := by
  obtain ⟨-, -, -, hp, hc, -, -, -⟩ := updateCriminal_fields sinf t
  unfold policeCrashes stepSiren
  simp only [hc, hp]
  split_ifs <;> rfl

/-- The master description of a call of `updateGame` that passes the road-edge
test: the catch counter, the game speed, the velocity cap, the score and the
game-over flag after the call. -/
theorem updateGame_fields (sinf : ℚ → ℚ) (s : GameState)
    (hrun : s.gameOver = false) (hp : s.paused = false)
    (hroad : hitsRoadEdge (policeStep s) = false) :
    (updateGame sinf s).criminalsCaught =
        s.criminalsCaught + (if performsCatch sinf s = true then 1 else 0) ∧
      (updateGame sinf s).gameSpeed =
        (if performsCatch sinf s = true ∧ Int.tmod (s.criminalsCaught + 1) 2 = 0
          then min (s.gameSpeed * (115 / 100)) (45 / 10) else s.gameSpeed) ∧
      (updateGame sinf s).police.maxVx =
        (if performsCatch sinf s = true ∧ Int.tmod (s.criminalsCaught + 1) 2 = 0
          then min ((policeStep s).police.maxVx + 45) 850 else (policeStep s).police.maxVx) ∧
      (updateGame sinf s).score =
        s.score + 10 * (recycledCount s : Int) +
          (if performsCatch sinf s = true then 50 else 0) +
          (if policeCrashes (beforeCriminal s) = true then 0 else timePoints s.scoreTimer) ∧
      (updateGame sinf s).gameOver = policeCrashes (beforeCriminal s) := by
  obtain ⟨fr, hsc⟩ := beforeCriminal_frame s
  obtain ⟨u1, u2, u3, u4, u5, u6, u7, u8⟩ := updateCriminal_fields sinf (beforeCriminal s)
  have hpc : performsCatch sinf s =
      ((beforeCriminal s).criminal.active &&
        policeCatches (moveCriminal sinf (beforeCriminal s))) := by
    simp [performsCatch, hrun, hp, hroad]
  have hcrash := policeCrashes_after sinf (beforeCriminal s)
  have hupd : updateGame sinf s =
      if policeCrashes (beforeCriminal s) = true then
        { stepSiren (updateCriminal sinf (beforeCriminal s)) with gameOver := true }
      else timeScore (stepSiren (updateCriminal sinf (beforeCriminal s))) := by
    simp only [updateGame, hrun, hp, hroad, afterEdge, ← hcrash]
    simp [beforeCriminal]
  rw [hupd, hpc]
  have g0 : (policeStep s).gameSpeed = s.gameSpeed := rfl
  have c0 : (policeStep s).criminalsCaught = s.criminalsCaught := rfl
  have t0 : (policeStep s).scoreTimer = s.scoreTimer := rfl
  have o0 : (policeStep s).gameOver = s.gameOver := rfl
  by_cases hcr : policeCrashes (beforeCriminal s) = true
  · simp only [hcr, if_true]
    refine ⟨?_, ?_, ?_, ?_, ?_⟩
    · simp only [stepSiren, u2, fr.criminalsCaught, c0]
    · simp only [stepSiren, u3, fr.criminalsCaught, fr.gameSpeed, c0, g0]
    · simp only [stepSiren, u4, fr.criminalsCaught, fr.police, c0]
      split_ifs <;> rfl
    · simp only [stepSiren, u1, hsc]
      ring
    · trivial
  · simp only [hcr, if_false, Bool.false_eq_true]
    refine ⟨?_, ?_, ?_, ?_, ?_⟩
    · simp only [timeScore, stepSiren, u2, fr.criminalsCaught, c0]
    · simp only [timeScore, stepSiren, u3, fr.criminalsCaught, fr.gameSpeed, c0, g0]
    · simp only [timeScore, stepSiren, u4, fr.criminalsCaught, fr.police, c0]
      split_ifs <;> rfl
    · simp only [timeScore, stepSiren, u1, u6, hsc, fr.scoreTimer, t0, timePoints]
      rw [(scoreLoop_add _ _ _).1]
    · simp only [timeScore, stepSiren, u7, fr.gameOver, o0, hrun]

/-! ## Claims about the simulation step -/

/-- The road-edge test as the two comparisons of the footprint with the road
boundaries. -/
theorem hitsRoadEdge_iff (s : GameState) :
    hitsRoadEdge s = true ↔
      (s.police.x - s.police.width / 2 ≤ ROAD_LEFT ∨
        s.police.x + s.police.width / 2 ≥ ROAD_RIGHT) := by
  simp only [hitsRoadEdge, Bool.or_eq_true, decide_eq_true_eq, mul_one_div]

/-- The police car stays strictly inside the road exactly when the road-edge
test is false. -/
theorem hitsRoadEdge_false_iff (s : GameState) :
    hitsRoadEdge s = false ↔
      (ROAD_LEFT < s.police.x - s.police.width / 2 ∧
        s.police.x + s.police.width / 2 < ROAD_RIGHT) := by
  rw [← Bool.not_eq_true, hitsRoadEdge_iff]
  push_neg
  rfl

/-- The catch test after the criminal's move, in terms of the state before
the criminal block. -/
theorem policeCatches_moveCriminal (sinf : ℚ → ℚ) (t : GameState) :
    policeCatches (moveCriminal sinf t) = true ↔
      (t.police.x - t.police.width / 2 < (moveCriminal sinf t).criminal.x + t.criminal.width / 2 ∧
        (moveCriminal sinf t).criminal.x - t.criminal.width / 2 < t.police.x + t.police.width / 2 ∧
        t.police.y < t.criminal.y - t.criminal.speed * t.gameSpeed + t.criminal.height ∧
        t.criminal.y - t.criminal.speed * t.gameSpeed < t.police.y + t.police.height) := by
  unfold policeCatches
  rw [checkCollisionScaled_iff]
  rfl

/-- The velocity cap after the ramp of the police step. -/
theorem policeStep_maxVx (s : GameState) :
    (policeStep s).police.maxVx = min (s.police.maxVx + 24 / 10) 650 := by
  have h : (25 / 10 : ℚ) * dt * 60 = 24 / 10 := by norm_num [dt]
  simp only [policeStep, h]
  split_ifs with h1
  · exact (min_eq_right (le_of_lt h1)).symm
  · exact (min_eq_left (not_lt.mp h1)).symm

/-- C7 (the failing input): in `bonusState`, a running state in which the
velocity cap holds the bonus of a second catch (`650 + 45 = 695`), one call of
`updateGame` leaves the game running and lowers the cap to `650`, whatever the
sine function. -/
theorem maxVx_drops_after_catch_bonus (sinf : ℚ → ℚ) :
    bonusState.gameOver = false ∧ bonusState.paused = false ∧
      bonusState.police.maxVx = 695 ∧
      (updateGame sinf bonusState).gameOver = false ∧
      (updateGame sinf bonusState).police.maxVx = 650 := by
  have hrun : bonusState.gameOver = false := rfl
  have hp : bonusState.paused = false := rfl
  have hroad : hitsRoadEdge (policeStep bonusState) = false := by decide!
  have hno : performsCatch sinf bonusState = false := by
    have hnc : ¬ policeCatches (moveCriminal sinf (beforeCriminal bonusState)) = true := by
      rw [policeCatches_moveCriminal]
      rintro ⟨-, -, -, h⟩
      have h1 : (beforeCriminal bonusState).criminal.y -
          (beforeCriminal bonusState).criminal.speed * (beforeCriminal bonusState).gameSpeed =
          7177 / 8 := by decide!
      have h2 : (beforeCriminal bonusState).police.y + (beforeCriminal bonusState).police.height =
          146 := by decide!
      rw [h1, h2] at h
      norm_num at h
    simp [performsCatch, hnc]
  obtain ⟨-, -, hm, -, ho⟩ := updateGame_fields sinf bonusState hrun hp hroad
  refine ⟨rfl, rfl, rfl, ?_, ?_⟩
  · rw [ho]; decide!
  · rw [hm, hno]
    simp only [Bool.false_eq_true, false_and, if_false]
    decide!

/-- C8 (amended): in a running, unpaused state in which the police car stays
strictly inside the road and the boxes of the police car and of the active
criminal overlap at the catch test, one call of `updateGame` raises
`criminalsCaught` by exactly 1, and raises the score by 50 for the catch, plus
10 for every civilian slot recycled in that call, plus the time points of the
call (none when the call ends in a crash); so by exactly 50 when no slot is
recycled and no time point falls due. -/
theorem catch_scoring (sinf : ℚ → ℚ) (s : GameState)
    (hrun : s.gameOver = false) (hp : s.paused = false)
    (hinside : ROAD_LEFT < (policeStep s).police.x - (policeStep s).police.width / 2 ∧
      (policeStep s).police.x + (policeStep s).police.width / 2 < ROAD_RIGHT)
    (hact : (beforeCriminal s).criminal.active = true)
    (hcatch : policeCatches (moveCriminal sinf (beforeCriminal s)) = true) :
    (updateGame sinf s).criminalsCaught = s.criminalsCaught + 1 ∧
      (updateGame sinf s).score =
        s.score + 50 + 10 * (recycledCount s : Int) +
          (if policeCrashes (beforeCriminal s) = true then 0 else timePoints s.scoreTimer) ∧
      (recycledCount s = 0 → timePoints s.scoreTimer = 0 →
        (updateGame sinf s).score = s.score + 50) := by
  have hroad : hitsRoadEdge (policeStep s) = false := (hitsRoadEdge_false_iff _).mpr hinside
  have hpc : performsCatch sinf s = true := by
    simp [performsCatch, hrun, hp, hroad, hact, hcatch]
  obtain ⟨hcc, -, -, hsc, -⟩ := updateGame_fields sinf s hrun hp hroad
  rw [hpc] at hcc hsc
  simp only [if_true] at hcc hsc
  refine ⟨hcc, by rw [hsc]; ring, ?_⟩
  intro hr ht
  rw [hsc, hr, ht]
  simp

/-- C8 (witness): the amended statement at `catchState`, with the constant
zero in place of the sine: the catch counter grows by 1 and the score by 50
plus the recycle and time points of the call. -/
theorem catch_scoring_witness :
    (updateGame (fun _ => 0) catchState).criminalsCaught = catchState.criminalsCaught + 1 ∧
      (updateGame (fun _ => 0) catchState).score =
        catchState.score + 50 + 10 * (recycledCount catchState : Int) +
          (if policeCrashes (beforeCriminal catchState) = true then 0
            else timePoints catchState.scoreTimer) :=
  ⟨(catch_scoring (fun _ => 0) catchState rfl rfl (by decide!) (by decide!) (by decide!)).1,
    (catch_scoring (fun _ => 0) catchState rfl rfl (by decide!) (by decide!) (by decide!)).2.1⟩

/-- C8 (counterexample): `catchState` is running and unpaused, the police car
stays strictly inside the road and overlaps the criminal at the catch test, for
every sine function with values in `[-1, 1]`; the call of `updateGame` also
completes a scoring interval (`51/64 + 0.016 ≥ 0.8`), and the score grows by 51,
not 50. -/
theorem catch_scoring_not_exactly_50 :
    catchState.gameOver = false ∧ catchState.paused = false ∧
      (ROAD_LEFT < (policeStep catchState).police.x - (policeStep catchState).police.width / 2 ∧
        (policeStep catchState).police.x + (policeStep catchState).police.width / 2 <
          ROAD_RIGHT) ∧
      ∀ sinf : ℚ → ℚ, (∀ z, |sinf z| ≤ 1) →
        policeCatches (moveCriminal sinf (beforeCriminal catchState)) = true ∧
        (updateGame sinf catchState).criminalsCaught = catchState.criminalsCaught + 1 ∧
        (updateGame sinf catchState).score = catchState.score + 51 := by
  have hroad : hitsRoadEdge (policeStep catchState) = false := by decide!
  refine ⟨rfl, rfl, (hitsRoadEdge_false_iff _).mp hroad, ?_⟩
  intro sinf hsin
  have hcatch : policeCatches (moveCriminal sinf (beforeCriminal catchState)) = true := by
    rw [policeCatches_moveCriminal]
    have hx : (moveCriminal sinf (beforeCriminal catchState)).criminal.x =
        (if (if 400 + sinf (11 / 10) * 20 < ROAD_LEFT + 35 then ROAD_LEFT + 35
              else 400 + sinf (11 / 10) * 20) > ROAD_RIGHT - 35 then ROAD_RIGHT - 35
          else (if 400 + sinf (11 / 10) * 20 < ROAD_LEFT + 35 then ROAD_LEFT + 35
              else 400 + sinf (11 / 10) * 20)) := by
      have hb : (beforeCriminal catchState).criminal.baseX = 400 := by decide!
      have hz : (beforeCriminal catchState).criminal.zigzag +
          10 / 100 * (beforeCriminal catchState).gameSpeed = 11 / 10 := by decide!
      simp only [moveCriminal, hb, hz]
    have h1 : (beforeCriminal catchState).police.x = 400 := by decide!
    have h2 : (beforeCriminal catchState).police.width = 44 := by decide!
    have h3 : (beforeCriminal catchState).criminal.width = 44 := by decide!
    have h4 : (beforeCriminal catchState).police.y = 80 := by decide!
    have h5 : (beforeCriminal catchState).police.height = 66 := by decide!
    have h6 : (beforeCriminal catchState).criminal.y -
        (beforeCriminal catchState).criminal.speed * (beforeCriminal catchState).gameSpeed =
        195 / 2 := by decide!
    have h7 : (beforeCriminal catchState).criminal.height = 66 := by decide!
    rw [hx, h1, h2, h3, h4, h5, h6, h7]
    have hs := abs_le.mp (hsin (11 / 10))
    have l1 : ¬ (400 + sinf (11 / 10) * 20 < ROAD_LEFT + 35) := by
      unfold ROAD_LEFT; linarith [hs.1]
    have l2 : ¬ (400 + sinf (11 / 10) * 20 > ROAD_RIGHT - 35) := by
      unfold ROAD_RIGHT; linarith [hs.2]
    simp only [l1, l2, if_false]
    refine ⟨?_, ?_, ?_, ?_⟩ <;> linarith [hs.1, hs.2]
  have hact : (beforeCriminal catchState).criminal.active = true := by decide!
  have hpc : performsCatch sinf catchState = true := by
    simp [performsCatch, hroad, hact, hcatch]
    decide!
  obtain ⟨hcc, -, -, hsc, -⟩ := updateGame_fields sinf catchState rfl rfl hroad
  rw [hpc] at hcc hsc
  have hr : recycledCount catchState = 0 := by decide!
  have ht : timePoints catchState.scoreTimer = 1 := by decide!
  have hcr : policeCrashes (beforeCriminal catchState) = false := by decide!
  refine ⟨hcatch, by simpa using hcc, ?_⟩
  rw [hsc, hr, ht, hcr]
  simp only [Nat.cast_zero, mul_zero, add_zero, if_true, Bool.false_eq_true, if_false]
  ring

/-- A call of `updateGame` in which the police car reaches a road edge returns
the state of the police step with `gameOver` set. -/
theorem updateGame_edge (sinf : ℚ → ℚ) (s : GameState)
    (hrun : s.gameOver = false) (hp : s.paused = false)
    (hroad : hitsRoadEdge (policeStep s) = true) :
    updateGame sinf s = { policeStep s with gameOver := true } := by
  simp [updateGame, hrun, hp, hroad]

/-- A call of `updateGame` adds one to the catch counter exactly when it
reaches the catch branch. -/
theorem updateGame_criminalsCaught (sinf : ℚ → ℚ) (s : GameState) :
    (updateGame sinf s).criminalsCaught =
      s.criminalsCaught + (if performsCatch sinf s = true then 1 else 0) := by
  by_cases hrun : s.gameOver = false
  · by_cases hp : s.paused = false
    · by_cases hroad : hitsRoadEdge (policeStep s) = false
      · exact (updateGame_fields sinf s hrun hp hroad).1
      · rw [Bool.not_eq_false] at hroad
        rw [updateGame_edge sinf s hrun hp hroad]
        simp [performsCatch, hroad]
        rfl
    · rw [Bool.not_eq_false] at hp
      simp [updateGame, performsCatch, hp]
  · rw [Bool.not_eq_false] at hrun
    simp [updateGame, performsCatch, hrun]

/-- The function `initGame` resets the catch counter. -/
theorem initGame_criminalsCaught (s : GameState) : (initGame s).criminalsCaught = 0 := rfl

/-- The catch counter of the program is the number of catches since the last
`initGame`. -/
theorem criminalsCaught_eq_catchesSince (sinf : ℚ → ℚ) (evs : List Event) :
    ∀ (s : GameState) (n : Nat), s.criminalsCaught = (n : Int) →
      (runEvents sinf s evs).criminalsCaught = (catchesSince sinf s n evs : Int) := by
  induction evs with
  | nil => intro s n h; simpa [runEvents, catchesSince] using h
  | cons e rest ih =>
    intro s n h
    cases e with
    | tick =>
      simp only [runEvents, List.foldl_cons, applyEvent, catchesSince]
      apply ih
      rw [updateGame_criminalsCaught, h]
      split_ifs <;> simp
    | keyR =>
      simp only [runEvents, List.foldl_cons, applyEvent, catchesSince]
      exact ih (initGame s) 0 (initGame_criminalsCaught s)
    | keyS => exact ih _ n h
    | keyP => exact ih _ n h
    | leftDown =>
      simp only [runEvents, List.foldl_cons, applyEvent, catchesSince]
      apply ih
      split_ifs <;> exact h
    | rightDown =>
      simp only [runEvents, List.foldl_cons, applyEvent, catchesSince]
      apply ih
      split_ifs <;> exact h
    | leftUp => exact ih _ n h
    | rightUp => exact ih _ n h

/-- C9: count the catches from a state in which the catch counter is zero (as
`initGame` leaves it; a later key `r` starts the count again).  In the call of
`updateGame` that performs catch number `k`: if `k` is even, the game speed
becomes `min(1.15 * gameSpeed, 4.5)` and the velocity cap (after this call's
ramp to `min(maxVx + 2.4, 650)`) receives `+45` capped at `850`; if `k` is odd,
the game speed is unchanged and the velocity cap is just the ramped one. -/
theorem difficulty_step_on_even_catch (sinf : ℚ → ℚ) (s0 : GameState) (evs : List Event)
    (h0 : s0.criminalsCaught = 0)
    (hcatch : performsCatch sinf (runEvents sinf s0 evs) = true) :
    ((catchesSince sinf s0 0 evs + 1) % 2 = 0 →
      (updateGame sinf (runEvents sinf s0 evs)).gameSpeed =
          min (115 / 100 * (runEvents sinf s0 evs).gameSpeed) (45 / 10) ∧
        (updateGame sinf (runEvents sinf s0 evs)).police.maxVx =
          min (min ((runEvents sinf s0 evs).police.maxVx + 24 / 10) 650 + 45) 850) ∧
    ((catchesSince sinf s0 0 evs + 1) % 2 = 1 →
      (updateGame sinf (runEvents sinf s0 evs)).gameSpeed = (runEvents sinf s0 evs).gameSpeed ∧
        (updateGame sinf (runEvents sinf s0 evs)).police.maxVx =
          min ((runEvents sinf s0 evs).police.maxVx + 24 / 10) 650) := by
  have hcc := criminalsCaught_eq_catchesSince sinf evs s0 0 (by simpa using h0)
  have hrun : (runEvents sinf s0 evs).gameOver = false := by
    by_contra h
    rw [Bool.not_eq_false] at h
    simp [performsCatch, h] at hcatch
  have hp : (runEvents sinf s0 evs).paused = false := by
    by_contra h
    rw [Bool.not_eq_false] at h
    simp [performsCatch, h] at hcatch
  have hroad : hitsRoadEdge (policeStep (runEvents sinf s0 evs)) = false := by
    by_contra h
    rw [Bool.not_eq_false] at h
    simp [performsCatch, h] at hcatch
  obtain ⟨-, hg, hm, -, -⟩ := updateGame_fields sinf _ hrun hp hroad
  rw [hcatch, hcc] at hg hm
  rw [policeStep_maxVx] at hm
  have hk : Int.tmod ((catchesSince sinf s0 0 evs : Int) + 1) 2 =
      (((catchesSince sinf s0 0 evs + 1) % 2 : Nat) : Int) := by
    rw [Int.tmod_eq_emod (by omega) (by omega)]
    omega
  rw [hk] at hg hm
  constructor
  · intro hev
    rw [hev] at hg hm
    simp only [Nat.cast_zero, and_self, if_true] at hg hm
    exact ⟨by rw [hg, mul_comm], hm⟩
  · intro hodd
    rw [hodd] at hg hm
    simp only [Nat.cast_one, one_ne_zero, and_false, if_false] at hg hm
    exact ⟨hg, hm⟩

/-- C9 (witness): from `catchState` (catch counter zero), after the key `s` and
a release of the left arrow, the next call performs catch number 1: the game
speed stays 1 and the velocity cap is the ramped `min(650 + 2.4, 650)`. -/
theorem difficulty_step_on_even_catch_witness :
    (updateGame (fun _ => 0)
        (runEvents (fun _ => 0) catchState [Event.keyS, Event.leftUp])).gameSpeed =
      (runEvents (fun _ => 0) catchState [Event.keyS, Event.leftUp]).gameSpeed ∧
    (updateGame (fun _ => 0)
        (runEvents (fun _ => 0) catchState [Event.keyS, Event.leftUp])).police.maxVx =
      min ((runEvents (fun _ => 0) catchState [Event.keyS, Event.leftUp]).police.maxVx +
        24 / 10) 650 :=
  (difficulty_step_on_even_catch (fun _ => 0) catchState [Event.keyS, Event.leftUp] rfl
    (by decide!)).2 (by decide!)

/-- C10: in a running, unpaused state, if after the velocity integration the
police car's footprint touches or crosses a road boundary
(`x - width/2 ≤ ROAD_LEFT` or `x + width/2 ≥ ROAD_RIGHT`), `updateGame` sets
`gameOver` and leaves lane markers, traffic, criminal, score, score timer,
catch counter, game speed, siren phase and random generator as they were; and
the footprint does touch the left boundary whenever `x` is exactly `ROAD_LEFT`
before the call, for a police car of the base width whose speed is within the
cap ceiling of 850 and whose cap is not negative (as in every reachable state,
by `reachable_policeInv`). -/
theorem road_edge_terminal (sinf : ℚ → ℚ) (s : GameState)
    (hrun : s.gameOver = false) (hp : s.paused = false) :
    (((policeStep s).police.x - (policeStep s).police.width / 2 ≤ ROAD_LEFT ∨
        (policeStep s).police.x + (policeStep s).police.width / 2 ≥ ROAD_RIGHT) →
      (updateGame sinf s).gameOver = true ∧
        (updateGame sinf s).laneMarkers = s.laneMarkers ∧
        (updateGame sinf s).civilianCars = s.civilianCars ∧
        (updateGame sinf s).criminal = s.criminal ∧
        (updateGame sinf s).score = s.score ∧
        (updateGame sinf s).scoreTimer = s.scoreTimer ∧
        (updateGame sinf s).criminalsCaught = s.criminalsCaught ∧
        (updateGame sinf s).gameSpeed = s.gameSpeed ∧
        (updateGame sinf s).police.sirenBlink = s.police.sirenBlink ∧
        (updateGame sinf s).rng = s.rng) ∧
    (s.police.x = ROAD_LEFT → s.police.width = BASE_VEH_W → |s.police.vx| ≤ 850 →
      0 ≤ s.police.maxVx →
      (policeStep s).police.x - (policeStep s).police.width / 2 ≤ ROAD_LEFT) := by
  constructor
  · intro hedge
    rw [updateGame_edge sinf s hrun hp ((hitsRoadEdge_iff _).mpr hedge)]
    exact ⟨rfl, rfl, rfl, rfl, rfl, rfl, rfl, rfl, rfl, rfl⟩
  · intro hx hw hv hm
    have hv' := abs_le.mp hv
    have key : (policeStep s).police.vx ≤ 1375 := by
      have h24 : (25 / 10 : ℚ) * dt * 60 = 24 / 10 := by norm_num [dt]
      simp only [policeStep, h24, ACC, DAMP, dt]
      split_ifs <;> linarith [hv'.1, hv'.2]
    have hxs : (policeStep s).police.x = ROAD_LEFT + (policeStep s).police.vx * dt := by
      simp only [policeStep, hx]
    have hws : (policeStep s).police.width = BASE_VEH_W := hw
    rw [hxs, hws]
    unfold BASE_VEH_W dt
    linarith

/-- C10 (witness): in `edgeState` the police car's `x` is exactly `ROAD_LEFT`;
its footprint touches the left boundary after the police step, and the call of
`updateGame` ends the game without touching the score. -/
theorem road_edge_terminal_witness :
    (policeStep edgeState).police.x - (policeStep edgeState).police.width / 2 ≤ ROAD_LEFT ∧
      (updateGame (fun _ => 0) edgeState).gameOver = true ∧
      (updateGame (fun _ => 0) edgeState).score = edgeState.score := by
  have h := road_edge_terminal (fun _ => 0) edgeState rfl rfl
  have he := h.2 rfl rfl (by decide!) (by decide!)
  exact ⟨he, (h.1 (Or.inl he)).1, (h.1 (Or.inl he)).2.2.2.2.1⟩

/-! ## Reachable states -/

/-- The police car after a call of `updateGame` that passes the road-edge
test: the police step, then the catch bonus if any, then the siren phase. -/
theorem updateGame_police (sinf : ℚ → ℚ) (s : GameState)
    (hrun : s.gameOver = false) (hp : s.paused = false)
    (hroad : hitsRoadEdge (policeStep s) = false) :
    (updateGame sinf s).police =
      { (policeStep s).police with
        maxVx := (updateGame sinf s).police.maxVx
        sirenBlink := Int.tmod (s.police.sirenBlink + 1) 30 } := by
  obtain ⟨fr, -⟩ := beforeCriminal_frame s
  obtain ⟨-, -, -, u4, -, -, -, -⟩ := updateCriminal_fields sinf (beforeCriminal s)
  have hupd : updateGame sinf s =
      if policeCrashes (stepSiren (updateCriminal sinf (beforeCriminal s))) = true then
        { stepSiren (updateCriminal sinf (beforeCriminal s)) with gameOver := true }
      else timeScore (stepSiren (updateCriminal sinf (beforeCriminal s))) := by
    simp only [updateGame, hrun, hp, hroad, afterEdge]
    simp [beforeCriminal]
  have hpol : ∀ t : GameState,
      (if policeCrashes t = true then { t with gameOver := true } else timeScore t).police =
        t.police := by
    intro t
    split_ifs <;> rfl
  rw [hupd, hpol]
  simp only [stepSiren, u4, fr.police]
  split_ifs <;> rfl

/-- The part of the ramp that does hold: a call of `updateGame` from a state
whose velocity cap is at most the clamp value 650 does not lower the cap. -/
theorem maxVx_monotone_below_clamp (sinf : ℚ → ℚ) (s : GameState)
    (h : s.police.maxVx ≤ 650) :
    s.police.maxVx ≤ (updateGame sinf s).police.maxVx := by
  have hstep : s.police.maxVx ≤ (policeStep s).police.maxVx := by
    rw [policeStep_maxVx]
    exact le_min (by linarith) h
  have hle : (policeStep s).police.maxVx ≤ 650 := by
    rw [policeStep_maxVx]
    exact min_le_right _ _
  by_cases hrun : s.gameOver = false
  · by_cases hp : s.paused = false
    · by_cases hroad : hitsRoadEdge (policeStep s) = false
      · obtain ⟨-, -, hm, -, -⟩ := updateGame_fields sinf s hrun hp hroad
        rw [hm]
        split_ifs
        · exact le_trans hstep (le_min (by linarith) (by linarith))
        · exact hstep
      · rw [Bool.not_eq_false] at hroad
        rw [updateGame_edge sinf s hrun hp hroad]
        exact hstep
    · rw [Bool.not_eq_false] at hp
      simp only [updateGame, hp, or_true, if_true]
      exact le_refl _
  · rw [Bool.not_eq_false] at hrun
    simp only [updateGame, hrun, true_or, if_true]
    exact le_refl _

/-- One call of `updateGame` keeps the police invariant. -/
theorem updateGame_policeInv (sinf : ℚ → ℚ) (s : GameState) (h : PoliceInv s) :
    PoliceInv (updateGame sinf s) := by
  obtain ⟨hw, hh, hy, hv, hm1, hm2⟩ := h
  have hv' := abs_le.mp hv
  have h24 : (25 / 10 : ℚ) * dt * 60 = 24 / 10 := by norm_num [dt]
  have hstep : PoliceInv (policeStep s) ∧ (policeStep s).police.maxVx ≤ 650 := by
    refine ⟨⟨hw, hh, hy, ?_, ?_, ?_⟩, ?_⟩
    · simp only [policeStep, h24, ACC, DAMP, dt]
      rw [abs_le]
      split_ifs <;> constructor <;> linarith [hv'.1, hv'.2]
    · simp only [policeStep, h24]
      split_ifs <;> linarith
    · simp only [policeStep, h24]
      split_ifs <;> linarith
    · simp only [policeStep, h24]
      split_ifs <;> linarith
  obtain ⟨⟨sw, sh, sy, sv, sm1, sm2⟩, sm3⟩ := hstep
  by_cases hrun : s.gameOver = false
  · by_cases hp : s.paused = false
    · by_cases hroad : hitsRoadEdge (policeStep s) = false
      · obtain ⟨-, -, hm, -, -⟩ := updateGame_fields sinf s hrun hp hroad
        have hpol := updateGame_police sinf s hrun hp hroad
        have hb : 250 ≤ (updateGame sinf s).police.maxVx ∧
            (updateGame sinf s).police.maxVx ≤ 695 := by
          rw [hm]
          split_ifs
          · constructor
            · exact le_min (by linarith) (by norm_num)
            · exact le_trans (min_le_left _ _) (by linarith)
          · exact ⟨sm1, sm2⟩
        unfold PoliceInv
        rw [hpol]
        exact ⟨sw, sh, sy, sv, hb.1, hb.2⟩
      · rw [Bool.not_eq_false] at hroad
        rw [updateGame_edge sinf s hrun hp hroad]
        exact ⟨sw, sh, sy, sv, sm1, sm2⟩
    · rw [Bool.not_eq_false] at hp
      simp only [updateGame, hp, or_true, if_true]
      exact ⟨hw, hh, hy, hv, hm1, hm2⟩
  · rw [Bool.not_eq_false] at hrun
    simp only [updateGame, hrun, true_or, if_true]
    exact ⟨hw, hh, hy, hv, hm1, hm2⟩

/-- The spawn loop of `initGame` keeps the frame. -/
theorem spawnAllLoop_frame : ∀ (n i : Nat) (s : GameState),
    TrafficFrame s (spawnAllLoop n i s) := by
  intro n
  induction n with
  | zero => intro i s; exact TrafficFrame.refl s
  | succ n ih =>
    intro i s
    exact (spawnCivilianAtIndex_frame s (i : Int) 50).1.trans (ih (i + 1) _)

/-- The spawn loop of `initGame` does not touch the police car. -/
theorem spawnAllLoop_police (n i : Nat) (s : GameState) :
    (spawnAllLoop n i s).police = s.police :=
  (spawnAllLoop_frame n i s).police

/-- The function `initGame` establishes the police invariant from any state
with a police car of the base size. -/
theorem initGame_policeInv (s : GameState)
    (hw : s.police.width = BASE_VEH_W) (hh : s.police.height = BASE_VEH_H) :
    PoliceInv (initGame s) := by
  have hpol : (initGame s).police =
      { s.police with
        x := (WIDTH : ℚ) / 2, y := 80, vx := 0, leftPressed := false, rightPressed := false,
        sirenOn := true, sirenBlink := 0, maxVx := 250 } := by
    simp only [initGame, spawnCriminalOriginal, spawnAllLoop_police]
  unfold PoliceInv
  rw [hpol]
  exact ⟨hw, hh, rfl, by norm_num, le_refl _, by norm_num⟩

/-- Every event keeps the police invariant. -/
theorem applyEvent_policeInv (sinf : ℚ → ℚ) (s : GameState) (e : Event) (h : PoliceInv s) :
    PoliceInv (applyEvent sinf s e) := by
  cases e with
  | tick => exact updateGame_policeInv sinf s h
  | keyR => exact initGame_policeInv s h.1 h.2.1
  | keyS => exact h
  | keyP => exact h
  | leftDown =>
    simp only [applyEvent]
    split_ifs <;> exact h
  | rightDown =>
    simp only [applyEvent]
    split_ifs <;> exact h
  | leftUp => exact h
  | rightUp => exact h

/-- The police invariant holds in every reachable state. -/
theorem reachable_policeInv (sinf : ℚ → ℚ) (s : GameState) (h : Reachable sinf s) :
    PoliceInv s := by
  obtain ⟨g, evs, rfl⟩ := h
  have key : ∀ (evs : List Event) (t : GameState), PoliceInv t →
      PoliceInv (runEvents sinf t evs) := by
    intro evs
    induction evs with
    | nil => intro t ht; exact ht
    | cons e rest ih =>
      intro t ht
      exact ih _ (applyEvent_policeInv sinf t e ht)
  exact key evs _ (initGame_policeInv _ rfl rfl)

/-! ## Bresenham: no overflow for screen-sized coordinates -/

/-- A value in the 32-bit range is not changed by the reduction to 32 bits. -/
theorem wrap32_eq (z : Int) (h1 : -2147483648 ≤ z) (h2 : z < 2147483648) : wrap32 z = z := by
  unfold wrap32
  omega

/-- While the error term lies in `[-2 dy, 2 dx]`, the differences are below
`2^29` and the coordinates at most `2^30` in absolute value, the 32-bit loop body computes what the loop body
on unbounded integers computes, and the error term stays in that range. -/
theorem bresenhamStep32_eq (dx dy sx sy x y err : Int)
    (hdx : 0 ≤ dx) (hdx' : dx < 536870912) (hdy : 0 ≤ dy) (hdy' : dy < 536870912)
    (hsx : sx = 1 ∨ sx = -1) (hsy : sy = 1 ∨ sy = -1)
    (hx : |x| ≤ 1073741824) (hy : |y| ≤ 1073741824)
    (he1 : -(2 * dy) ≤ err) (he2 : err ≤ 2 * dx) :
    bresenhamStep32 dx dy sx sy x y err = bresenhamStep dx dy sx sy x y err ∧
      -(2 * dy) ≤ (bresenhamStep dx dy sx sy x y err).2.2 ∧
      (bresenhamStep dx dy sx sy x y err).2.2 ≤ 2 * dx := by
  have hx' := abs_le.mp hx
  have hy' := abs_le.mp hy
  have w1 : wrap32 (2 * err) = 2 * err := wrap32_eq _ (by omega) (by omega)
  have w2 : wrap32 (-dy) = -dy := wrap32_eq _ (by omega) (by omega)
  have w3 : wrap32 (err - dy) = err - dy := wrap32_eq _ (by omega) (by omega)
  have w4 : wrap32 (x + sx) = x + sx := wrap32_eq _ (by omega) (by omega)
  have w5 : wrap32 (y + sy) = y + sy := wrap32_eq _ (by omega) (by omega)
  have w6 : wrap32 (err + dx) = err + dx := wrap32_eq _ (by omega) (by omega)
  have w7 : wrap32 (err - dy + dx) = err - dy + dx := wrap32_eq _ (by omega) (by omega)
  unfold bresenhamStep32 bresenhamStep
  simp only [w1, w2, w3, w4, w5]
  by_cases c1 : 2 * err > -dy <;> by_cases c2 : 2 * err < dx
  · simp only [c1, c2, if_true, w7]
    exact ⟨trivial, by omega, by omega⟩
  · simp only [c1, c2, if_true, if_false]
    exact ⟨trivial, by omega, by omega⟩
  · simp only [c1, c2, if_true, if_false, w6]
    exact ⟨trivial, by omega, by omega⟩
  · simp only [c1, c2, if_false]
    exact ⟨trivial, by omega, by omega⟩

/-- Under the loop invariant of `bresenhamLoop_spec` and the size bounds, the
32-bit loop returns what the loop on unbounded integers returns. -/
theorem bresenhamLoop32_eq (x2 y2 dx dy sx sy : Int)
    (hdx' : dx < 536870912) (hdy' : dy < 536870912)
    (hsx : sx = 1 ∨ sx = -1) (hsy : sy = 1 ∨ sy = -1)
    (hx2 : |x2| < 268435456) (hy2 : |y2| < 268435456) :
    ∀ (fuel : Nat) (a b x y err : Int),
      0 ≤ a → a ≤ dx → 0 ≤ b → b ≤ dy →
      x2 - x = sx * a → y2 - y = sy * b →
      err = dx - dy + a * dy - b * dx →
      -(2 * dy) ≤ err → err ≤ 2 * dx →
      bresenhamLoop32 x2 y2 dx dy sx sy fuel x y err =
        bresenhamLoop x2 y2 dx dy sx sy fuel x y err := by
  intro fuel
  induction fuel with
  | zero => intro a b x y err _ _ _ _ _ _ _ _ _; rfl
  | succ n ih =>
    intro a b x y err ha hadx hb hbdy hx hy herr he1 he2
    have hx2' := abs_lt.mp hx2
    have hy2' := abs_lt.mp hy2
    have hxb : |x| ≤ 1073741824 := by
      rw [abs_le]
      rcases hsx with h | h <;> subst h <;> constructor <;> omega
    have hyb : |y| ≤ 1073741824 := by
      rw [abs_le]
      rcases hsy with h | h <;> subst h <;> constructor <;> omega
    obtain ⟨hstep, hb1, hb2⟩ := bresenhamStep32_eq dx dy sx sy x y err
      (le_trans ha hadx) hdx' (le_trans hb hbdy) hdy' hsx hsy hxb hyb he1 he2
    unfold bresenhamLoop32 bresenhamLoop
    by_cases hend : x = x2 ∧ y = y2
    · simp only [hend, and_self, if_true]
    · simp only [hend, if_false, hstep]
      have hab : a ≠ 0 ∨ b ≠ 0 := by
        by_contra hcon
        push_neg at hcon
        apply hend
        rw [hcon.1] at hx
        rw [hcon.2] at hy
        constructor <;> omega
      obtain ⟨h1, h2, h3⟩ := bresenham_arith dx dy a b err ha hadx hb hbdy herr hab
      have hrec : bresenhamLoop32 x2 y2 dx dy sx sy n
          (bresenhamStep dx dy sx sy x y err).1
          (bresenhamStep dx dy sx sy x y err).2.1
          (bresenhamStep dx dy sx sy x y err).2.2 =
        bresenhamLoop x2 y2 dx dy sx sy n
          (bresenhamStep dx dy sx sy x y err).1
          (bresenhamStep dx dy sx sy x y err).2.1
          (bresenhamStep dx dy sx sy x y err).2.2 := by
        by_cases c1 : 2 * err > -dy <;> by_cases c2 : 2 * err < dx
        · apply ih (a - 1) (b - 1)
          · have := h1 c1; omega
          · omega
          · have := h2 c2; omega
          · omega
          · simp only [bresenhamStep, c1, if_true]; rw [mul_sub, ← hx]; ring
          · simp only [bresenhamStep, c2, if_true]; rw [mul_sub, ← hy]; ring
          · simp only [bresenhamStep, c1, c2, if_true]; rw [herr]; ring
          · exact hb1
          · exact hb2
        · apply ih (a - 1) b
          · have := h1 c1; omega
          · omega
          · exact hb
          · exact hbdy
          · simp only [bresenhamStep, c1, if_true]; rw [mul_sub, ← hx]; ring
          · simp only [bresenhamStep, c2, if_false]; exact hy
          · simp only [bresenhamStep, c1, c2, if_true, if_false]; rw [herr]; ring
          · exact hb1
          · exact hb2
        · apply ih a (b - 1)
          · exact ha
          · exact hadx
          · have := h2 c2; omega
          · omega
          · simp only [bresenhamStep, c1, if_false]; exact hx
          · simp only [bresenhamStep, c2, if_true]; rw [mul_sub, ← hy]; ring
          · simp only [bresenhamStep, c1, c2, if_true, if_false]; rw [herr]; ring
          · exact hb1
          · exact hb2
        · exact absurd h3 (by push_neg; exact ⟨by omega, by omega⟩)
      rw [hrec]

/-- For endpoints whose coordinates are below `2^28` in absolute value, the
function `drawLineBresenham` computed on 32-bit integers never overflows: it
returns what the function on unbounded integers returns, for every fuel. -/
theorem drawLineBresenham32_eq (fuel : Nat) (x1 y1 x2 y2 : Int)
    (hx1 : |x1| < 268435456) (hy1 : |y1| < 268435456)
    (hx2 : |x2| < 268435456) (hy2 : |y2| < 268435456) :
    drawLineBresenham32 fuel x1 y1 x2 y2 = drawLineBresenham fuel x1 y1 x2 y2 := by
  have a1 := abs_lt.mp hx1
  have a2 := abs_lt.mp hy1
  have a3 := abs_lt.mp hx2
  have a4 := abs_lt.mp hy2
  have bx : |x2 - x1| < 536870912 := by rw [abs_lt]; constructor <;> omega
  have by' : |y2 - y1| < 536870912 := by rw [abs_lt]; constructor <;> omega
  have nx := abs_nonneg (x2 - x1)
  have ny := abs_nonneg (y2 - y1)
  have w1 : wrap32 (x2 - x1) = x2 - x1 := wrap32_eq _ (by omega) (by omega)
  have w2 : wrap32 (y2 - y1) = y2 - y1 := wrap32_eq _ (by omega) (by omega)
  have w3 : wrap32 |x2 - x1| = |x2 - x1| := wrap32_eq _ (by omega) (by omega)
  have w4 : wrap32 |y2 - y1| = |y2 - y1| := wrap32_eq _ (by omega) (by omega)
  have w5 : wrap32 (|x2 - x1| - |y2 - y1|) = |x2 - x1| - |y2 - y1| :=
    wrap32_eq _ (by omega) (by omega)
  unfold drawLineBresenham32 drawLineBresenham
  simp only [w1, w2, w3, w4, w5]
  apply bresenhamLoop32_eq x2 y2 |x2 - x1| |y2 - y1| _ _ bx by' _ _ hx2 hy2 fuel
    |x2 - x1| |y2 - y1|
  · exact nx
  · exact le_refl _
  · exact ny
  · exact le_refl _
  · split_ifs with h
    · rw [abs_of_pos (by omega)]; ring
    · rw [abs_of_nonpos (by omega)]; ring
  · split_ifs with h
    · rw [abs_of_pos (by omega)]; ring
    · rw [abs_of_nonpos (by omega)]; ring
  · ring
  · omega
  · omega
  · split_ifs <;> simp
  · split_ifs <;> simp

/-! ## The velocity cap after an even catch -/

/-- A call of `updateGame` does not change the pause flag. -/
theorem updateGame_paused (sinf : ℚ → ℚ) (s : GameState) :
    (updateGame sinf s).paused = s.paused := by
  by_cases hrun : s.gameOver = false
  · by_cases hp : s.paused = false
    · by_cases hroad : hitsRoadEdge (policeStep s) = false
      · obtain ⟨fr, -⟩ := beforeCriminal_frame s
        obtain ⟨-, -, -, -, -, -, -, u8⟩ := updateCriminal_fields sinf (beforeCriminal s)
        have hupd : updateGame sinf s =
            if policeCrashes (stepSiren (updateCriminal sinf (beforeCriminal s))) = true then
              { stepSiren (updateCriminal sinf (beforeCriminal s)) with gameOver := true }
            else timeScore (stepSiren (updateCriminal sinf (beforeCriminal s))) := by
          simp only [updateGame, hrun, hp, hroad, afterEdge]
          simp [beforeCriminal]
        have hpa : ∀ t : GameState,
            (if policeCrashes t = true then { t with gameOver := true } else timeScore t).paused =
              t.paused := by
          intro t
          split_ifs <;> rfl
        rw [hupd, hpa]
        simp only [stepSiren, u8, fr.paused]
        rfl
      · rw [Bool.not_eq_false] at hroad
        rw [updateGame_edge sinf s hrun hp hroad]
        rfl
    · rw [Bool.not_eq_false] at hp
      simp only [updateGame, hp, or_true, if_true]
  · rw [Bool.not_eq_false] at hrun
    simp only [updateGame, hrun, true_or, if_true]

/-- The general form of the drop of the velocity cap: when a call of
`updateGame` performs an even-numbered catch with the ramp already at its clamp
(`maxVx + 2.4 ≥ 650`) and does not end the game, the cap is `695` after that
call and `650` after the next call, whatever that one does. -/
theorem maxVx_drops_after_even_catch (sinf : ℚ → ℚ) (s : GameState)
    (hrun : s.gameOver = false) (hp : s.paused = false)
    (hroad : hitsRoadEdge (policeStep s) = false)
    (hcatch : performsCatch sinf s = true)
    (heven : Int.tmod (s.criminalsCaught + 1) 2 = 0)
    (hcrash : policeCrashes (beforeCriminal s) = false)
    (hm : 650 ≤ s.police.maxVx + 24 / 10) :
    (updateGame sinf s).gameOver = false ∧
      (updateGame sinf s).police.maxVx = 695 ∧
      (updateGame sinf (updateGame sinf s)).police.maxVx = 650 := by
  obtain ⟨hcc, -, hmax, -, hover⟩ := updateGame_fields sinf s hrun hp hroad
  rw [hcrash] at hover
  have h1 : (updateGame sinf s).police.maxVx = 695 := by
    rw [hmax, policeStep_maxVx, min_eq_right hm]
    simp only [hcatch, heven, and_self, if_true]
    norm_num
  have hp' : (updateGame sinf s).paused = false := by rw [updateGame_paused, hp]
  have hodd : ¬ Int.tmod ((updateGame sinf s).criminalsCaught + 1) 2 = 0 := by
    rw [hcc, hcatch]
    simp only [if_true]
    intro h
    have d1 := Int.dvd_of_tmod_eq_zero heven
    have d2 := Int.dvd_of_tmod_eq_zero h
    omega
  have hstep : (policeStep (updateGame sinf s)).police.maxVx = 650 := by
    rw [policeStep_maxVx, h1]
    norm_num
  refine ⟨hover, h1, ?_⟩
  by_cases hroad' : hitsRoadEdge (policeStep (updateGame sinf s)) = false
  · obtain ⟨-, -, hmax', -, -⟩ := updateGame_fields sinf _ hover hp' hroad'
    rw [hmax', hstep]
    simp only [hodd, and_false, if_false]
  · rw [Bool.not_eq_false] at hroad'
    rw [updateGame_edge sinf _ hover hp' hroad']
    exact hstep

/-- The drop of the velocity cap in a run of two calls: from `secondCatchState`
(cap at the clamp value `650`), with the constant zero in place of the sine,
the first call performs the second catch and raises the cap to `695`, and the
next call lowers it to `650`. -/
theorem maxVx_drops_after_even_catch_example :
    secondCatchState.police.maxVx = 650 ∧
      (updateGame (fun _ => 0) secondCatchState).gameOver = false ∧
      (updateGame (fun _ => 0) secondCatchState).police.maxVx = 695 ∧
      (updateGame (fun _ => 0) (updateGame (fun _ => 0) secondCatchState)).police.maxVx = 650 :=
  ⟨rfl, maxVx_drops_after_even_catch (fun _ => 0) secondCatchState rfl rfl (by decide!)
    (by decide!) (by decide!) (by decide!) (by decide!)⟩

/-! ## Midpoint circle: accuracy -/

/-- The loop invariant of `drawCircleMidpoint`: with `d = x² + y² - r²` the
decision variable is `p = d + 2x - y + 1` (the circle function at the midpoint
`(x + 1, y - 1/2)`, less one quarter), and while `x ≤ y` the current offset is
within `-y ≤ d ≤ max (y - 1) 0`; so every pixel the loop emits has
`|dx² + dy² - r²| ≤ r`. -/
theorem circleLoop_accuracy (xc yc r : Int) :
    ∀ (fuel : Nat) (x y p d : Int),
      0 ≤ x → y ≤ r → d = x * x + y * y - r * r → p = d + 2 * x - y + 1 →
      (x ≤ y → -y ≤ d ∧ (d ≤ y - 1 ∨ d ≤ 0)) →
      ∀ ps, circleLoop xc yc fuel x y p = some ps →
        ∀ dx dy : Int, (xc + dx, yc + dy) ∈ ps → |dx * dx + dy * dy - r * r| ≤ r := by
  intro fuel
  induction fuel with
  | zero => intro x y p d _ _ _ _ _ ps h; simp [circleLoop] at h
  | succ n ih =>
    intro x y p d hx hy hd hp hinv ps h dx dy hmem
    by_cases hxy : x ≤ y
    · simp only [circleLoop, hxy, if_true] at h
      cases hrec : circleLoop xc yc n (x + 1) (if p < 0 then y else y - 1)
          (if p < 0 then p + (2 * (x + 1) + 1) else p + (2 * ((x + 1) - (y - 1)) + 1)) with
      | none => simp [hrec] at h
      | some qs =>
        rw [hrec] at h
        simp only [Option.some.injEq] at h
        subst h
        obtain ⟨hlo, hhi⟩ := hinv hxy
        rw [List.mem_append] at hmem
        rcases hmem with hm | hm
        · rw [plotCirclePoints_mem] at hm
          have hsq : dx * dx + dy * dy = x * x + y * y := by
            rcases hm with ⟨h1 | h1, h2 | h2⟩ | ⟨h1 | h1, h2 | h2⟩ <;> subst h1 <;> subst h2 <;> ring
          rw [hsq, ← hd, abs_le]
          constructor <;> omega
        · by_cases hneg : p < 0
          · simp only [hneg, if_true] at hrec
            exact ih (x + 1) y (p + (2 * (x + 1) + 1)) (d + 2 * x + 1) (by omega) hy
              (by rw [hd]; ring) (by omega) (fun _ => ⟨by omega, by omega⟩) qs hrec dx dy hm
          · simp only [hneg, if_false] at hrec
            exact ih (x + 1) (y - 1) (p + (2 * ((x + 1) - (y - 1)) + 1))
              (d + 2 * x + 1 - 2 * y + 1) (by omega) (by omega)
              (by rw [hd]; ring) (by omega) (fun _ => ⟨by omega, by omega⟩) qs hrec dx dy hm
    · simp only [circleLoop, hxy, if_false, Option.some.injEq] at h
      subst h
      simp at hmem

/-- C16: for every centre and every integer radius `r`, every pixel of the list
that `drawCircleMidpoint` returns (for every fuel from `r + 2` up), at offset
`(dx, dy)` from the centre, satisfies `|dx*dx + dy*dy - r*r| ≤ r`. -/
theorem drawCircleMidpoint_accuracy (xc yc r : Int) :
    ∃ ps : List Pixel,
      (∀ k : Nat, drawCircleMidpoint ((r + 1).toNat + 1 + k) xc yc r = some ps) ∧
      ∀ dx dy : Int, (xc + dx, yc + dy) ∈ ps → |dx * dx + dy * dy - r * r| ≤ r := by
  obtain ⟨ps, hps, -⟩ := circleLoop_spec xc yc ((r + 1).toNat + 1) 0 r (1 - r) (by simp)
  refine ⟨ps, fun k => circleLoop_mono xc yc _ k _ _ _ ps hps, ?_⟩
  exact circleLoop_accuracy xc yc r _ 0 r (1 - r) 0 (le_refl _) (le_refl _) (by ring) (by ring)
    (fun h => ⟨by omega, Or.inr (le_refl _)⟩) ps hps

/-! ## Freezing -/

/-- C14: in a state with `paused` or `gameOver` set, `updateGame` returns the
state itself (every field unchanged), and so does any number of calls; so
`gameOver`, once set, stays set under any number of `updateGame` calls. -/
theorem updateGame_frozen (sinf : ℚ → ℚ) (s : GameState)
    (h : s.paused = true ∨ s.gameOver = true) :
    updateGame sinf s = s ∧
      (∀ n : Nat, (updateGame sinf)^[n] s = s) ∧
      (s.gameOver = true → ∀ n : Nat, ((updateGame sinf)^[n] s).gameOver = true) := by
  have h1 : updateGame sinf s = s := by
    unfold updateGame
    rw [if_pos (Or.symm h)]
  have h2 : ∀ n : Nat, (updateGame sinf)^[n] s = s := by
    intro n
    induction n with
    | zero => rfl
    | succ n ih => rw [Function.iterate_succ_apply', ih, h1]
  exact ⟨h1, h2, fun hg n => by rw [h2 n]; exact hg⟩

/-- C14 (witness): `pausedState` is paused, and `updateGame` returns it as it
is. -/
theorem updateGame_frozen_witness :
    pausedState.paused = true ∧ updateGame (fun _ => 0) pausedState = pausedState :=
  ⟨rfl, (updateGame_frozen (fun _ => 0) pausedState (Or.inl rfl)).1⟩

/-! ## Time-based scoring on exact values -/

/-- The time-score loop in closed form: from a timer `t ≥ 0`, with at least
`floor(t / SCORE_INTERVAL)` iterations allowed, it adds exactly that many
points and leaves the remainder; more fuel changes nothing. -/
theorem scoreLoop_closed (fuel : Nat) : ∀ (score : Int) (t : ℚ), 0 ≤ t →
    ⌊t / SCORE_INTERVAL⌋.toNat ≤ fuel →
    scoreLoop fuel score t =
      (score + ⌊t / SCORE_INTERVAL⌋, t - (⌊t / SCORE_INTERVAL⌋ : ℚ) * SCORE_INTERVAL) := by
  have hI : (0 : ℚ) < SCORE_INTERVAL := by norm_num [SCORE_INTERVAL]
  induction fuel with
  | zero =>
    intro score t ht hf
    have h0 : 0 ≤ ⌊t / SCORE_INTERVAL⌋ := Int.floor_nonneg.mpr (div_nonneg ht (le_of_lt hI))
    have hz : ⌊t / SCORE_INTERVAL⌋ = 0 := by omega
    simp [scoreLoop, hz]
  | succ n ih =>
    intro score t ht hf
    unfold scoreLoop
    by_cases hge : t ≥ SCORE_INTERVAL
    · rw [if_pos hge]
      have hdiv : (t - SCORE_INTERVAL) / SCORE_INTERVAL = t / SCORE_INTERVAL - 1 := by
        field_simp
      have hfl : ⌊(t - SCORE_INTERVAL) / SCORE_INTERVAL⌋ = ⌊t / SCORE_INTERVAL⌋ - 1 := by
        rw [hdiv, Int.floor_sub_one]
      have h1 : 1 ≤ ⌊t / SCORE_INTERVAL⌋ := by
        rw [Int.le_floor]
        rw [le_div_iff₀ hI]
        simpa using hge
      rw [ih (score + 1) (t - SCORE_INTERVAL) (by linarith) (by rw [hfl]; omega), hfl]
      refine Prod.ext ?_ ?_
      · simp only
        ring
      · simp only
        push_cast
        ring
    · rw [if_neg hge]
      have hz : ⌊t / SCORE_INTERVAL⌋ = 0 := by
        rw [Int.floor_eq_iff]
        refine ⟨by simpa using div_nonneg ht (le_of_lt hI), ?_⟩
        rw [div_lt_iff₀ hI]
        push_neg at hge
        simpa using hge
      simp [hz]

/-- The time points of a call, for a timer that is not negative after `dt` is
added, are the floor of the quotient. -/
theorem timePoints_eq (t : ℚ) (h : 0 ≤ t + dt) :
    timePoints t = ⌊(t + dt) / SCORE_INTERVAL⌋ := by
  unfold timePoints
  rw [scoreLoop_closed _ 0 (t + dt) h (le_refl _)]
  simp

/-- A call of `updateGame` that passes the road-edge test, by whether it ends
in a crash. -/
theorem updateGame_unfold (sinf : ℚ → ℚ) (s : GameState)
    (hrun : s.gameOver = false) (hp : s.paused = false)
    (hroad : hitsRoadEdge (policeStep s) = false) :
    updateGame sinf s =
      if policeCrashes (beforeCriminal s) = true then
        { stepSiren (updateCriminal sinf (beforeCriminal s)) with gameOver := true }
      else timeScore (stepSiren (updateCriminal sinf (beforeCriminal s))) := by
  have hcrash := policeCrashes_after sinf (beforeCriminal s)
  simp only [updateGame, hrun, hp, hroad, afterEdge, ← hcrash]
  simp [beforeCriminal]

/-- The score timer after a call of `updateGame` that reaches the time-score
block. -/
theorem updateGame_scoreTimer (sinf : ℚ → ℚ) (s : GameState)
    (hr : reachesTimeScore s = true) :
    (updateGame sinf s).scoreTimer =
      (scoreLoop ⌊(s.scoreTimer + dt) / SCORE_INTERVAL⌋.toNat 0 (s.scoreTimer + dt)).2 := by
  simp only [reachesTimeScore, Bool.and_eq_true, Bool.not_eq_true'] at hr
  obtain ⟨⟨⟨hrun, hp⟩, hroad⟩, hcrash⟩ := hr
  obtain ⟨fr, -⟩ := beforeCriminal_frame s
  obtain ⟨-, -, -, -, -, u6, -, -⟩ := updateCriminal_fields sinf (beforeCriminal s)
  rw [updateGame_unfold sinf s hrun hp hroad, hcrash]
  simp only [Bool.false_eq_true, if_false]
  simp only [timeScore, stepSiren, u6, fr.scoreTimer]
  rw [(scoreLoop_add _ _ _).2]
  rfl

/-! ## Time-based scoring on binary32 values -/

/-- One pass through the time-score block on binary32 values, from a timer in
`[0, SCORE_INTERVAL)`: the loop makes one pass if the rounded sum reaches the
interval and none otherwise, which is the floor of the quotient of the rounded
sum by the interval, and the timer it leaves is again in `[0, SCORE_INTERVAL)`. -/
theorem timeScore32_step (score : Int) (timer : ℚ) (h0 : 0 ≤ timer)
    (h1 : timer < SCORE_INTERVAL32) :
    (∀ fuel : Nat, timeScore32 (fuel + 2) score timer =
      some (score + (if SCORE_INTERVAL32 ≤ f32 (timer + dt32) then 1 else 0),
        if SCORE_INTERVAL32 ≤ f32 (timer + dt32) then
          f32 (f32 (timer + dt32) - SCORE_INTERVAL32)
        else f32 (timer + dt32))) ∧
      0 ≤ (if SCORE_INTERVAL32 ≤ f32 (timer + dt32) then
          f32 (f32 (timer + dt32) - SCORE_INTERVAL32)
        else f32 (timer + dt32)) ∧
      (if SCORE_INTERVAL32 ≤ f32 (timer + dt32) then
          f32 (f32 (timer + dt32) - SCORE_INTERVAL32)
        else f32 (timer + dt32)) < SCORE_INTERVAL32 ∧
      (if SCORE_INTERVAL32 ≤ f32 (timer + dt32) then (1 : Int) else 0) =
        ⌊f32 (timer + dt32) / SCORE_INTERVAL32⌋ := by
  have hI : (0 : ℚ) < SCORE_INTERVAL32 := by decide!
  have hdt : (0 : ℚ) ≤ dt32 := by decide!
  have hsum : (0 : ℚ) ≤ timer + dt32 := by linarith
  have ht0 : 0 ≤ f32 (timer + dt32) := f32_nonneg _ hsum
  have htop : f32 (timer + dt32) ≤ f32 (SCORE_INTERVAL32 + dt32) :=
    f32_mono_nonneg _ _ hsum (by linarith)
  have hc : f32 (f32 (SCORE_INTERVAL32 + dt32) - SCORE_INTERVAL32) < SCORE_INTERVAL32 := by
    decide!
  have hc2 : f32 (SCORE_INTERVAL32 + dt32) < 2 * SCORE_INTERVAL32 := by decide!
  by_cases hge : SCORE_INTERVAL32 ≤ f32 (timer + dt32)
  · have hd0 : 0 ≤ f32 (timer + dt32) - SCORE_INTERVAL32 := by linarith
    have hr0 : 0 ≤ f32 (f32 (timer + dt32) - SCORE_INTERVAL32) := f32_nonneg _ hd0
    have hr1 : f32 (f32 (timer + dt32) - SCORE_INTERVAL32) < SCORE_INTERVAL32 :=
      lt_of_le_of_lt (f32_mono_nonneg _ _ hd0 (by linarith)) hc
    simp only [if_pos hge]
    refine ⟨?_, hr0, hr1, ?_⟩
    · intro fuel
      simp only [timeScore32, scoreLoop32, ge_iff_le, if_pos hge, if_neg (not_le.mpr hr1)]
    · symm
      rw [Int.floor_eq_iff]
      constructor
      · rw [le_div_iff₀ hI]
        simpa using hge
      · rw [div_lt_iff₀ hI]
        push_cast
        linarith
  · simp only [if_neg hge]
    refine ⟨?_, ht0, not_le.mp hge, ?_⟩
    · intro fuel
      simp only [timeScore32, scoreLoop32, ge_iff_le, if_neg hge, add_zero]
    · symm
      rw [Int.floor_eq_iff]
      constructor
      · simpa using div_nonneg ht0 (le_of_lt hI)
      · rw [div_lt_iff₀ hI]
        push_cast
        linarith [not_le.mp hge]

/-- From the timer `2^25` the binary32 loop never ends: `2^25 - 0.8f` rounds
back to `2^25`, so every test of the condition succeeds. -/
theorem scoreLoop32_large_timer (fuel : Nat) : ∀ score : Int,
    scoreLoop32 fuel score 33554432 = none := by
  have hge : (33554432 : ℚ) ≥ SCORE_INTERVAL32 := by decide!
  have hback : f32 ((33554432 : ℚ) - SCORE_INTERVAL32) = 33554432 := by decide!
  induction fuel with
  | zero => intro score; rfl
  | succ n ih =>
    intro score
    rw [scoreLoop32, if_pos hge, hback]
    exact ih _

/-- C15 (amended): on the binary32 values the program computes with, a pass
through the time-score block from a timer in `[0, SCORE_INTERVAL)` returns
with `floor(t / SCORE_INTERVAL)` time points awarded, `t` being the rounded
sum `scoreTimer + dt`: one point if `t` reaches `SCORE_INTERVAL` and none
otherwise; it leaves the rounded remainder in `scoreTimer`, again in
`[0, SCORE_INTERVAL)`; and from a fresh game the first time point is awarded
on pass 51 and the second on pass 101, not on passes 50 and 100, since fifty
rounded additions of `dt` give `13421765 / 2^24`, eight units in the last
place below `0.8f = 13421773 / 2^24`. -/
theorem time_scoring_binary32 (score : Int) (timer : ℚ) (h0 : 0 ≤ timer)
    (h1 : timer < SCORE_INTERVAL32) :
    (∀ fuel : Nat, timeScore32 (fuel + 2) score timer =
      some (score + (if SCORE_INTERVAL32 ≤ f32 (timer + dt32) then 1 else 0),
        if SCORE_INTERVAL32 ≤ f32 (timer + dt32) then
          f32 (f32 (timer + dt32) - SCORE_INTERVAL32)
        else f32 (timer + dt32))) ∧
      0 ≤ (if SCORE_INTERVAL32 ≤ f32 (timer + dt32) then
          f32 (f32 (timer + dt32) - SCORE_INTERVAL32)
        else f32 (timer + dt32)) ∧
      (if SCORE_INTERVAL32 ≤ f32 (timer + dt32) then
          f32 (f32 (timer + dt32) - SCORE_INTERVAL32)
        else f32 (timer + dt32)) < SCORE_INTERVAL32 ∧
      (if SCORE_INTERVAL32 ≤ f32 (timer + dt32) then (1 : Int) else 0) =
        ⌊f32 (timer + dt32) / SCORE_INTERVAL32⌋ ∧
      freshTicks32 50 = some (0, 13421765 / 16777216) ∧
      freshTicks32 51 = some (1, 268427 / 16777216) ∧
      freshTicks32 100 = some (1, 13421757 / 16777216) ∧
      freshTicks32 101 = some (2, 268419 / 16777216) := by
  obtain ⟨a, b, c, d⟩ := timeScore32_step score timer h0 h1
  exact ⟨a, b, c, d, by decide!, by decide!, by decide!, by decide!⟩

/-- C15 (witness): from the timer `13421765 / 2^24` that fifty passes leave,
the next pass awards a point and leaves `268427 / 2^24`. -/
theorem time_scoring_binary32_witness :
    timeScore32 2 0 (13421765 / 16777216) = some (1, 268427 / 16777216) := by
  have h := (time_scoring_binary32 0 (13421765 / 16777216) (by decide!) (by decide!)).1 0
  rw [h]
  decide!

/-- C15 (counterexample): after 50 passes through the time-score block from a
fresh game the program has awarded no time point, where `50 / 50 = 1` point is
claimed: the timer holds `13421765 / 2^24 = 0.7999995...`, below
`0.8f = 13421773 / 2^24`. -/
theorem time_scoring_tick_50_no_point :
    freshTicks32 50 = some (0, 13421765 / 16777216) ∧
      (13421765 / 16777216 : ℚ) < SCORE_INTERVAL32 ∧
      SCORE_INTERVAL32 = 13421773 / 16777216 ∧ dt32 = 8589935 / 536870912 ∧
      ((50 / 50 : Nat) : Int) = 1 := by
  refine ⟨by decide!, by decide!, by decide!, by decide!, by decide⟩

/-! ## Spawner: the respawned slot -/

/-- A draw of `randFloat a b` with `a ≤ b` is at least `a`. -/
theorem randFloat_ge (a b : ℚ) (g : Rng) (hab : a ≤ b) : a ≤ (randFloat a b g).1 := by
  unfold randFloat
  have h1 : (0 : ℚ) ≤ ((rand g).1 : ℚ) / (RAND_MAX : ℚ) :=
    div_nonneg (Nat.cast_nonneg _) (Nat.cast_nonneg _)
  have h2 : 0 ≤ (b - a) * (((rand g).1 : ℚ) / (RAND_MAX : ℚ)) :=
    mul_nonneg (by linarith) h1
  simp only
  linarith

/-- The template car is active. -/
theorem generateRandomCivilianTemplate_active (g : Rng) :
    (generateRandomCivilianTemplate g).1.active = true := by
  unfold generateRandomCivilianTemplate
  simp only
  split_ifs <;> rfl

/-- The placement loop keeps the car active, and once it has run at least one
pass the car is at `y ≥ HEIGHT + 30`. -/
theorem placeLoop_spec (s : GameState) (idx tries : Int) :
    ∀ (fuel : Nat) (attempt : Int) (car : Car) (placed : Bool) (g : Rng),
      car.active = true → 0 ≤ attempt →
      ((HEIGHT : ℚ) + 30 ≤ car.y ∨ (placed = false ∧ attempt < tries ∧ 0 < fuel)) →
      (placeLoop s idx tries fuel attempt car placed g).1.active = true ∧
        (HEIGHT : ℚ) + 30 ≤ (placeLoop s idx tries fuel attempt car placed g).1.y := by
  intro fuel
  induction fuel with
  | zero =>
    intro attempt car placed g ha _ h
    rcases h with h | ⟨-, -, h⟩
    · exact ⟨ha, h⟩
    · omega
  | succ n ih =>
    intro attempt car placed g ha hat h
    unfold placeLoop
    by_cases hc : attempt < tries ∧ placed = false
    · rw [if_pos hc]
      apply ih
      · exact ha
      · omega
      · left
        have hat' : (0 : ℚ) ≤ (attempt : ℚ) := by exact_mod_cast hat
        simp only
        split_ifs with hpar
        · have := randFloat_ge 0 180 (randFloat (-12) 12 (randInt 0 (LANE_COUNT - 1) g).2).2
            (by norm_num)
          nlinarith
        · have := randFloat_ge 0 400 (randFloat (-12) 12 (randInt 0 (LANE_COUNT - 1) g).2).2
            (by norm_num)
          nlinarith
    · rw [if_neg hc]
      rcases h with h | ⟨h1, h2, -⟩
      · exact ⟨ha, h⟩
      · exact absurd ⟨h2, h1⟩ hc

/-- The fallback loop keeps the car active and does not lower it. -/
theorem fallbackLoop_spec (s : GameState) (idx : Int) :
    ∀ (n : Nat) (car : Car), car.active = true → (HEIGHT : ℚ) + 30 ≤ car.y →
      (fallbackLoop s idx n car).active = true ∧
        (HEIGHT : ℚ) + 30 ≤ (fallbackLoop s idx n car).y := by
  intro n
  induction n with
  | zero => intro car ha hy; exact ⟨ha, hy⟩
  | succ n ih =>
    intro car ha hy
    unfold fallbackLoop
    split_ifs
    · exact ⟨ha, by simp only; linarith⟩
    · exact ih _ ha (by simp only; linarith)

/-- For a valid index and at least one try, `spawnCivilianAtIndex` leaves in
that slot an active car at `y ≥ HEIGHT + 30`. -/
theorem spawnCivilianAtIndex_slot (s : GameState) (i : Nat) (tries : Int)
    (hi : i < s.civilianCars.length) (ht : 0 < tries) :
    ((spawnCivilianAtIndex s (i : Int) tries).civilianCars.getD i zeroCar).active = true ∧
      (HEIGHT : ℚ) + 30 ≤
        ((spawnCivilianAtIndex s (i : Int) tries).civilianCars.getD i zeroCar).y := by
  unfold spawnCivilianAtIndex
  have hguard : ¬ ((i : Int) < 0 ∨ (i : Int) ≥ (s.civilianCars.length : Int)) := by omega
  rw [if_neg hguard]
  simp only [Int.toNat_ofNat]
  rw [List.getD_eq_getElem _ _ (by simpa using hi), List.getElem_set_self]
  have hp := placeLoop_spec s (i : Int) tries tries.toNat 0
    (generateRandomCivilianTemplate s.rng).1 false (generateRandomCivilianTemplate s.rng).2
    (generateRandomCivilianTemplate_active s.rng) (le_refl _)
    (Or.inr ⟨rfl, ht, by omega⟩)
  split_ifs
  · exact fallbackLoop_spec s (i : Int) 80 _ hp.1 hp.2
  · exact hp

/-- The spawn loop of `initGame` leaves every slot it visits, and every slot
already spawned, active and at `y ≥ HEIGHT + 30`. -/
theorem spawnAllLoop_slots : ∀ (n i : Nat) (s : GameState),
    i + n ≤ s.civilianCars.length →
    (∀ j < i, (s.civilianCars.getD j zeroCar).active = true ∧
      (HEIGHT : ℚ) + 30 ≤ (s.civilianCars.getD j zeroCar).y) →
    ∀ j < i + n, ((spawnAllLoop n i s).civilianCars.getD j zeroCar).active = true ∧
      (HEIGHT : ℚ) + 30 ≤ ((spawnAllLoop n i s).civilianCars.getD j zeroCar).y := by
  intro n
  induction n with
  | zero => intro i s _ h j hj; exact h j (by omega)
  | succ n ih =>
    intro i s hlen h j hj
    unfold spawnAllLoop
    obtain ⟨fr, -, -, hother⟩ := spawnCivilianAtIndex_frame s (i : Int) 50
    apply ih (i + 1) (spawnCivilianAtIndex s (i : Int) 50) (by rw [fr.length]; omega) _ j
      (by omega)
    intro k hk
    by_cases hki : k = i
    · subst hki
      exact spawnCivilianAtIndex_slot s k 50 (by omega) (by norm_num)
    · rw [hother k (by omega)]
      exact h k (by omega)

/-- The spawn loop of `initGame`, run on a fresh pool of seven slots, leaves
seven cars, all active and at `y ≥ HEIGHT + 30`. -/
theorem spawnAllLoop_all (s1 : GameState) (h1 : s1.civilianCars = List.replicate 7 zeroCar) :
    (spawnAllLoop 7 0 s1).civilianCars.length = 7 ∧
      ∀ c ∈ (spawnAllLoop 7 0 s1).civilianCars,
        c.active = true ∧ (HEIGHT : ℚ) + 30 ≤ c.y := by
  have hlen : (spawnAllLoop 7 0 s1).civilianCars.length = 7 := by
    rw [(spawnAllLoop_frame 7 0 s1).length, h1]
    rfl
  have hall := spawnAllLoop_slots 7 0 s1 (by rw [h1]; simp) (fun j hj => by omega)
  refine ⟨hlen, ?_⟩
  intro c hc
  obtain ⟨j, hj, rfl⟩ := List.mem_iff_getElem.mp hc
  have := hall j (by omega)
  rwa [List.getD_eq_getElem _ _ hj] at this

/-- The civilian cars after `initGame`: exactly seven, all active and at
`y ≥ HEIGHT + 30`. -/
theorem initGame_cars (s : GameState) :
    (initGame s).civilianCars.length = 7 ∧
      ∀ c ∈ (initGame s).civilianCars, c.active = true ∧ (HEIGHT : ℚ) + 30 ≤ c.y := by
  simp only [initGame, spawnCriminalOriginal]
  exact spawnAllLoop_all _ rfl

/-- C11: from every state (whatever the random draws), `initGame` leaves
`score = 0`, `criminalsCaught = 0`, `gameSpeed = 1`, `scoreTimer = 0`,
`gameOver = false`, `paused = false`, `police.maxVx = 250`, and a traffic pool
of exactly 7 slots, all active. -/
theorem initGame_resets (s : GameState) :
    (initGame s).score = 0 ∧ (initGame s).criminalsCaught = 0 ∧ (initGame s).gameSpeed = 1 ∧
      (initGame s).scoreTimer = 0 ∧ (initGame s).gameOver = false ∧
      (initGame s).paused = false ∧ (initGame s).police.maxVx = 250 ∧
      (initGame s).civilianCars.length = 7 ∧
      ∀ c ∈ (initGame s).civilianCars, c.active = true := by
  refine ⟨rfl, rfl, rfl, rfl, rfl, rfl, rfl, (initGame_cars s).1, ?_⟩
  intro c hc
  exact ((initGame_cars s).2 c hc).1

/-! ## Recycling -/

/-- The respawn loop from index `j` does not touch the slots below `j`. -/
theorem respawnLoop_before : ∀ (fuel j : Nat) (s : GameState) (i : Nat), i < j →
    (respawnLoop fuel j s).civilianCars.getD i zeroCar = s.civilianCars.getD i zeroCar := by
  intro fuel
  induction fuel with
  | zero => intro j s i _; rfl
  | succ n ih =>
    intro j s i hij
    unfold respawnLoop
    split_ifs with h1 h2
    · rw [ih (j + 1) _ i (by omega)]
      exact (spawnCivilianAtIndex_frame s (j : Int) 40).2.2.2 i (by omega)
    · exact ih (j + 1) s i (by omega)
    · rfl

/-- A slot below `-350` that the respawn loop visits is active and at
`y ≥ HEIGHT + 30` afterwards. -/
theorem respawnLoop_slot : ∀ (fuel j : Nat) (s : GameState) (i : Nat),
    j ≤ i → i < j + fuel → i < s.civilianCars.length →
    (s.civilianCars.getD i zeroCar).y < -350 →
    ((respawnLoop fuel j s).civilianCars.getD i zeroCar).active = true ∧
      (HEIGHT : ℚ) + 30 ≤ ((respawnLoop fuel j s).civilianCars.getD i zeroCar).y := by
  intro fuel
  induction fuel with
  | zero => intro j s i h1 h2 _ _; omega
  | succ n ih =>
    intro j s i hji hlt hlen hy
    unfold respawnLoop
    have hj : j < s.civilianCars.length := by omega
    rw [if_pos hj]
    obtain ⟨fr, -, -, hother⟩ := spawnCivilianAtIndex_frame s (j : Int) 40
    by_cases hij : j = i
    · subst hij
      rw [if_pos hy, respawnLoop_before n (j + 1) _ j (by omega)]
      exact spawnCivilianAtIndex_slot s j 40 hlen (by norm_num)
    · split_ifs with h2
      · apply ih (j + 1) _ i (by omega) (by omega)
        · show i < (spawnCivilianAtIndex s (j : Int) 40).civilianCars.length
          rw [fr.length]; exact hlen
        · show ((spawnCivilianAtIndex s (j : Int) 40).civilianCars.getD i zeroCar).y < -350
          rw [hother i (by omega)]; exact hy
      · exact ih (j + 1) s i (by omega) (by omega) hlen hy

/-- The civilian cars after a call of `updateGame` that passes the road-edge
test are those the respawn block left. -/
theorem updateGame_civilianCars (sinf : ℚ → ℚ) (s : GameState)
    (hrun : s.gameOver = false) (hp : s.paused = false)
    (hroad : hitsRoadEdge (policeStep s) = false) :
    (updateGame sinf s).civilianCars = (beforeCriminal s).civilianCars := by
  obtain ⟨-, -, -, -, u5, -, -, -⟩ := updateCriminal_fields sinf (beforeCriminal s)
  have hend : ∀ (c : Prop) [Decidable c] (t : GameState),
      (if c then { stepSiren t with gameOver := true }
        else timeScore (stepSiren t)).civilianCars = t.civilianCars := by
    intro c _ t
    split_ifs <;> rfl
  rw [updateGame_unfold sinf s hrun hp hroad, hend, u5]

/-- C12 (amended): in a running, unpaused state in which the police car stays
strictly inside the road, a traffic slot `i` that is below `-350` at the
respawn test of the call (after the civilian moves and the lane sweep) is,
after the call of `updateGame`, active and at `y ≥ HEIGHT + 30`; the call has
recycled at least one slot, and the score has grown by 10 for every recycled
slot (plus the catch and time points of the call). -/
theorem recycle_slot (sinf : ℚ → ℚ) (s : GameState)
    (hrun : s.gameOver = false) (hp : s.paused = false)
    (hinside : ROAD_LEFT < (policeStep s).police.x - (policeStep s).police.width / 2 ∧
      (policeStep s).police.x + (policeStep s).police.width / 2 < ROAD_RIGHT)
    (i : Nat) (hi : i < s.civilianCars.length)
    (hy : ((preRecycle s).civilianCars.getD i zeroCar).y < -350) :
    ((updateGame sinf s).civilianCars.getD i zeroCar).active = true ∧
      (HEIGHT : ℚ) + 30 ≤ ((updateGame sinf s).civilianCars.getD i zeroCar).y ∧
      1 ≤ recycledCount s ∧
      (updateGame sinf s).score =
        s.score + 10 * (recycledCount s : Int) +
          (if performsCatch sinf s = true then 50 else 0) +
          (if policeCrashes (beforeCriminal s) = true then 0 else timePoints s.scoreTimer) := by
  have hroad : hitsRoadEdge (policeStep s) = false := (hitsRoadEdge_false_iff _).mpr hinside
  have hlen : (preRecycle s).civilianCars.length = s.civilianCars.length := by
    have h1 := (laneSweep_frame (moveCivilians (moveMarkers (policeStep s)))).1.length
    rw [preRecycle, h1]
    simp [moveCivilians, moveMarkers, policeStep]
  have hi' : i < (preRecycle s).civilianCars.length := by rw [hlen]; exact hi
  have hslot := respawnLoop_slot (preRecycle s).civilianCars.length 0 (preRecycle s) i
    (Nat.zero_le _) (by omega) hi' hy
  have hcars := updateGame_civilianCars sinf s hrun hp hroad
  have hbc : beforeCriminal s = respawnLoop (preRecycle s).civilianCars.length 0 (preRecycle s) :=
    rfl
  obtain ⟨-, -, -, hsc, -⟩ := updateGame_fields sinf s hrun hp hroad
  refine ⟨?_, ?_, ?_, hsc⟩
  · rw [hcars, hbc]; exact hslot.1
  · rw [hcars, hbc]; exact hslot.2
  · have hpos : 0 < recycledCount s := by
      unfold recycledCount
      rw [List.countP_pos_iff]
      refine ⟨(preRecycle s).civilianCars[i], List.getElem_mem _, ?_⟩
      rw [List.getD_eq_getElem _ _ hi'] at hy
      simpa using hy
    omega

/-- C12 (witness): in `recycleState` slot 0 is below `-350` at the respawn test;
after the call it is active and at `y ≥ HEIGHT + 30`. -/
theorem recycle_slot_witness :
    ((updateGame (fun _ => 0) recycleState).civilianCars.getD 0 zeroCar).active = true ∧
      (HEIGHT : ℚ) + 30 ≤ ((updateGame (fun _ => 0) recycleState).civilianCars.getD 0 zeroCar).y :=
  ⟨(recycle_slot (fun _ => 0) recycleState rfl rfl (by decide!) 0 (by decide) (by decide!)).1,
    (recycle_slot (fun _ => 0) recycleState rfl rfl (by decide!) 0 (by decide) (by decide!)).2.1⟩

/-- C12 (counterexample): `recycleState` is running and unpaused, its call of
`updateGame` runs to the end (no road edge, no crash), and slot 2 is a bus at
`y = -350.5 < -350` before the call.  In the call the bike of slot 0 falls
from `-349` to `-352`, below the bus at `-351.5`, and the lane sweep lifts the
bus to `-352 + (0.85 * 60 + 20) = -281`; the respawn test then passes it over.
After the call slot 2 is at `y = -281`, not at `y ≥ HEIGHT + 30`, whatever the
sine function. -/
theorem recycle_slot_lifted_by_sweep :
    recycleState.gameOver = false ∧ recycleState.paused = false ∧
      reachesTimeScore recycleState = true ∧
      (recycleState.civilianCars.getD 2 zeroCar).y < -350 ∧
      ∀ sinf : ℚ → ℚ,
        ((updateGame sinf recycleState).civilianCars.getD 2 zeroCar).y = -281 ∧
        ¬ ((HEIGHT : ℚ) + 30 ≤ ((updateGame sinf recycleState).civilianCars.getD 2 zeroCar).y) := by
  refine ⟨rfl, rfl, by decide!, by decide!, ?_⟩
  intro sinf
  have hcars := updateGame_civilianCars sinf recycleState rfl rfl (by decide!)
  have hy : ((beforeCriminal recycleState).civilianCars.getD 2 zeroCar).y = -281 := by decide!
  rw [hcars, hy]
  exact ⟨rfl, by norm_num [HEIGHT]⟩

/-! ## Lane sweep: the items after the pass -/

/-- After the adjusting loop every item keeps the minimum gap to the one before
it, whatever the items were. -/
theorem adjustItems_chain : ∀ (rest : List VehicleItem) (prev : VehicleItem),
    List.Chain minGapHolds prev (adjustItems prev rest) := by
  intro rest
  induction rest with
  | nil => intro prev; exact List.Chain.nil
  | cons cur rest ih =>
    intro prev
    unfold adjustItems
    simp only
    split_ifs with h
    · refine List.Chain.cons ?_ (ih _)
      simp only [minGapHolds]
      linarith
    · refine List.Chain.cons ?_ (ih _)
      simp only [minGapHolds]
      linarith

/-- The adjusting loop changes no height. -/
theorem adjustItems_heights : ∀ (rest : List VehicleItem) (prev : VehicleItem),
    (adjustItems prev rest).map (fun it => it.h) = rest.map fun it => it.h := by
  intro rest
  induction rest with
  | nil => intro prev; rfl
  | cons cur rest ih =>
    intro prev
    unfold adjustItems
    simp only
    split_ifs with h
    · simp only [List.map_cons, ih]
    · simp only [List.map_cons, ih]

/-- A chain of minimum gaps between items of positive height is strictly
ascending in `y`. -/
theorem chain_gap_lt : ∀ (l : List VehicleItem) (a : VehicleItem),
    List.Chain minGapHolds a l → 0 < a.h → (∀ it ∈ l, 0 < it.h) →
    List.Chain (fun a b => a.y < b.y) a l := by
  intro l
  induction l with
  | nil => intro a _ _ _; exact List.Chain.nil
  | cons b l ih =>
    intro a hc ha hl
    rw [List.chain_cons] at hc ⊢
    refine ⟨?_, ih b hc.2 (hl b (List.mem_cons_self _ _))
      fun it hit => hl it (List.mem_cons_of_mem _ hit)⟩
    have h1 := hc.1
    simp only [minGapHolds] at h1
    have h2 : 0 < max a.h b.h := lt_max_of_lt_left ha
    linarith

/-- Two lists with the same image under a map that is injective on their
members are equal. -/
theorem map_eq_of_inj_on {α β : Type} (f : α → β) : ∀ (l1 l2 : List α),
    l1.map f = l2.map f → (∀ x ∈ l1, ∀ y ∈ l2, f x = f y → x = y) → l1 = l2 := by
  intro l1
  induction l1 with
  | nil =>
    intro l2 h _
    cases l2 with
    | nil => rfl
    | cons b l2 => simp at h
  | cons a l1 ih =>
    intro l2 h hinj
    cases l2 with
    | nil => simp at h
    | cons b l2 =>
      simp only [List.map_cons, List.cons.injEq] at h
      have hab : a = b := hinj a (List.mem_cons_self _ _) b (List.mem_cons_self _ _) h.1
      rw [hab, ih l2 h.2 fun x hx y hy =>
        hinj x (List.mem_cons_of_mem _ hx) y (List.mem_cons_of_mem _ hy)]

/-- A list that is strictly ascending in `y` is the only ascending arrangement
of its items: sorting any permutation of it gives it back. -/
theorem sortItems_eq_of_strict (A M : List VehicleItem)
    (hA : A.Sorted fun a b => a.y < b.y) (hp : M.Perm A) : sortItems M = A := by
  haveI : IsTotal VehicleItem (fun a b => a.y ≤ b.y) := ⟨fun a b => le_total a.y b.y⟩
  haveI : IsTrans VehicleItem (fun a b => a.y ≤ b.y) := ⟨fun a b c h1 h2 => le_trans h1 h2⟩
  have hB : (sortItems M).Sorted fun a b => a.y ≤ b.y := List.sorted_insertionSort _ M
  have hBp : (sortItems M).Perm A := (List.perm_insertionSort _ M).trans hp
  have hAy : (A.map fun it => it.y).Sorted (· < ·) := by
    unfold List.Sorted at hA ⊢
    rw [List.pairwise_map]
    exact hA
  have hBy : ((sortItems M).map fun it => it.y).Sorted (· ≤ ·) := by
    unfold List.Sorted at hB ⊢
    rw [List.pairwise_map]
    exact hB
  have hmap : (sortItems M).map (fun it => it.y) = A.map fun it => it.y :=
    List.eq_of_perm_of_sorted (hBp.map _) hBy (hAy.imp le_of_lt)
  refine map_eq_of_inj_on (fun it => it.y) _ _ hmap ?_
  intro x hx y hy hxy
  exact List.inj_on_of_nodup_map hAy.nodup (hBp.mem_iff.mp hx) hy hxy

/-! ## Lane sweep: the items and the state -/

/-- One pass of the adjusting loop, with its write as `writeItem`. -/
theorem adjustLoop_cons (prev cur : VehicleItem) (rest : List VehicleItem) (s : GameState) :
    adjustLoop prev (cur :: rest) s =
      if cur.y - prev.y < max prev.h cur.h * (85 / 100) + 20 then
        adjustLoop { cur with y := prev.y + (max prev.h cur.h * (85 / 100) + 20) } rest
          (writeItem s cur (prev.y + (max prev.h cur.h * (85 / 100) + 20)))
      else adjustLoop cur rest s := by
  rw [adjustLoop]
  rfl

/-- One pass of the adjusting loop on the items. -/
theorem adjustItems_cons (prev cur : VehicleItem) (rest : List VehicleItem) :
    adjustItems prev (cur :: rest) =
      if cur.y - prev.y < max prev.h cur.h * (85 / 100) + 20 then
        { cur with y := prev.y + (max prev.h cur.h * (85 / 100) + 20) } ::
          adjustItems { cur with y := prev.y + (max prev.h cur.h * (85 / 100) + 20) } rest
      else cur :: adjustItems cur rest := by
  rw [adjustItems]

/-- The write of a pass leaves the other places as they were. -/
theorem writeItem_other (s : GameState) (cur : VehicleItem) (d : ℚ) (o : Option Nat)
    (ho : slotOf cur ≠ o) : readSlot (writeItem s cur d) o = readSlot s o := by
  unfold slotOf at ho
  unfold writeItem
  split_ifs at ho ⊢ with h
  · cases o with
    | none => rfl
    | some i =>
      have hne : cur.idx.toNat ≠ i := fun hc => ho (by rw [hc])
      simp only [readSlot, setCarY, List.getD_eq_getElem?_getD, List.getElem?_set_ne hne]
  · cases o with
    | none => exact absurd rfl ho
    | some i => rfl

/-- The write of a pass is read back at the item's own place. -/
theorem writeItem_self (s : GameState) (cur : VehicleItem) (d : ℚ)
    (hv : cur.type = 0 → cur.idx.toNat < s.civilianCars.length) :
    readSlot (writeItem s cur d) (slotOf cur) = d := by
  unfold slotOf writeItem
  split_ifs with h
  · simp only [readSlot, setCarY, List.getD_eq_getElem?_getD, List.getElem?_set_self (hv h),
      Option.getD_some]
  · rfl

/-- The write of a pass keeps the number of cars. -/
theorem writeItem_length (s : GameState) (cur : VehicleItem) (d : ℚ) :
    (writeItem s cur d).civilianCars.length = s.civilianCars.length := by
  unfold writeItem
  split_ifs
  · simp [setCarY]
  · rfl

/-- The adjusting loop leaves the places of other items as they were. -/
theorem adjustLoop_other : ∀ (rest : List VehicleItem) (prev : VehicleItem) (s : GameState)
    (o : Option Nat), (∀ it ∈ rest, slotOf it ≠ o) →
    readSlot (adjustLoop prev rest s) o = readSlot s o := by
  intro rest
  induction rest with
  | nil => intro prev s o _; rfl
  | cons cur rest ih =>
    intro prev s o ho
    have hcur := ho cur (List.mem_cons_self _ _)
    have hrest : ∀ it ∈ rest, slotOf it ≠ o := fun it hit => ho it (List.mem_cons_of_mem _ hit)
    rw [adjustLoop_cons]
    split_ifs with h1
    · rw [ih _ _ o hrest, writeItem_other s cur _ o hcur]
    · exact ih cur s o hrest

/-- The items after the adjusting loop are the items with the positions the
state holds after the loop: each write to `items[j].y` is the write to the
car or the criminal the item stands for. -/
theorem adjustLoop_items : ∀ (rest : List VehicleItem) (prev : VehicleItem) (s : GameState),
    rest.Pairwise (fun a b => slotOf a ≠ slotOf b) →
    (∀ it ∈ rest, it.type = 0 → it.idx.toNat < s.civilianCars.length) →
    (∀ it ∈ rest, readSlot s (slotOf it) = it.y) →
    adjustItems prev rest =
      rest.map fun it => { it with y := readSlot (adjustLoop prev rest s) (slotOf it) } := by
  intro rest
  induction rest with
  | nil => intro prev s _ _ _; rfl
  | cons cur rest ih =>
    intro prev s hpw hv hy
    rw [List.pairwise_cons] at hpw
    have hother : ∀ it ∈ rest, slotOf it ≠ slotOf cur := fun it hit => (hpw.1 it hit).symm
    have hvcur := hv cur (List.mem_cons_self _ _)
    have hvrest : ∀ it ∈ rest, it.type = 0 → it.idx.toNat < s.civilianCars.length :=
      fun it hit => hv it (List.mem_cons_of_mem _ hit)
    have hyrest : ∀ it ∈ rest, readSlot s (slotOf it) = it.y :=
      fun it hit => hy it (List.mem_cons_of_mem _ hit)
    rw [adjustLoop_cons, adjustItems_cons]
    split_ifs with h
    · rw [List.map_cons, adjustLoop_other rest _ _ _ hother, writeItem_self s cur _ hvcur]
      congr 1
      refine ih _ _ hpw.2 ?_ ?_
      · intro it hit h0
        rw [writeItem_length]
        exact hvrest it hit h0
      · intro it hit
        rw [writeItem_other s cur _ _ (hpw.1 it hit)]
        exact hyrest it hit
    · rw [List.map_cons, adjustLoop_other rest _ _ _ hother, hy cur (List.mem_cons_self _ _)]
      congr 1
      exact ih _ _ hpw.2 hvrest hyrest

/-! ## Lane sweep: the occupants of a lane before and after the pass -/

/-- Writing a vertical position to a slot changes nothing else of the cars. -/
theorem setCarY_eraseY (cars : List Car) (idx : Int) (y : ℚ) :
    (setCarY cars idx y).map eraseY = cars.map eraseY := by
  unfold setCarY
  generalize idx.toNat = n
  induction cars generalizing n with
  | nil => rfl
  | cons c cs ih =>
    cases n with
    | zero => rfl
    | succ n =>
      simp only [List.set_cons_succ, List.map_cons, List.cons.injEq, true_and]
      exact ih n

/-- The adjusting loop changes the cars in their vertical positions only. -/
theorem adjustLoop_eraseY : ∀ (rest : List VehicleItem) (prev : VehicleItem) (s : GameState),
    (adjustLoop prev rest s).civilianCars.map eraseY = s.civilianCars.map eraseY := by
  intro rest
  induction rest with
  | nil => intro prev s; rfl
  | cons cur rest ih =>
    intro prev s
    rw [adjustLoop_cons]
    split_ifs with h
    · rw [ih]
      unfold writeItem
      split_ifs
      · exact setCarY_eraseY _ _ _
      · rfl
    · exact ih cur s

/-- The sweep of one lane changes the cars in their vertical positions only. -/
theorem sweepLane_eraseY (s : GameState) (lane : Int) :
    (sweepLane s lane).civilianCars.map eraseY = s.civilianCars.map eraseY := by
  unfold sweepLane
  split
  · rfl
  · exact adjustLoop_eraseY _ _ _

/-- The indices of a lane depend on the cars only through their fields other
than `y`. -/
theorem laneVehicles_congr (lane : Int) : ∀ (cars1 cars2 : List Car) (i : Nat),
    cars1.map eraseY = cars2.map eraseY →
    laneVehicles lane cars1 i = laneVehicles lane cars2 i := by
  intro cars1
  induction cars1 with
  | nil =>
    intro cars2 i h
    cases cars2 with
    | nil => rfl
    | cons b l => simp at h
  | cons c1 cs1 ih =>
    intro cars2 i h
    cases cars2 with
    | nil => simp at h
    | cons c2 cs2 =>
      simp only [List.map_cons, List.cons.injEq] at h
      have ha : c1.active = c2.active := by
        have := congrArg Car.active h.1
        exact this
      have hl : c1.lane = c2.lane := by
        have := congrArg Car.lane h.1
        exact this
      simp only [laneVehicles, ha, hl, ih cs2 (i + 1) h.2]

/-- The height of a slot depends on the cars only through their fields other
than `y`. -/
theorem height_congr (cars1 cars2 : List Car) (n : Nat)
    (h : cars1.map eraseY = cars2.map eraseY) :
    (cars1.getD n zeroCar).height = (cars2.getD n zeroCar).height := by
  have h1 : (cars1.map eraseY).getD n (eraseY zeroCar) =
      (cars2.map eraseY).getD n (eraseY zeroCar) := by rw [h]
  rw [List.getD_map, List.getD_map] at h1
  have h2 := congrArg Car.height h1
  exact h2

/-- The indices of a lane lie in the range scanned. -/
theorem laneVehicles_mem (lane : Int) : ∀ (cars : List Car) (i : Nat) (k : Int),
    k ∈ laneVehicles lane cars i → (i : Int) ≤ k ∧ k < (i : Int) + cars.length := by
  intro cars
  induction cars with
  | nil => intro i k hk; simp [laneVehicles] at hk
  | cons c cs ih =>
    intro i k hk
    simp only [laneVehicles] at hk
    simp only [List.length_cons, Nat.cast_add, Nat.cast_one]
    split_ifs at hk with h1 h2
    · have := ih (i + 1) k hk
      push_cast at this
      omega
    · rcases List.mem_cons.mp hk with hk | hk
      · omega
      · have := ih (i + 1) k hk
        push_cast at this
        omega
    · have := ih (i + 1) k hk
      push_cast at this
      omega

/-- The indices of a lane are strictly ascending. -/
theorem laneVehicles_pairwise (lane : Int) : ∀ (cars : List Car) (i : Nat),
    (laneVehicles lane cars i).Pairwise (· < ·) := by
  intro cars
  induction cars with
  | nil => intro i; simp [laneVehicles]
  | cons c cs ih =>
    intro i
    simp only [laneVehicles]
    split_ifs with h1 h2
    · exact ih (i + 1)
    · rw [List.pairwise_cons]
      refine ⟨fun k hk => ?_, ih (i + 1)⟩
      have := (laneVehicles_mem lane cs (i + 1) k hk).1
      push_cast at this
      omega
    · exact ih (i + 1)

/-- The items of a lane stand for distinct places, the civilian items for
slots of the car pool, and each item holds the position the state has for its
place. -/
theorem laneItems_places (s : GameState) (lane : Int) :
    (laneItems s lane).Pairwise (fun a b => slotOf a ≠ slotOf b) ∧
      (∀ it ∈ laneItems s lane, it.type = 0 → it.idx.toNat < s.civilianCars.length) ∧
      ∀ it ∈ laneItems s lane, readSlot s (slotOf it) = it.y := by
  unfold laneItems
  simp only
  refine ⟨?_, ?_, ?_⟩
  · rw [List.pairwise_append]
    refine ⟨?_, ?_, ?_⟩
    · rw [List.pairwise_map]
      refine (laneVehicles_pairwise lane s.civilianCars 0).imp_of_mem ?_
      intro a b ha hb hab
      have h1 := (laneVehicles_mem lane _ 0 a ha).1
      have h2 := (laneVehicles_mem lane _ 0 b hb).1
      simp only [slotOf, if_true, ne_eq, Option.some.injEq]
      omega
    · split_ifs
      · exact List.pairwise_singleton _ _
      · exact List.Pairwise.nil
    · intro a ha b hb
      obtain ⟨i, -, rfl⟩ := List.mem_map.mp ha
      split_ifs at hb
      · rw [List.mem_singleton] at hb
        rw [hb]
        simp [slotOf]
      · simp at hb
  · intro it hit h0
    rcases List.mem_append.mp hit with hit | hit
    · obtain ⟨i, hi, rfl⟩ := List.mem_map.mp hit
      have := laneVehicles_mem lane _ 0 i hi
      simp only
      omega
    · split_ifs at hit
      · rw [List.mem_singleton] at hit
        rw [hit] at h0
        simp at h0
      · simp at hit
  · intro it hit
    rcases List.mem_append.mp hit with hit | hit
    · obtain ⟨i, hi, rfl⟩ := List.mem_map.mp hit
      rfl
    · split_ifs at hit
      · rw [List.mem_singleton] at hit
        rw [hit]
        rfl
      · simp at hit

/-- The items of a lane read again after the lane's pass are the items read
before it, with the positions the state holds after the pass. -/
theorem laneItems_sweepLane (s : GameState) (lane : Int) :
    laneItems (sweepLane s lane) lane =
      (laneItems s lane).map fun it =>
        { it with y := readSlot (sweepLane s lane) (slotOf it) } := by
  obtain ⟨fr, -⟩ := sweepLane_frame s lane
  have he := sweepLane_eraseY s lane
  have hca : (sweepLane s lane).criminal.active = s.criminal.active := by
    have := congrArg CriminalCar.active fr.criminal
    exact this
  have hcx : (sweepLane s lane).criminal.x = s.criminal.x := by
    have := congrArg CriminalCar.x fr.criminal
    exact this
  have hch : (sweepLane s lane).criminal.height = s.criminal.height := by
    have := congrArg CriminalCar.height fr.criminal
    exact this
  unfold laneItems
  simp only [hca, hcx, hch, fr.lanes, laneVehicles_congr lane _ _ 0 he, List.map_append,
    List.map_map]
  congr 1
  · refine List.map_congr_left ?_
    intro i _
    simp only [Function.comp, slotOf, if_true, readSlot]
    rw [height_congr _ _ i.toNat he]
  · split_ifs
    · rfl
    · rfl

/-! ## Lane sweep: the minimum gap -/

/-- The items at the end of a lane's pass keep the minimum gap, whatever the
items were. -/
theorem sweepItems_chain (items : List VehicleItem) :
    List.Chain' minGapHolds (sweepItems items) := by
  unfold sweepItems
  split
  · exact List.chain'_nil
  · exact adjustItems_chain _ _

/-- The occupants of a lane after the lane's pass, in ascending order of `y`,
are the vector `items` at the end of the pass, when all heights are positive. -/
theorem sweepLane_items (s : GameState) (lane : Int)
    (hpos : ∀ it ∈ laneItems s lane, 0 < it.h) :
    sortItems (laneItems (sweepLane s lane) lane) = sweepItems (laneItems s lane) := by
  obtain ⟨hpw, hv, hy⟩ := laneItems_places s lane
  have hperm : (sortItems (laneItems s lane)).Perm (laneItems s lane) :=
    List.perm_insertionSort _ _
  have hpwL : (sortItems (laneItems s lane)).Pairwise (fun a b => slotOf a ≠ slotOf b) :=
    hperm.symm.pairwise hpw (fun h => h.symm)
  have hitems := laneItems_sweepLane s lane
  have hperm2 : (laneItems (sweepLane s lane) lane).Perm
      ((sortItems (laneItems s lane)).map fun it =>
        { it with y := readSlot (sweepLane s lane) (slotOf it) }) := by
    rw [hitems]
    exact (hperm.map _).symm
  have hsw : sweepLane s lane =
      match sortItems (laneItems s lane) with
      | [] => s
      | first :: rest => adjustLoop first rest s := rfl
  have hsi : sweepItems (laneItems s lane) =
      match sortItems (laneItems s lane) with
      | [] => []
      | first :: rest => first :: adjustItems first rest := rfl
  rw [hsi]
  generalize sortItems (laneItems s lane) = L at hperm hpwL hperm2 hsw
  cases L with
  | nil =>
    have hnil : laneItems (sweepLane s lane) lane = [] := List.Perm.eq_nil hperm2
    rw [hnil]
    rfl
  | cons first rest =>
    simp only at hsw ⊢
    rw [List.pairwise_cons] at hpwL
    have hmem : ∀ it ∈ first :: rest, it ∈ laneItems s lane := fun it hit =>
      hperm.mem_iff.mp hit
    have hA : first :: adjustItems first rest =
        (first :: rest).map fun it =>
          { it with y := readSlot (sweepLane s lane) (slotOf it) } := by
      rw [List.map_cons, hsw,
        adjustLoop_other rest first s _ (fun it hit => (hpwL.1 it hit).symm),
        hy first (hmem first (List.mem_cons_self _ _))]
      congr 1
      exact adjustLoop_items rest first s hpwL.2
        (fun it hit => hv it (hmem it (List.mem_cons_of_mem _ hit)))
        (fun it hit => hy it (hmem it (List.mem_cons_of_mem _ hit)))
    have hposA : ∀ it ∈ adjustItems first rest, 0 < it.h := by
      intro it hit
      have h1 : it.h ∈ (adjustItems first rest).map fun it => it.h := List.mem_map_of_mem _ hit
      rw [adjustItems_heights] at h1
      obtain ⟨it2, hit2, h2⟩ := List.mem_map.mp h1
      rw [← h2]
      exact hpos it2 (hmem it2 (List.mem_cons_of_mem _ hit2))
    haveI : IsTrans VehicleItem (fun a b => a.y < b.y) := ⟨fun a b c h1 h2 => lt_trans h1 h2⟩
    have hsorted : (first :: adjustItems first rest).Sorted fun a b => a.y < b.y :=
      List.chain_iff_pairwise.mp (chain_gap_lt _ first (adjustItems_chain rest first)
        (hpos first (hmem first (List.mem_cons_self _ _))) hposA)
    refine sortItems_eq_of_strict _ _ hsorted ?_
    rw [hA]
    exact hperm2

/-- C13: for every state and lane whose occupants (the active civilian cars of
the lane, and the criminal when it is within 70 of the lane centre) have
positive heights, after that lane's single forward pass every pair of
occupants that are consecutive in the `y`-sorted order has gap
`y_later - y_earlier ≥ max(h_earlier, h_later) * 0.85 + 20`, over exact
rationals; the sorted occupants are the vector `items` at the end of the pass,
and that vector keeps the gap for every list of items, of any length and at
any positions. -/
theorem sweepLane_min_gap (s : GameState) (lane : Int)
    (hpos : ∀ it ∈ laneItems s lane, 0 < it.h) :
    List.Chain' (fun a b => b.y - a.y ≥ max a.h b.h * (85 / 100) + 20)
        (sortItems (laneItems (sweepLane s lane) lane)) ∧
      sortItems (laneItems (sweepLane s lane) lane) = sweepItems (laneItems s lane) ∧
      ∀ items : List VehicleItem,
        List.Chain' (fun a b => b.y - a.y ≥ max a.h b.h * (85 / 100) + 20) (sweepItems items) := by
  refine ⟨?_, sweepLane_items s lane hpos, sweepItems_chain⟩
  rw [sweepLane_items s lane hpos]
  exact sweepItems_chain _

/-- C13 (witness): in the call from `recycleState` lane 0 holds the bike of
slot 0 at `-352`, the bus of slot 2 at `-351.5` and the truck of slot 5 at
`999`; the pass lifts the bus to `-352 + (0.85 * 60 + 20) = -281`. -/
theorem sweepLane_min_gap_witness :
    (∀ it ∈ laneItems recycleMoved 0, 0 < it.h) ∧
      (sortItems (laneItems (sweepLane recycleMoved 0) 0)).map (fun it => it.y) =
        [-352, -281, 999] ∧
      List.Chain' (fun a b => b.y - a.y ≥ max a.h b.h * (85 / 100) + 20)
        (sortItems (laneItems (sweepLane recycleMoved 0) 0)) :=
  ⟨by decide!, by decide!, (sweepLane_min_gap recycleMoved 0 (by decide!)).1⟩

/-! ## The safe-state invariant -/

/-- The crash loop finds no car exactly when the collision test is false for
every active civilian car. -/
theorem policeCrashes_false_iff (s : GameState) :
    policeCrashes s = false ↔
      ∀ car ∈ s.civilianCars, car.active = true →
        checkCollisionScaled s.police.x s.police.y s.police.width s.police.height
          car.x car.y car.width car.height = false := by
  simp only [policeCrashes, List.any_eq_false, Bool.and_eq_true, not_and, Bool.not_eq_true]

/-- The state that `initGame` returns is safe when the police car has the base
size: the police car is put at the middle of the road, and every civilian car
starts above the screen. -/
theorem initGame_safe (s : GameState)
    (hw : s.police.width = BASE_VEH_W) (hh : s.police.height = BASE_VEH_H) :
    SafeState (initGame s) := by
  have hpol : (initGame s).police =
      { s.police with
        x := (WIDTH : ℚ) / 2, y := 80, vx := 0, leftPressed := false, rightPressed := false,
        sirenOn := true, sirenBlink := 0, maxVx := 250 } := by
    simp only [initGame, spawnCriminalOriginal, spawnAllLoop_police]
  obtain ⟨-, hcars⟩ := initGame_cars s
  refine ⟨?_, ?_⟩
  · rw [hpol]
    simp only [hw]
    norm_num [ROAD_LEFT, ROAD_RIGHT, WIDTH, BASE_VEH_W]
  · intro car hcar _
    have hy := (hcars car hcar).2
    rw [hpol]
    simp only [hh]
    rw [← Bool.not_eq_true, checkCollisionScaled_iff]
    simp only [HEIGHT, BASE_VEH_H] at hy ⊢
    push_cast at hy
    intro hc
    linarith [hc.2.2.2]

/-- A call of `updateGame` that does not leave the game over ends in a safe
state, if it started in a safe one. -/
theorem updateGame_safe (sinf : ℚ → ℚ) (s : GameState)
    (h : s.gameOver = false → SafeState s)
    (hend : (updateGame sinf s).gameOver = false) : SafeState (updateGame sinf s) := by
  by_cases hfr : s.paused = true ∨ s.gameOver = true
  · have heq : updateGame sinf s = s := by
      rcases hfr with hp | hg
      · simp [updateGame, hp]
      · simp [updateGame, hg]
    rw [heq] at hend ⊢
    exact h hend
  · have hp : s.paused = false := by
      cases hps : s.paused
      · rfl
      · exact absurd (Or.inl hps) hfr
    have hrun : s.gameOver = false := by
      cases hgs : s.gameOver
      · rfl
      · exact absurd (Or.inr hgs) hfr
    cases hroad : hitsRoadEdge (policeStep s)
    · obtain ⟨-, -, -, -, hgo⟩ := updateGame_fields sinf s hrun hp hroad
      rw [hend] at hgo
      have hpol := updateGame_police sinf s hrun hp hroad
      have hcars := updateGame_civilianCars sinf s hrun hp hroad
      obtain ⟨fr, -⟩ := beforeCriminal_frame s
      have hx : (updateGame sinf s).police.x = (policeStep s).police.x := by rw [hpol]
      have hy : (updateGame sinf s).police.y = (policeStep s).police.y := by rw [hpol]
      have hw : (updateGame sinf s).police.width = (policeStep s).police.width := by rw [hpol]
      have hh : (updateGame sinf s).police.height = (policeStep s).police.height := by rw [hpol]
      unfold SafeState
      rw [hx, hy, hw, hh, hcars]
      refine ⟨(hitsRoadEdge_false_iff _).mp hroad, ?_⟩
      have hc := (policeCrashes_false_iff (beforeCriminal s)).mp hgo.symm
      rw [fr.police] at hc
      exact hc
    · rw [updateGame_edge sinf s hrun hp hroad] at hend
      exact absurd hend (by simp)

/-- Every event keeps the police invariant together with safety of the states
that are not game over. -/
theorem applyEvent_safe (sinf : ℚ → ℚ) (s : GameState) (e : Event)
    (h : PoliceInv s ∧ (s.gameOver = false → SafeState s)) :
    PoliceInv (applyEvent sinf s e) ∧
      ((applyEvent sinf s e).gameOver = false → SafeState (applyEvent sinf s e)) := by
  refine ⟨applyEvent_policeInv sinf s e h.1, ?_⟩
  cases e with
  | tick => exact updateGame_safe sinf s h.2
  | keyR => exact fun _ => initGame_safe s h.1.1 h.1.2.1
  | keyS => exact h.2
  | keyP => exact h.2
  | leftDown =>
    simp only [applyEvent]
    split_ifs
    · exact h.2
    · exact h.2
  | rightDown =>
    simp only [applyEvent]
    split_ifs
    · exact h.2
    · exact h.2
  | leftUp => exact h.2
  | rightUp => exact h.2

/-- Safety holds in every state reached from a safe state that satisfies the
police invariant. -/
theorem runEvents_safe (sinf : ℚ → ℚ) : ∀ (evs : List Event) (t : GameState),
    PoliceInv t ∧ (t.gameOver = false → SafeState t) →
    PoliceInv (runEvents sinf t evs) ∧
      ((runEvents sinf t evs).gameOver = false → SafeState (runEvents sinf t evs)) := by
  intro evs
  induction evs with
  | nil => intro t ht; exact ht
  | cons e rest ih =>
    intro t ht
    exact ih _ (applyEvent_safe sinf t e ht)

/-- C17: in every state reachable from the first `initGame` by `updateGame`
calls and input events in which `gameOver` is false, the police car's
footprint lies strictly inside the road and `checkCollisionScaled` of the
police car and a civilian car is false for every active civilian car. -/
theorem safe_state_invariant (sinf : ℚ → ℚ) (s : GameState) (h : Reachable sinf s)
    (hrun : s.gameOver = false) :
    ROAD_LEFT < s.police.x - s.police.width / 2 ∧
      s.police.x + s.police.width / 2 < ROAD_RIGHT ∧
      ∀ car ∈ s.civilianCars, car.active = true →
        checkCollisionScaled s.police.x s.police.y s.police.width s.police.height
          car.x car.y car.width car.height = false := by
  obtain ⟨g, evs, rfl⟩ := h
  have hs := (runEvents_safe sinf evs _
    ⟨initGame_policeInv _ rfl rfl, fun _ => initGame_safe _ rfl rfl⟩).2 hrun
  exact ⟨hs.1.1, hs.1.2, hs.2⟩

/-- C17 (witness): the state after the first `initGame`, a press of the right
arrow and one call of `updateGame` is reachable and not game over; the police
car is strictly inside the road there. -/
theorem safe_state_invariant_witness :
    firstTickState.gameOver = false ∧
      ROAD_LEFT < firstTickState.police.x - firstTickState.police.width / 2 ∧
      firstTickState.police.x + firstTickState.police.width / 2 < ROAD_RIGHT :=
  have hrun : firstTickState.gameOver = false := by decide!
  ⟨hrun, (safe_state_invariant (fun _ => 0) firstTickState ⟨fun _ => 0, _, rfl⟩ hrun).1,
    (safe_state_invariant (fun _ => 0) firstTickState ⟨fun _ => 0, _, rfl⟩ hrun).2.1⟩

end NightPatrol
